import Mathlib

/-!
# Signal / subscriber dispatch of libqi (`src/src/signal.cpp`)

A shallow embedding of the signal engine: subscriber objects and private signal
states live in heaps addressed by natural numbers (the `shared_ptr` targets), the
process-wide link counter is a field of the world, and every call of a callback
(handler, subscribe-count hook, emission override, `metaPost`) is recorded in a
trace.  Handlers are behaviours that may call back into the signal API.

The second part embeds the handles of `src/libqimessaging/qimessaging/future.hpp`
(`Future`, `FutureSync`, `Promise`) over a heap of result cells, the third
`scopelock` of `src/ka/mutex.hpp` over mutexes that record who holds them.
-/

namespace qi

/-- Identifier of a thread (`boost::thread::id`). -/
abbrev ThreadId := Nat

/-- A link id (`SignalLink`, an unsigned integer type). -/
abbrev SignalLink := Nat

/-- Address of a heap-allocated `SignalSubscriber` (target of a `SignalSubscriberPtr`). -/
abbrev SubPtr := Nat

/-- Address of a heap-allocated `SignalBasePrivate`. -/
abbrev PrivPtr := Nat

/-- Address of a `SignalBase` object. -/
abbrev SigPtr := Nat

/-- Identity of a target object referred to through an `ObjectWeakPtr`. -/
abbrev ObjId := Nat

/-- The threading models `MetaCallType_Auto`, `MetaCallType_Direct`, `MetaCallType_Queued`. -/
inductive MetaCallType where
  | Auto
  | Direct
  | Queued
deriving DecidableEq, Repr

/-- A `qi::Signature` as far as the signal engine looks at it: the default-constructed
signature, the dynamic signature `"m"`, or a tuple with its children (type codes). -/
inductive Signature where
  | invalid
  | dynamic
  | tuple (children : List Nat)
deriving DecidableEq, Repr

/-- The list `children()` of a signature. -/
def Signature.children : Signature → List Nat
  | Signature.tuple cs => cs
  | _ => []

/-- One argument of an emission: the code of its type and its value. -/
structure AnyReference where
  typeCode : Nat
  value : Nat
deriving DecidableEq, Repr

/-- The argument list of an emission. -/
abbrev GenericFunctionParameters := List AnyReference

/-- How a handler invocation ends: normal return, `qi::PointerLockException`,
another `std::exception`, or anything else caught by `catch (...)`. -/
inductive Outcome where
  | returned
  | pointerLockException
  | stdException
  | unknownException
deriving DecidableEq, Repr

/-- The behaviour of a callable once it has received its arguments: it ends with an
outcome, possibly after calling back into the signal API (`disconnect`, `connect` of a
plain handler, `trigger`) and continuing according to what the call returned. -/
inductive Handler where
  | done (o : Outcome)
  | disconnect (sig : SigPtr) (l : SignalLink) (k : Bool → Handler)
  | connect (sig : SigPtr) (dyn : Bool) (arity : Nat) (psig : Signature)
      (model : MetaCallType) (body : GenericFunctionParameters → Handler)
      (k : Option SignalLink → Handler)
  | trigger (sig : SigPtr) (params : GenericFunctionParameters) (callType : MetaCallType)
      (k : Handler)

/-- An `AnyFunction` with what the reflection layer reports about it:
`dynamic` is `functionType() == dynamicFunctionTypeInterface()`, `arity` is
`argumentsType().size()`. -/
structure AnyFunction where
  dynamic : Bool
  arity : Nat
  parametersSignature : Signature
  body : GenericFunctionParameters → Handler

/-- The fields of a `SignalSubscriber`; `target` is the object behind the
`ObjectWeakPtr*` (`none` for the null pointer). -/
structure SignalSubscriber where
  source : SigPtr
  linkId : SignalLink
  handler : Option AnyFunction
  threadingModel : MetaCallType
  target : Option ObjId
  method : Nat
  enabled : Bool
  activeThreads : List ThreadId

/-- `SignalSubscriber::SignalSubscriber(qi::AnyObject target, unsigned int method)`;
`source` and `linkId` are left unset by the constructor (here 0). -/
def SignalSubscriber.ofObject (target : ObjId) (method : Nat) : SignalSubscriber :=
  { source := 0, linkId := 0, handler := none, threadingModel := MetaCallType.Direct,
    target := some target, method := method, enabled := true, activeThreads := [] }

/-- `SignalSubscriber::SignalSubscriber(AnyFunction func, MetaCallType model)`;
`source` and `linkId` are left unset by the constructor (here 0). -/
def SignalSubscriber.ofFunction (func : AnyFunction) (model : MetaCallType) :
    SignalSubscriber :=
  { source := 0, linkId := 0, handler := some func, threadingModel := model,
    target := none, method := 0, enabled := true, activeThreads := [] }

/-- The copy constructor, through `SignalSubscriber::operator=`: every field is copied
except the mutex and `activeThreads`, which start empty in the new object. -/
def SignalSubscriber.copy (b : SignalSubscriber) : SignalSubscriber :=
  { source := b.source, linkId := b.linkId, handler := b.handler,
    threadingModel := b.threadingModel, target := b.target, method := b.method,
    enabled := b.enabled, activeThreads := [] }

/-- The `SignalSubscriberMap` (a `std::map` from link id to subscriber pointer), kept
as the list of its entries in iteration order. -/
abbrev SignalSubscriberMap := List (SignalLink × SubPtr)

/-- The lookup `subscriberMap.find(l)`. -/
def mapFind : SignalSubscriberMap → SignalLink → Option SubPtr
  | [], _ => none
  | (k, v) :: rest, l => if k = l then some v else mapFind rest l

/-- The removal `subscriberMap.erase(it)` for `it = find(l)`. -/
def mapErase : SignalSubscriberMap → SignalLink → SignalSubscriberMap
  | [], _ => []
  | (k, v) :: rest, l => if k = l then rest else (k, v) :: mapErase rest l

/-- The assignment `subscriberMap[l] = s`: a new entry at its place in key order, or
the value of the existing entry replaced. -/
def mapSet : SignalSubscriberMap → SignalLink → SubPtr → SignalSubscriberMap
  | [], l, s => [(l, s)]
  | (k, v) :: rest, l, s =>
    if l < k then (l, s) :: (k, v) :: rest
    else if l = k then (l, s) :: rest
    else (k, v) :: mapSet rest l s

/-- The representation invariant of a `std::map`: keys strictly ascending. -/
def mapSorted (m : SignalSubscriberMap) : Prop :=
  m.Pairwise (fun a b => a.1 < b.1)

instance (m : SignalSubscriberMap) : Decidable (mapSorted m) := by
  unfold mapSorted
  infer_instance

/-- The fields of `SignalBasePrivate`; the two callbacks are known by an identifier,
`none` standing for an empty `boost::function`. -/
structure SignalBasePrivate where
  subscriberMap : SignalSubscriberMap
  signature : Signature
  defaultCallType : MetaCallType
  triggerOverride : Option Nat
  onSubscribers : Option Nat
deriving DecidableEq, Repr

/-- A `SignalBase` object: its pointer `_p` to the private state, possibly null. -/
structure SignalBase where
  _p : Option PrivPtr
deriving DecidableEq, Repr

/-- A call that leaves the signal engine. -/
inductive Event where
  | handlerCall (s : SubPtr) (tid : ThreadId) (args : GenericFunctionParameters)
  | metaPost (obj : ObjId) (method : Nat) (args : GenericFunctionParameters)
  | onSubscribers (cb : Nat) (b : Bool)
  | triggerOverride (cb : Nat) (args : GenericFunctionParameters) (callType : MetaCallType)
deriving DecidableEq, Repr

/-- The task posted to the event loop by `SignalSubscriber::call`: the copied
arguments and a strong reference to the subscriber. -/
structure FunctorCall where
  params : GenericFunctionParameters
  sub : SubPtr
deriving DecidableEq, Repr

/-- The state of the process as the signal engine sees it.  `linkUid` is the static
counter; `linkBits` is the width of the unsigned type `SignalLink`, whose typedef is
outside the sources; `alive`, `methods` and `isConvertibleTo` are the answers of the
external collaborators (weak pointer `lock()`, `metaObject().method(id)`,
`Signature::isConvertibleTo`); `eventLoop` is the queue of the default thread pool
event loop, `none` once it is destroyed. -/
structure World where
  linkUid : Int
  linkBits : Nat
  subs : SubPtr → SignalSubscriber
  nextSub : SubPtr
  privs : PrivPtr → SignalBasePrivate
  nextPriv : PrivPtr
  signals : SigPtr → SignalBase
  alive : ObjId → Bool
  methods : ObjId → Nat → Option Signature
  isConvertibleTo : Signature → Signature → Bool
  eventLoop : Option (List FunctorCall)
  trace : List Event

/-- Append a call to the trace. -/
def World.log (w : World) (e : Event) : World :=
  { w with trace := w.trace ++ [e] }

/-- Overwrite the subscriber object at address `s`. -/
def World.setSub (w : World) (s : SubPtr) (x : SignalSubscriber) : World :=
  { w with subs := Function.update w.subs s x }

/-- Overwrite the private state at address `pp`. -/
def World.setPriv (w : World) (pp : PrivPtr) (x : SignalBasePrivate) : World :=
  { w with privs := Function.update w.privs pp x }

/-- The pre-increment `++linkUid` of the `qi::Atomic<int>`: 32-bit two-complement. -/
def incrLinkUid (x : Int) : Int :=
  if x + 1 < 2147483648 then x + 1 else x + 1 - 4294967296

/-- The conversion of the `int` counter value to the unsigned `SignalLink`. -/
def toSignalLink (bits : Nat) (i : Int) : SignalLink :=
  (i % ((2 ^ bits : Nat) : Int)).toNat

/-- A `SignalBasePrivate` as `boost::make_shared<SignalBasePrivate>()` leaves it:
no subscriber, default signature, no callback. -/
def SignalBasePrivate.fresh : SignalBasePrivate :=
  { subscriberMap := [], signature := Signature.invalid,
    defaultCallType := MetaCallType.Auto, triggerOverride := none, onSubscribers := none }

/-- The statement `if (!_p) _p = boost::make_shared<SignalBasePrivate>();`, giving the
private state of the signal afterwards. -/
def SignalBase.ensurePrivate (sig : SigPtr) (w : World) : PrivPtr × World :=
  match (w.signals sig)._p with
  | some pp => (pp, w)
  | none =>
    (w.nextPriv,
      { w with privs := Function.update w.privs w.nextPriv SignalBasePrivate.fresh,
               nextPriv := w.nextPriv + 1,
               signals := Function.update w.signals sig { _p := some w.nextPriv } })

/-- `SignalBase::signature() const`. -/
def SignalBase.signature (sig : SigPtr) (w : World) : Signature :=
  match (w.signals sig)._p with
  | some pp => (w.privs pp).signature
  | none => Signature.invalid

/-- `SignalBase::hasSubscribers()`. -/
def SignalBase.hasSubscribers (sig : SigPtr) (w : World) : Bool :=
  match (w.signals sig)._p with
  | none => false
  | some pp => !(w.privs pp).subscriberMap.isEmpty

/-- The subscriber map of a signal, empty when it has no private state. -/
def SignalBase.subscriberMap (sig : SigPtr) (w : World) : SignalSubscriberMap :=
  match (w.signals sig)._p with
  | none => []
  | some pp => (w.privs pp).subscriberMap

/-- The part of `SignalBase::connect` after the label `proceed:`: take the next link
id, allocate the copy of `src`, insert it, and call the hook if the map was empty. -/
def SignalBase.connectProceed (sig : SigPtr) (pp : PrivPtr) (src : SignalSubscriber)
    (w : World) : Option SubPtr × World :=
  let uid := incrLinkUid w.linkUid
  let res := toSignalLink w.linkBits uid
  let s := w.nextSub
  let sub := { SignalSubscriber.copy src with linkId := res, source := sig }
  let p := w.privs pp
  let first := p.subscriberMap.isEmpty
  let w1 : World :=
    { w with linkUid := uid, nextSub := s + 1,
             subs := Function.update w.subs s sub,
             privs := Function.update w.privs pp
               { p with subscriberMap := mapSet p.subscriberMap res s } }
  match first, p.onSubscribers with
  | true, some cb => (some s, w1.log (Event.onSubscribers cb true))
  | _, _ => (some s, w1)

/-- The two final checks of `SignalBase::connect` (arity, then convertibility). -/
def SignalBase.connectCheck (sig : SigPtr) (pp : PrivPtr) (src : SignalSubscriber)
    (sigArity subArity : Int) (subSignature : Signature) (w : World) :
    Option SubPtr × World :=
  if sigArity ≠ subArity then (none, w)
  else if !(w.isConvertibleTo (SignalBase.signature sig w) subSignature) then (none, w)
  else SignalBase.connectProceed sig pp src w

/-- `SignalBase::connect(const SignalSubscriber& src)`; `none` is the static
`invalid` subscriber, `some s` the newly registered one. -/
def SignalBase.connect (sig : SigPtr) (src : SignalSubscriber) (w0 : World) :
    Option SubPtr × World :=
  let (pp, w) := SignalBase.ensurePrivate sig w0
  let sigArity : Int := (SignalBase.signature sig w).children.length
  if SignalBase.signature sig w = Signature.dynamic then
    SignalBase.connectProceed sig pp src w
  else
    match src.handler with
    | some h =>
      if h.dynamic then SignalBase.connectProceed sig pp src w
      else SignalBase.connectCheck sig pp src sigArity h.arity h.parametersSignature w
    | none =>
      match src.target with
      | some obj =>
        if !(w.alive obj) then (none, w)
        else
          match w.methods obj src.method with
          | none => SignalBase.connectProceed sig pp src w
          | some ms => SignalBase.connectCheck sig pp src sigArity ms.children.length ms w
      | none => SignalBase.connectCheck sig pp src sigArity (-1) Signature.invalid w

/-- `SignalSubscriber::addActive`: `activeThreads.push_back(id)`. -/
def addActiveList (id : ThreadId) (a : List ThreadId) : List ThreadId :=
  a ++ [id]

/-- The loop of `SignalSubscriber::removeActive` from index `i` on: where
`activeThreads[i] == id` the last entry is copied to place `i` and the vector is
popped, and in both cases `i` moves on.  The first argument bounds the number of
iterations left; the length of the vector is enough. -/
def removeActiveLoop (id : ThreadId) : Nat → Nat → List ThreadId → List ThreadId
  | 0, _, a => a
  | fuel + 1, i, a =>
    if i < a.length then
      if a[i]? = some id then
        removeActiveLoop id fuel (i + 1) ((a.set i (a.getLastD id)).dropLast)
      else removeActiveLoop id fuel (i + 1) a
    else a

/-- `SignalSubscriber::removeActive` on the vector `activeThreads`. -/
def removeActiveList (id : ThreadId) (a : List ThreadId) : List ThreadId :=
  removeActiveLoop id a.length 0 a

/-- `SignalSubscriber::addActive(acquireLock, id)` on the subscriber at `s`. -/
def SignalSubscriber.addActive (s : SubPtr) (id : ThreadId) (w : World) : World :=
  w.setSub s { w.subs s with activeThreads := addActiveList id (w.subs s).activeThreads }

/-- `SignalSubscriber::removeActive(acquireLock, id)` on the subscriber at `s`. -/
def SignalSubscriber.removeActive (s : SubPtr) (id : ThreadId) (w : World) : World :=
  w.setSub s
    { w.subs s with activeThreads := removeActiveList id (w.subs s).activeThreads }

/-- What another thread does to a subscriber while this thread sleeps in
`waitForInactive`: it passes the locked check of `enabled` and registers itself as
active, it leaves a handler and unregisters, or it does nothing of interest. -/
inductive EnvStep where
  | enter (s : SubPtr) (id : ThreadId)
  | leave (s : SubPtr) (id : ThreadId)
  | idle
deriving DecidableEq, Repr

/-- The thread an environment step belongs to, if any. -/
def EnvStep.thread : EnvStep → Option ThreadId
  | EnvStep.enter _ id => some id
  | EnvStep.leave _ id => some id
  | EnvStep.idle => none

/-- The effect of one step of another thread. -/
def EnvStep.apply : EnvStep → World → World
  | EnvStep.enter s id, w =>
    if (w.subs s).enabled then SignalSubscriber.addActive s id w else w
  | EnvStep.leave s id, w => SignalSubscriber.removeActive s id w
  | EnvStep.idle, w => w

/-- The effect of a sequence of steps of other threads. -/
def applyEnv : List EnvStep → World → World
  | [], w => w
  | e :: rest, w => applyEnv rest (e.apply w)

/-- The result of running an operation on the calling thread: it returns a value,
leaving a state and the steps the other threads have not taken yet; it lets
`std::runtime_error("Event loop was destroyed")` escape; it polls for ever in
`waitForInactive` because the other threads take no further step; or the recursion
bound of the model was reached. -/
inductive Res (α : Type) where
  | ok (a : α) (w : World) (env : List EnvStep)
  | threw (w : World) (env : List EnvStep)
  | blocked (w : World)
  | outOfFuel

/-- Sequencing: continue with `f` after a normal return, stop otherwise. -/
def Res.andThen {α β : Type} (r : Res α) (f : α → World → List EnvStep → Res β) : Res β :=
  match r with
  | Res.ok a w env => f a w env
  | Res.threw w env => Res.threw w env
  | Res.blocked w => Res.blocked w
  | Res.outOfFuel => Res.outOfFuel

/-- Whether the operation returned normally. -/
def Res.returned {α : Type} : Res α → Bool
  | Res.ok _ _ _ => true
  | _ => false

/-- Whether the operation polls for ever. -/
def Res.isBlocked {α : Type} : Res α → Bool
  | Res.blocked _ => true
  | _ => false

/-- The state an operation ends in (or is stuck in), if there is one. -/
def Res.world? {α : Type} : Res α → Option World
  | Res.ok _ w _ => some w
  | Res.threw w _ => some w
  | Res.blocked w => some w
  | Res.outOfFuel => none

/-- The test shared by `SignalBasePrivate::disconnect` and `waitForInactive`:
`activeThreads.empty() || (activeThreads.size() == 1 && *activeThreads.begin() == tid)`. -/
def inactiveFor (tid : ThreadId) (a : List ThreadId) : Bool :=
  a.isEmpty || (a.length == 1 && a.head? == some tid)

/-- `SignalSubscriber::waitForInactive()` called on thread `tid`: test under the
mutex, return or sleep one millisecond (during which the other threads take their
next step) and test again. -/
def SignalSubscriber.waitForInactive (tid : ThreadId) (s : SubPtr) :
    World → List EnvStep → Res Unit
  | w, [] =>
    if inactiveFor tid (w.subs s).activeThreads then Res.ok () w [] else Res.blocked w
  | w, e :: rest =>
    if inactiveFor tid (w.subs s).activeThreads then Res.ok () w (e :: rest)
    else SignalSubscriber.waitForInactive tid s (e.apply w) rest

/-- The part of `SignalBasePrivate::disconnect` that runs under the mutexes once the
link `l` has been found at the subscriber `s`: erase the entry, clear `enabled`, call
the hook if the map is empty now. -/
def SignalBasePrivate.detach (pp : PrivPtr) (l : SignalLink) (s : SubPtr) (w : World) :
    World :=
  let w1 := w.setPriv pp
    { w.privs pp with subscriberMap := mapErase (w.privs pp).subscriberMap l }
  let w2 := w1.setSub s { w1.subs s with enabled := false }
  match (w2.privs pp).subscriberMap.isEmpty, (w2.privs pp).onSubscribers with
  | true, some cb => w2.log (Event.onSubscribers cb false)
  | _, _ => w2

/-- `SignalBasePrivate::disconnect(const SignalLink& l)` called on thread `tid`. -/
def SignalBasePrivate.disconnect (tid : ThreadId) (pp : PrivPtr) (l : SignalLink)
    (w : World) (env : List EnvStep) : Res Bool :=
  match mapFind (w.privs pp).subscriberMap l with
  | none => Res.ok false w env
  | some s =>
    let w3 := SignalBasePrivate.detach pp l s w
    if inactiveFor tid (w3.subs s).activeThreads then Res.ok true w3 env
    else
      (SignalSubscriber.waitForInactive tid s w3 env).andThen
        fun _ w4 env4 => Res.ok true w4 env4

/-- `SignalBase::disconnect(const SignalLink& link)` called on thread `tid`. -/
def SignalBase.disconnect (tid : ThreadId) (sig : SigPtr) (link : SignalLink)
    (w : World) (env : List EnvStep) : Res Bool :=
  match (w.signals sig)._p with
  | none => Res.ok false w env
  | some pp => SignalBasePrivate.disconnect tid pp link w env

/-- `SignalSubscriber::call(args, callType)` on the subscriber at `s`, on thread `tid`;
`runH` runs the behaviour of a handler. -/
def SignalSubscriber.callWith
    (runH : Handler → ThreadId → World → List EnvStep → Res Outcome)
    (tid : ThreadId) (s : SubPtr) (args : GenericFunctionParameters)
    (callType : MetaCallType) (w : World) (env : List EnvStep) : Res Unit :=
  match (w.subs s).handler with
  | some h =>
    let async : Bool :=
      if (w.subs s).threadingModel ≠ MetaCallType.Auto then
        (w.subs s).threadingModel = MetaCallType.Queued
      else if callType ≠ MetaCallType.Auto then callType = MetaCallType.Queued
      else true
    if async then
      match w.eventLoop with
      | none => Res.threw w env
      | some q => Res.ok () { w with eventLoop := some (q ++ [{ params := args, sub := s }]) } env
    else if !(w.subs s).enabled then Res.ok () w env
    else
      let w1 := (SignalSubscriber.addActive s tid w).log (Event.handlerCall s tid args)
      match runH (h.body args) tid w1 env with
      | Res.ok o w2 env2 =>
        let w3 := SignalSubscriber.removeActive s tid w2
        if o = Outcome.pointerLockException then
          (SignalBase.disconnect tid (w3.subs s).source (w3.subs s).linkId w3 env2).andThen
            fun _ w4 env4 => Res.ok () w4 env4
        else Res.ok () w3 env2
      | Res.threw w2 env2 => Res.ok () (SignalSubscriber.removeActive s tid w2) env2
      | Res.blocked w2 => Res.blocked w2
      | Res.outOfFuel => Res.outOfFuel
  | none =>
    match (w.subs s).target with
    | some obj =>
      if !(w.alive obj) then
        (SignalBase.disconnect tid (w.subs s).source (w.subs s).linkId w env).andThen
          fun _ w4 env4 => Res.ok () w4 env4
      else Res.ok () (w.log (Event.metaPost obj (w.subs s).method args)) env
    | none => Res.ok () w env

/-- The loop of `SignalBase::callSubscribers` over the snapshot `copy`. -/
def callEachWith (runH : Handler → ThreadId → World → List EnvStep → Res Outcome)
    (tid : ThreadId) (params : GenericFunctionParameters) (mct : MetaCallType) :
    SignalSubscriberMap → World → List EnvStep → Res Unit
  | [], w, env => Res.ok () w env
  | (_, s) :: rest, w, env =>
    (SignalSubscriber.callWith runH tid s params mct w env).andThen
      fun _ w1 env1 => callEachWith runH tid params mct rest w1 env1

/-- `SignalBase::callSubscribers(params, callType)` called on thread `tid`. -/
def SignalBase.callSubscribersWith
    (runH : Handler → ThreadId → World → List EnvStep → Res Outcome)
    (tid : ThreadId) (sig : SigPtr) (params : GenericFunctionParameters)
    (callType : MetaCallType) (w : World) (env : List EnvStep) : Res Unit :=
  match (w.signals sig)._p with
  | none => Res.ok () w env
  | some pp =>
    let mct := if callType = MetaCallType.Auto then (w.privs pp).defaultCallType else callType
    callEachWith runH tid params mct (w.privs pp).subscriberMap w env

/-- `SignalBase::trigger(params, callType)` called on thread `tid`. -/
def SignalBase.triggerWith
    (runH : Handler → ThreadId → World → List EnvStep → Res Outcome)
    (tid : ThreadId) (sig : SigPtr) (params : GenericFunctionParameters)
    (callType : MetaCallType) (w : World) (env : List EnvStep) : Res Unit :=
  match (w.signals sig)._p with
  | none => Res.ok () w env
  | some pp =>
    match (w.privs pp).triggerOverride with
    | some cb => Res.ok () (w.log (Event.triggerOverride cb params callType)) env
    | none => SignalBase.callSubscribersWith runH tid sig params callType w env

/-- Running the behaviour of a handler on thread `tid`; the first argument bounds the
number of steps of handler code (every call into the signal API is one step). -/
def runHandler : Nat → Handler → ThreadId → World → List EnvStep → Res Outcome
  | 0, _, _, _, _ => Res.outOfFuel
  | _ + 1, Handler.done o, _, w, env => Res.ok o w env
  | n + 1, Handler.disconnect sig l k, tid, w, env =>
    (SignalBase.disconnect tid sig l w env).andThen
      fun b w1 env1 => runHandler n (k b) tid w1 env1
  | n + 1, Handler.connect sig dyn arity psig model body k, tid, w, env =>
    let r := SignalBase.connect sig
      (SignalSubscriber.ofFunction
        { dynamic := dyn, arity := arity, parametersSignature := psig, body := body } model) w
    runHandler n (k (r.1.map fun s => (r.2.subs s).linkId)) tid r.2 env
  | n + 1, Handler.trigger sig params callType k, tid, w, env =>
    match SignalBase.triggerWith (runHandler n) tid sig params callType w env with
    | Res.ok _ w1 env1 => runHandler n k tid w1 env1
    | Res.threw w1 env1 => Res.ok Outcome.stdException w1 env1
    | Res.blocked w1 => Res.blocked w1
    | Res.outOfFuel => Res.outOfFuel

/-- `SignalSubscriber::call` with handlers run under the step bound `fuel`. -/
def SignalSubscriber.call (fuel : Nat) (tid : ThreadId) (s : SubPtr)
    (args : GenericFunctionParameters) (callType : MetaCallType) (w : World)
    (env : List EnvStep) : Res Unit :=
  SignalSubscriber.callWith (runHandler fuel) tid s args callType w env

/-- `SignalBase::callSubscribers` with handlers run under the step bound `fuel`. -/
def SignalBase.callSubscribers (fuel : Nat) (tid : ThreadId) (sig : SigPtr)
    (params : GenericFunctionParameters) (callType : MetaCallType) (w : World)
    (env : List EnvStep) : Res Unit :=
  SignalBase.callSubscribersWith (runHandler fuel) tid sig params callType w env

/-- `SignalBase::trigger` with handlers run under the step bound `fuel`. -/
def SignalBase.trigger (fuel : Nat) (tid : ThreadId) (sig : SigPtr)
    (params : GenericFunctionParameters) (callType : MetaCallType) (w : World)
    (env : List EnvStep) : Res Unit :=
  SignalBase.triggerWith (runHandler fuel) tid sig params callType w env

/-- `SignalBase::SignalBase(const qi::Signature& sig, OnSubscribers onSubscribers)`
building the object at address `sig`; `none` when the constructor throws because the
signature is neither dynamic nor a tuple. -/
def SignalBase.construct (sig : SigPtr) (sgn : Signature) (onSubscribers : Option Nat)
    (w : World) : Option World :=
  match sgn with
  | Signature.invalid => none
  | _ =>
    some { w with
      privs := Function.update w.privs w.nextPriv
        { SignalBasePrivate.fresh with onSubscribers := onSubscribers, signature := sgn },
      nextPriv := w.nextPriv + 1,
      signals := Function.update w.signals sig { _p := some w.nextPriv } }

/-- The state of a process that has not touched the signal engine yet: the counter
holds 1, no signal, no subscriber, an empty event loop; the collaborators are given. -/
def World.initial (linkBits : Nat) (alive : ObjId → Bool)
    (methods : ObjId → Nat → Option Signature)
    (isConvertibleTo : Signature → Signature → Bool) : World :=
  { linkUid := 1, linkBits := linkBits,
    subs := fun _ => SignalSubscriber.ofObject 0 0, nextSub := 0,
    privs := fun _ => SignalBasePrivate.fresh, nextPriv := 0,
    signals := fun _ => { _p := none },
    alive := alive, methods := methods, isConvertibleTo := isConvertibleTo,
    eventLoop := some [], trace := [] }

/-- The subscribe-count hook of a signal, `none` when it has no private state or the
`boost::function` is empty. -/
def SignalBase.hook (sig : SigPtr) (w : World) : Option Nat :=
  match (w.signals sig)._p with
  | none => none
  | some pp => (w.privs pp).onSubscribers

/-- A call of the public API by client code. -/
inductive SignalOp where
  | connect (sig : SigPtr) (src : SignalSubscriber)
  | disconnect (tid : ThreadId) (sig : SigPtr) (link : SignalLink)

/-- Run a sequence of API calls; the value is the list of the link ids of the
subscribers returned by the successful `connect` calls, in order. -/
def runOps : List SignalOp → World → List EnvStep → Res (List SignalLink)
  | [], w, env => Res.ok [] w env
  | SignalOp.connect sig src :: rest, w, env =>
    let r := SignalBase.connect sig src w
    (runOps rest r.2 env).andThen fun ls w1 env1 =>
      Res.ok ((r.1.map fun s => (r.2.subs s).linkId).toList ++ ls) w1 env1
  | SignalOp.disconnect tid sig link :: rest, w, env =>
    (SignalBase.disconnect tid sig link w env).andThen fun _ w1 env1 => runOps rest w1 env1

/-- The handler invocations recorded in a trace, in order: subscriber, thread and
arguments of each. -/
def handlerCalls : List Event → List (SubPtr × ThreadId × GenericFunctionParameters)
  | [] => []
  | Event.handlerCall s tid args :: rest => (s, tid, args) :: handlerCalls rest
  | _ :: rest => handlerCalls rest

/-- A process without signals in which every object but object 6 is alive, objects
expose no method, and a signature converts to itself only. -/
def demoInit : World :=
  World.initial 64 (fun o => decide (o ≠ 6)) (fun _ _ => none) (fun a b => decide (a = b))

/-- Signal 0 constructed with the signature of no argument and the hook 9. -/
def demoNullary : World :=
  (SignalBase.construct 0 (Signature.tuple []) (some 9) demoInit).getD demoInit

/-- Signal 0 constructed with the dynamic signature and the hook 9. -/
def demoDynamic : World :=
  (SignalBase.construct 0 Signature.dynamic (some 9) demoInit).getD demoInit

/-- Signal 0 constructed with a signature of one argument and no hook. -/
def demoUnary : World :=
  (SignalBase.construct 0 (Signature.tuple [1]) none demoInit).getD demoInit

/-- A plain function of no argument that returns at once. -/
def nullaryFunction : AnyFunction :=
  { dynamic := false, arity := 0, parametersSignature := Signature.tuple [],
    body := fun _ => Handler.done Outcome.returned }

/-- A function of the dynamic function type, reporting no argument type. -/
def dynamicFunction : AnyFunction :=
  { dynamic := true, arity := 0, parametersSignature := Signature.invalid,
    body := fun _ => Handler.done Outcome.returned }

/-- A plain function of one argument that returns at once. -/
def unaryFunction : AnyFunction :=
  { dynamic := false, arity := 1, parametersSignature := Signature.tuple [1],
    body := fun _ => Handler.done Outcome.returned }

/-- A plain function of no argument that raises `qi::PointerLockException`. -/
def expiredFunction : AnyFunction :=
  { dynamic := false, arity := 0, parametersSignature := Signature.tuple [],
    body := fun _ => Handler.done Outcome.pointerLockException }

/-- Signal 0 of `demoNullary` with one idle plain subscriber (link 2, subscriber 0). -/
def demoOne : World :=
  (SignalBase.connect 0 (SignalSubscriber.ofFunction nullaryFunction MetaCallType.Direct)
    demoNullary).2

/-- The state `demoOne` after link 2 has been disconnected. -/
def demoGone : World :=
  (Res.world? (SignalBase.disconnect 1 0 2 demoOne [])).getD demoOne

/-- Signal 0 of `demoNullary` with two idle plain subscribers: link 2 is
`expiredFunction` (subscriber 0, Direct), link 3 is `nullaryFunction` (subscriber 1,
Auto). -/
def demoTwo : World :=
  (SignalBase.connect 0 (SignalSubscriber.ofFunction nullaryFunction MetaCallType.Auto)
    (SignalBase.connect 0 (SignalSubscriber.ofFunction expiredFunction MetaCallType.Direct)
      demoNullary).2).2

/-- Four API calls on signal 0: two connects, the disconnect of the first link, and a
third connect. -/
def demoOps : List SignalOp :=
  [SignalOp.connect 0 (SignalSubscriber.ofFunction nullaryFunction MetaCallType.Direct),
   SignalOp.connect 0 (SignalSubscriber.ofObject 5 3),
   SignalOp.disconnect 1 0 2,
   SignalOp.connect 0 (SignalSubscriber.ofFunction nullaryFunction MetaCallType.Queued)]

/-- The state `demoNullary` after the calls `demoOps`. -/
def demoOpsDone : World :=
  (Res.world? (runOps demoOps demoNullary [])).getD demoNullary

/-- Signal 0 of `demoNullary` with one plain subscriber (link 2, subscriber 0) whose
handler is running on thread 7. -/
def demoBusy : World :=
  (EnvStep.enter 0 7).apply
    (SignalBase.connect 0 (SignalSubscriber.ofFunction nullaryFunction MetaCallType.Direct)
      demoNullary).2

/-- A plain function of no argument that disconnects link 3 of signal 0 and returns. -/
def disconnectsLink3 : AnyFunction :=
  { dynamic := false, arity := 0, parametersSignature := Signature.tuple [],
    body := fun _ => Handler.disconnect 0 3 (fun _ => Handler.done Outcome.returned) }

/-- Signal 0 of `demoNullary` with two subscribers: link 2 is the plain handler
`disconnectsLink3` (subscriber 0, Direct), link 3 is method 3 of the live object 5
(subscriber 1). -/
def demoTarget : World :=
  (SignalBase.connect 0 (SignalSubscriber.ofObject 5 3)
    (SignalBase.connect 0 (SignalSubscriber.ofFunction disconnectsLink3 MetaCallType.Direct)
      demoNullary).2).2

/-- Signal 0 of `demoNullary` with two plain Direct subscribers: link 2 is
`disconnectsLink3` (subscriber 0), link 3 is `nullaryFunction` (subscriber 1). -/
def demoPair : World :=
  (SignalBase.connect 0 (SignalSubscriber.ofFunction nullaryFunction MetaCallType.Direct)
    (SignalBase.connect 0 (SignalSubscriber.ofFunction disconnectsLink3 MetaCallType.Direct)
      demoNullary).2).2

/-- A plain function of no argument that disconnects link 3 of signal 0; if that
link was connected it emits signal 0 again (Direct), otherwise it disconnects link 2
of signal 0, the link of its own subscriber in `demoReentrant`. -/
def reentrantFunction : AnyFunction :=
  { dynamic := false, arity := 0, parametersSignature := Signature.tuple [],
    body := fun _ => Handler.disconnect 0 3 (fun b =>
      if b then Handler.trigger 0 [] MetaCallType.Direct (Handler.done Outcome.returned)
      else Handler.disconnect 0 2 (fun _ => Handler.done Outcome.returned)) }

/-- Signal 0 of `demoNullary` with two subscribers: link 2 is the plain handler
`reentrantFunction` (subscriber 0, Direct), link 3 is method 3 of the live object 5
(subscriber 1). -/
def demoReentrant : World :=
  (SignalBase.connect 0 (SignalSubscriber.ofObject 5 3)
    (SignalBase.connect 0 (SignalSubscriber.ofFunction reentrantFunction MetaCallType.Direct)
      demoNullary).2).2

/-- The state of `demoReentrant` when the emission on thread 1 has entered the handler
of subscriber 0 for the first time. -/
def demoEntered : World :=
  (SignalSubscriber.addActive 0 1 demoReentrant).log (Event.handlerCall 0 1 [])

/-- The state in which that handler, having disconnected link 3, emits signal 0 again. -/
def demoReemit : World :=
  SignalBasePrivate.detach 0 3 1 demoEntered

/-- The state when the nested emission has entered the handler of subscriber 0 for the
second time: this is where the handler disconnects its own link 2. -/
def demoNested : World :=
  (SignalSubscriber.addActive 0 1 demoReemit).log (Event.handlerCall 0 1 [])

/-- The answer of the reflection layer to `qi::makeTupleSignature(params)`: the tuple
signature made of the type codes of the arguments. -/
def makeTupleSignature (params : GenericFunctionParameters) : Signature :=
  Signature.tuple (params.map fun p => p.typeCode)

/-- `SignalBase::operator()(p1, ..., p8)` called on thread `tid`; an `AutoAnyReference`
whose value is null is `none` and is skipped.  The result is `none` when `_p` is null,
which the function dereferences without a test. -/
def SignalBase.emit (fuel : Nat) (tid : ThreadId) (sig : SigPtr)
    (p1 p2 p3 p4 p5 p6 p7 p8 : Option AnyReference) (w : World) (env : List EnvStep) :
    Option (Res Unit) :=
  let params : GenericFunctionParameters :=
    [p1, p2, p3, p4, p5, p6, p7, p8].filterMap id
  let signature := makeTupleSignature params
  match (w.signals sig)._p with
  | none => none
  | some pp =>
    if signature ≠ (w.privs pp).signature then some (Res.ok () w env)
    else some (SignalBase.trigger fuel tid sig params (w.privs pp).defaultCallType w env)

/-- `SignalBase::setTriggerOverride(Trigger t)`. -/
def SignalBase.setTriggerOverride (sig : SigPtr) (t : Option Nat) (w0 : World) : World :=
  let r := SignalBase.ensurePrivate sig w0
  r.2.setPriv r.1 { r.2.privs r.1 with triggerOverride := t }

/-- `SignalBase::setCallType(MetaCallType callType)`. -/
def SignalBase.setCallType (sig : SigPtr) (callType : MetaCallType) (w0 : World) : World :=
  let r := SignalBase.ensurePrivate sig w0
  r.2.setPriv r.1 { r.2.privs r.1 with defaultCallType := callType }

/-- The second loop of `SignalBase::~SignalBase`: `p->disconnect(links[i])` for each
collected link. -/
def disconnectEach (tid : ThreadId) (pp : PrivPtr) :
    List SignalLink → World → List EnvStep → Res Unit
  | [], w, env => Res.ok () w env
  | l :: rest, w, env =>
    (SignalBasePrivate.disconnect tid pp l w env).andThen
      fun _ w1 env1 => disconnectEach tid pp rest w1 env1

/-- `SignalBase::~SignalBase()` run on thread `tid`: clear the hook, take the private
state away from the object, collect the links, disconnect each.  The private state
stays at its address so that it can be looked at afterwards. -/
def SignalBase.destroy (tid : ThreadId) (sig : SigPtr) (w : World) (env : List EnvStep) :
    Res Unit :=
  match (w.signals sig)._p with
  | none => Res.ok () w env
  | some pp =>
    let w1 := w.setPriv pp { w.privs pp with onSubscribers := none }
    let w2 : World := { w1 with signals := Function.update w1.signals sig { _p := none } }
    disconnectEach tid pp ((w2.privs pp).subscriberMap.map Prod.fst) w2 env

/-- The dispatch mode as the specification words it: the preference of the subscriber
unless it is Auto, else the mode asked for by the emission unless it is Auto, else the
default call type of the signal. -/
def specEffectiveMode (preference requested default : MetaCallType) : MetaCallType :=
  if preference ≠ MetaCallType.Auto then preference
  else if requested ≠ MetaCallType.Auto then requested
  else default

/-- The mode `SignalBase::callSubscribers` hands to `SignalSubscriber::call`. -/
def resolveCallType (callType default : MetaCallType) : MetaCallType :=
  if callType = MetaCallType.Auto then default else callType


/-- Signal 0 of `demoTwo` with the emission override 4 installed. -/
def demoOverride : World :=
  SignalBase.setTriggerOverride 0 (some 4) demoTwo

/-- Signal 0 of `demoNullary` (default call type Auto) with one idle plain subscriber
of preference Auto (link 2, subscriber 0). -/
def demoAuto : World :=
  (SignalBase.connect 0 (SignalSubscriber.ofFunction nullaryFunction MetaCallType.Auto)
    demoNullary).2

/-- The behaviour ends at once, by return or by an exception other than the
target-expired fault, without calling the signal API. -/
def Handler.endsAtOnce : Handler → Prop
  | Handler.done o => o ≠ Outcome.pointerLockException
  | _ => False

/-- The behaviour ends at once, or it first connects one plain handler whose preference
is not Queued and which itself ends at once on `params`. -/
def Handler.connectsThenEnds (params : GenericFunctionParameters) : Handler → Prop
  | Handler.done o => o ≠ Outcome.pointerLockException
  | Handler.connect _ _ _ _ model body k =>
    model ≠ MetaCallType.Queued ∧ (body params).endsAtOnce ∧ ∀ r, (k r).endsAtOnce
  | _ => False

/-- The subscriber at the allocated address `s` is an enabled plain handler, not of
preference Queued, whose behaviour on `params` is `connectsThenEnds`. -/
def connectingSubscriber (params : GenericFunctionParameters) (w : World) (s : SubPtr) :
    Prop :=
  s < w.nextSub ∧ ∃ h, (w.subs s).handler = some h ∧
    (h.body params).connectsThenEnds params ∧ (w.subs s).enabled = true ∧
    (w.subs s).threadingModel ≠ MetaCallType.Queued

/-- A plain function of no argument that connects `nullaryFunction` (Direct) to signal 0
and returns. -/
def connectingFunction : AnyFunction :=
  { dynamic := false, arity := 0, parametersSignature := Signature.tuple [],
    body := fun _ => Handler.connect 0 false 0 (Signature.tuple []) MetaCallType.Direct
      (fun _ => Handler.done Outcome.returned) (fun _ => Handler.done Outcome.returned) }

/-- Signal 0 of `demoNullary` with one plain Direct subscriber, `connectingFunction`
(link 2, subscriber 0). -/
def demoConnecting : World :=
  (SignalBase.connect 0 (SignalSubscriber.ofFunction connectingFunction MetaCallType.Direct)
    demoNullary).2


/-- The signal `sig` has the allocated private state `pp`, and every entry of its map
is a `connectingSubscriber`. -/
def connectingSignal (params : GenericFunctionParameters) (sig : SigPtr) (pp : PrivPtr)
    (w : World) : Prop :=
  (w.signals sig)._p = some pp ∧ pp < w.nextPriv ∧
    ∀ e ∈ (w.privs pp).subscriberMap, connectingSubscriber params w e.2

/-! ### Future, FutureSync and Promise (`qimessaging/future.hpp`) -/

/-- Address of a heap-allocated `detail::FutureState<T>`, the target of the
`boost::shared_ptr` held by the handles. -/
abbrev CellPtr := Nat

/-- Modelled from the spec: the state of a result cell.  `detail::FutureState<T>`
is defined in `qimessaging/details/future.hxx`, which is not among the sources; the
specification gives it the states Pending, FinishedWithValue and FinishedWithError. -/
inductive CellState (T : Type) where
  | pending
  | finishedWithValue (v : T)
  | finishedWithError (msg : String)
deriving DecidableEq, Repr

/-- Modelled from the spec: a result cell (`detail::FutureState<T>`, not among the
sources): its state and the identifiers of the registered completion continuations. -/
structure FutureState (T : Type) where
  state : CellState T
  continuations : List Nat
deriving DecidableEq, Repr

/-- Modelled from the spec: a cell as `new detail::FutureState<T>()` makes it; a fresh
future is not ready and has no continuation. -/
def FutureState.fresh (T : Type) : FutureState T :=
  { state := CellState.pending, continuations := [] }

/-- Modelled from the spec: `isReady()`, a non-blocking observer: the cell has left
Pending. -/
def FutureState.isReady {T : Type} (c : FutureState T) : Bool :=
  match c.state with
  | CellState.pending => false
  | _ => true

/-- Modelled from the spec: `hasError()`, a non-blocking observer. -/
def FutureState.hasError {T : Type} (c : FutureState T) : Bool :=
  match c.state with
  | CellState.finishedWithError _ => true
  | _ => false

/-- Modelled from the spec: `error()`, defined only when `hasError()` is true. -/
def FutureState.error {T : Type} (c : FutureState T) : Option String :=
  match c.state with
  | CellState.finishedWithError msg => some msg
  | _ => none

/-- Modelled from the spec: `value()`, defined only when the cell is finished with a
value. -/
def FutureState.value {T : Type} (c : FutureState T) : Option T :=
  match c.state with
  | CellState.finishedWithValue v => some v
  | _ => none

/-- Modelled from the spec: `setValue(v)`, to be called at most once per Pending
period: the cell becomes FinishedWithValue; `none` where the source leaves the
behaviour undefined (the cell is not Pending). -/
def FutureState.setValue {T : Type} (c : FutureState T) (v : T) : Option (FutureState T) :=
  match c.state with
  | CellState.pending => some { c with state := CellState.finishedWithValue v }
  | _ => none

/-- Modelled from the spec: `setError(msg)`, to be called at most once per Pending
period: the cell becomes FinishedWithError. -/
def FutureState.setError {T : Type} (c : FutureState T) (msg : String) :
    Option (FutureState T) :=
  match c.state with
  | CellState.pending => some { c with state := CellState.finishedWithError msg }
  | _ => none

/-- Modelled from the spec: `reset()`, from any state back to Pending. -/
def FutureState.reset {T : Type} (c : FutureState T) : FutureState T :=
  { c with state := CellState.pending }

/-- The cells of a process and what has been observed of them: `fired` lists the
continuations invoked (identifier and cell), `waits` the calls of `wait` (cell and
timeout in milliseconds), `now` is the clock in milliseconds. -/
structure FutureHeap (T : Type) where
  cells : CellPtr → FutureState T
  nextCell : CellPtr
  fired : List (Nat × CellPtr)
  waits : List (CellPtr × Nat)
  now : Nat

/-- A process that has created no future yet. -/
def FutureHeap.empty (T : Type) : FutureHeap T :=
  { cells := fun _ => FutureState.fresh T, nextCell := 0, fired := [], waits := [],
    now := 0 }

/-- A `Future<T>`: the shared pointer `_p` to its cell. -/
structure Future where
  _p : CellPtr
deriving DecidableEq, Repr

/-- A `FutureSync<T>`: the `_p` of its base `Future<T>` and the mutable flag `_sync`. -/
structure FutureSync where
  _p : CellPtr
  _sync : Bool
deriving DecidableEq, Repr

/-- A `Promise<T>`: its member future `_f`. -/
structure Promise where
  _f : Future
deriving DecidableEq, Repr

/-- The default argument of `Future::wait(int msecs = 30000)`. -/
def Future.defaultWaitMsecs : Nat := 30000

/-- `Future()`: `_p(new detail::FutureState<T>())`. -/
def Future.new {T : Type} (h : FutureHeap T) : Future × FutureHeap T :=
  ({ _p := h.nextCell },
    { h with cells := Function.update h.cells h.nextCell (FutureState.fresh T),
             nextCell := h.nextCell + 1 })

/-- `Future<T>& operator = (const FutureSync<T>& b)`: clears the flag of `b` and shares
its cell.  The result is the assigned future and `b` afterwards. -/
def Future.assignSync (b : FutureSync) : Future × FutureSync :=
  ({ _p := b._p }, { b with _sync := false })

/-- `Future(const FutureSync<T>& b)`: `*this = b`. -/
def Future.ofFutureSync (b : FutureSync) : Future × FutureSync :=
  Future.assignSync b

/-- The implicit copy constructor of `Future<T>`. -/
def Future.copy (b : Future) : Future :=
  { _p := b._p }

/-- `Future::isReady()`. -/
def Future.isReady {T : Type} (f : Future) (h : FutureHeap T) : Bool :=
  (h.cells f._p).isReady

/-- `Future::hasError()`. -/
def Future.hasError {T : Type} (f : Future) (h : FutureHeap T) : Bool :=
  (h.cells f._p).hasError

/-- `Future::error()`. -/
def Future.error {T : Type} (f : Future) (h : FutureHeap T) : Option String :=
  (h.cells f._p).error

/-- `Future::value()`. -/
def Future.value {T : Type} (f : Future) (h : FutureHeap T) : Option T :=
  (h.cells f._p).value

/-- Modelled from the spec: `wait(msecs)` on the cell at `c` blocks the calling thread
until the cell is finished or the timeout elapses, and returns whether it became ready.
`producer` says what the rest of the process does meanwhile: `some (d, v)` when
another thread completes the cell with the value `v` after `d` milliseconds, `none`
when nobody completes it. -/
def FutureHeap.wait {T : Type} (h : FutureHeap T) (c : CellPtr) (msecs : Nat)
    (producer : Option (Nat × T)) : Bool × FutureHeap T :=
  let h1 : FutureHeap T := { h with waits := h.waits ++ [(c, msecs)] }
  if (h1.cells c).isReady then (true, h1)
  else
    match producer with
    | some (d, v) =>
      if d ≤ msecs then
        (true, { h1 with
          cells := Function.update h1.cells c
            { h1.cells c with state := CellState.finishedWithValue v },
          fired := h1.fired ++ (h1.cells c).continuations.map fun k => (k, c),
          now := h1.now + d })
      else (false, { h1 with now := h1.now + msecs })
    | none => (false, { h1 with now := h1.now + msecs })

/-- `Future::wait(int msecs)`: `_p->wait(msecs)`. -/
def Future.wait {T : Type} (f : Future) (msecs : Nat) (h : FutureHeap T)
    (producer : Option (Nat × T)) : Bool × FutureHeap T :=
  h.wait f._p msecs producer

/-- `FutureSync()`: the base `Future()` allocates a cell, `_sync(false)`. -/
def FutureSync.new {T : Type} (h : FutureHeap T) : FutureSync × FutureHeap T :=
  ({ _p := (Future.new h).1._p, _sync := false }, (Future.new h).2)

/-- `FutureSync<T>& operator = (const Future<T>& b)`. -/
def FutureSync.assignFuture (b : Future) : FutureSync :=
  { _p := b._p, _sync := true }

/-- `FutureSync<T>& operator = (const FutureSync<T>& b)`; the result is the assigned
object and `b` afterwards. -/
def FutureSync.assign (b : FutureSync) : FutureSync × FutureSync :=
  ({ _p := b._p, _sync := true }, { b with _sync := false })

/-- `FutureSync(const Future<T>& b)`: the base is default-constructed, which allocates
a cell that is given up at once, then `*this = b; this->_p = b._p;`. -/
def FutureSync.ofFuture {T : Type} (b : Future) (h : FutureHeap T) :
    FutureSync × FutureHeap T :=
  ({ FutureSync.assignFuture b with _p := b._p }, (Future.new h).2)

/-- `FutureSync(const FutureSync<T>& b)`: the base is default-constructed, then
`*this = b; this->_p = b._p; b._sync = false;`.  The result is the new object, `b`
afterwards and the heap. -/
def FutureSync.copy {T : Type} (b : FutureSync) (h : FutureHeap T) :
    FutureSync × FutureSync × FutureHeap T :=
  ({ (FutureSync.assign b).1 with _p := b._p },
    { (FutureSync.assign b).2 with _sync := false }, (Future.new h).2)

/-- `Future::sync()`: `FutureSync<T>(*this)`. -/
def Future.sync {T : Type} (f : Future) (h : FutureHeap T) : FutureSync × FutureHeap T :=
  FutureSync.ofFuture f h

/-- `FutureSync::async()`: `return *this;`, which builds the returned `Future<T>` with
`Future(const FutureSync<T>&)`.  The result is the future and the object afterwards. -/
def FutureSync.async (s : FutureSync) : Future × FutureSync :=
  Future.ofFutureSync s

/-- `~FutureSync()`: `if (_sync) this->wait();`. -/
def FutureSync.destroy {T : Type} (s : FutureSync) (h : FutureHeap T)
    (producer : Option (Nat × T)) : FutureHeap T :=
  if s._sync then (Future.wait { _p := s._p } Future.defaultWaitMsecs h producer).2
  else h

/-- `Promise()`: the member `_f` is default-constructed. -/
def Promise.new {T : Type} (h : FutureHeap T) : Promise × FutureHeap T :=
  ({ _f := (Future.new h).1 }, (Future.new h).2)

/-- `Promise::future()`: a copy of `_f`. -/
def Promise.future (p : Promise) : Future :=
  Future.copy p._f

/-- `Promise::setValue(value)`: `_f._p->setValue(_f, value)`; the continuations of the
cell are invoked.  `none` where the cell leaves the behaviour undefined. -/
def Promise.setValue {T : Type} (p : Promise) (value : T) (h : FutureHeap T) :
    Option (FutureHeap T) :=
  match (h.cells p._f._p).setValue value with
  | none => none
  | some c =>
    some { h with cells := Function.update h.cells p._f._p c,
                  fired := h.fired ++ c.continuations.map fun k => (k, p._f._p) }

/-- `Promise::setError(msg)`: `_f._p->setError(_f, msg)`. -/
def Promise.setError {T : Type} (p : Promise) (msg : String) (h : FutureHeap T) :
    Option (FutureHeap T) :=
  match (h.cells p._f._p).setError msg with
  | none => none
  | some c =>
    some { h with cells := Function.update h.cells p._f._p c,
                  fired := h.fired ++ c.continuations.map fun k => (k, p._f._p) }

/-- `Promise::reset()`: `_f._p->reset()`. -/
def Promise.reset {T : Type} (p : Promise) (h : FutureHeap T) : FutureHeap T :=
  { h with cells := Function.update h.cells p._f._p (h.cells p._f._p).reset }

/-- `explicit Future(const ValueType& v)`: a local promise is completed with `v` and
`*this = promise.future()`. -/
def Future.ofValue {T : Type} (v : T) (h : FutureHeap T) : Option (Future × FutureHeap T) :=
  match Promise.setValue (Promise.new h).1 v (Promise.new h).2 with
  | none => none
  | some h2 => some (Promise.future (Promise.new h).1, h2)

/-- `explicit FutureSync(const ValueType& v)`: `_sync(false)` on a default-constructed
base, then a local promise is completed with `v` and `*this = promise.future()`, which
is `operator = (const Future<T>&)`. -/
def FutureSync.ofValue {T : Type} (v : T) (h : FutureHeap T) :
    Option (FutureSync × FutureHeap T) :=
  match Promise.setValue (Promise.new (Future.new h).2).1 v (Promise.new (Future.new h).2).2 with
  | none => none
  | some h2 => some (FutureSync.assignFuture (Promise.future (Promise.new (Future.new h).2).1), h2)

/-- A future or a future-sync handle. -/
inductive Handle where
  | future (f : Future)
  | futureSync (s : FutureSync)
deriving DecidableEq, Repr

/-- The cell a handle refers to. -/
def Handle.cell : Handle → CellPtr
  | Handle.future f => f._p
  | Handle.futureSync s => s._p

/-- The ways of obtaining a handle from another: the copy of a future, `sync()`, the
conversion of a future to a future-sync, the copy of a future-sync, the conversion of
a future-sync to a future, `async()`. -/
inductive Conversion where
  | copyFuture
  | sync
  | syncOfFuture
  | copySync
  | futureOfSync
  | async
deriving DecidableEq, Repr

/-- The handle a conversion makes from `x`; `none` when it does not apply to the kind of
handle `x` is. -/
def Conversion.apply {T : Type} : Conversion → Handle → FutureHeap T →
    Option (Handle × FutureHeap T)
  | Conversion.copyFuture, Handle.future f, h => some (Handle.future (Future.copy f), h)
  | Conversion.sync, Handle.future f, h =>
    some (Handle.futureSync (Future.sync f h).1, (Future.sync f h).2)
  | Conversion.syncOfFuture, Handle.future f, h =>
    some (Handle.futureSync (FutureSync.ofFuture f h).1, (FutureSync.ofFuture f h).2)
  | Conversion.copySync, Handle.futureSync s, h =>
    some (Handle.futureSync (FutureSync.copy s h).1, (FutureSync.copy s h).2.2)
  | Conversion.futureOfSync, Handle.futureSync s, h =>
    some (Handle.future (Future.ofFutureSync s).1, h)
  | Conversion.async, Handle.futureSync s, h => some (Handle.future (FutureSync.async s).1, h)
  | _, _, _ => none

/-- The handle obtained by a chain of conversions. -/
def deriveHandle {T : Type} : List Conversion → Handle → FutureHeap T →
    Option (Handle × FutureHeap T)
  | [], x, h => some (x, h)
  | c :: rest, x, h =>
    match c.apply x h with
    | none => none
    | some r => deriveHandle rest r.1 r.2


/-- A promise of a natural number created in a process without futures, and the heap
after its creation: its cell is cell 0. -/
def demoPromise : Promise × FutureHeap Nat :=
  Promise.new (FutureHeap.empty Nat)

/-- A future-sync made from the future of `demoPromise`, and the heap afterwards; its
flag is set. -/
def demoSync : FutureSync × FutureHeap Nat :=
  FutureSync.ofFuture (Promise.future demoPromise.1) demoPromise.2

/-! ### Scoped locks on mutexes (`ka/mutex.hpp`) -/

/-- The mutex types `scopelock` may be asked for: the nine types named in
`ka::traits::detail::IsMutex`, and `other` for any type that is not named there. -/
inductive MutexType where
  | stdMutex
  | stdRecursiveMutex
  | stdTimedMutex
  | stdRecursiveTimedMutex
  | boostMutex
  | boostRecursiveMutex
  | boostTimedMutex
  | boostRecursiveTimedMutex
  | boostSharedMutex
  | other (n : Nat)
deriving DecidableEq, Repr

/-- `ka::traits::IsMutex<M>::value`; `android` is `BOOST_OS_ANDROID`, under which the
two timed types of `std` are not specialised. -/
def IsMutex (android : Bool) : MutexType → Bool
  | MutexType.stdMutex => true
  | MutexType.stdRecursiveMutex => true
  | MutexType.stdTimedMutex => !android
  | MutexType.stdRecursiveTimedMutex => !android
  | MutexType.boostMutex => true
  | MutexType.boostRecursiveMutex => true
  | MutexType.boostTimedMutex => true
  | MutexType.boostRecursiveTimedMutex => true
  | MutexType.boostSharedMutex => true
  | MutexType.other _ => false

/-- Whether the thread that owns a mutex of this type may lock it again. -/
def MutexType.recursive : MutexType → Bool
  | MutexType.stdRecursiveMutex => true
  | MutexType.stdRecursiveTimedMutex => true
  | MutexType.boostRecursiveMutex => true
  | MutexType.boostRecursiveTimedMutex => true
  | _ => false

/-- A mutex object of the standard library or of boost: the thread that holds it
exclusively with its number of nested locks, and the threads that hold it shared
(used by `boost::shared_mutex` only). -/
structure Mutex where
  kind : MutexType
  owner : Option ThreadId
  depth : Nat
  readers : List ThreadId
deriving DecidableEq, Repr

/-- A default-constructed mutex: held by nobody. -/
def Mutex.new (kind : MutexType) : Mutex :=
  { kind := kind, owner := none, depth := 0, readers := [] }

/-- Nobody holds the mutex, neither exclusively nor shared. -/
def Mutex.isFree (m : Mutex) : Bool :=
  m.owner.isNone && m.readers.isEmpty

/-- The member `try_lock()` called on thread `tid`: the mutex is taken when it is
free, taken once more when the type is recursive and `tid` holds it, and left alone
otherwise. -/
def Mutex.try_lock (tid : ThreadId) (m : Mutex) : Bool × Mutex :=
  if m.isFree then (true, { m with owner := some tid, depth := 1 })
  else if m.kind.recursive && m.owner == some tid then
    (true, { m with depth := m.depth + 1 })
  else (false, m)

/-- The member `lock()` called on thread `tid`; `none` when the call does not return
because the mutex is held (by another thread, or by `tid` itself for a type that is
not recursive). -/
def Mutex.lock (tid : ThreadId) (m : Mutex) : Option Mutex :=
  if (m.try_lock tid).1 then some (m.try_lock tid).2 else none

/-- The member `unlock()` called on thread `tid`; `none` when `tid` does not hold the
mutex, where the behaviour is undefined. -/
def Mutex.unlock (tid : ThreadId) (m : Mutex) : Option Mutex :=
  if m.owner = some tid then
    if m.depth ≤ 1 then some { m with owner := none, depth := 0 }
    else some { m with depth := m.depth - 1 }
  else none

/-- A `std::unique_lock<M>` on a mutex kept beside it: whether it owns the lock. -/
structure UniqueLock where
  owns : Bool
deriving DecidableEq, Repr

/-- The constructor `std::unique_lock<M>{ m }` run on thread `tid`: `m.lock()`, after
which the lock owns the mutex. -/
def UniqueLock.ofMutex (tid : ThreadId) (m : Mutex) : Option (UniqueLock × Mutex) :=
  (m.lock tid).map fun m1 => ({ owns := true }, m1)

/-- The constructor `std::unique_lock<M>{ m, std::try_to_lock }` run on thread `tid`. -/
def UniqueLock.tryToLock (tid : ThreadId) (m : Mutex) : UniqueLock × Mutex :=
  ({ owns := (m.try_lock tid).1 }, (m.try_lock tid).2)

/-- The conversion `explicit operator bool()` of `std::unique_lock`: `owns_lock()`. -/
def UniqueLock.toBool (l : UniqueLock) : Bool :=
  l.owns

/-- The destructor of `std::unique_lock` run on thread `tid`: `unlock()` of the mutex
when the lock owns it. -/
def UniqueLock.destroy (tid : ThreadId) (l : UniqueLock) (m : Mutex) : Option Mutex :=
  if l.owns then m.unlock tid else some m

/-- `scopelock(M& m)` of `ka/mutex.hpp` called on thread `tid`:
`return std::unique_lock<M>{ m };`.  The overload exists only for the types with
`IsMutex<M>::value`, which is the last argument. -/
def scopelock (android : Bool) (tid : ThreadId) (m : Mutex)
    (_enable : IsMutex android m.kind = true) : Option (UniqueLock × Mutex) :=
  UniqueLock.ofMutex tid m

/-- The helper `is_locked(m)` of `tests/ka/test_functional.cpp`, whose body runs on
another thread `other`: `!std::unique_lock<M>{ m, std::try_to_lock }`, the lock being
destroyed at once.  The result is the answer and the mutex afterwards. -/
def is_locked (other : ThreadId) (m : Mutex) : Bool × Mutex :=
  let r := UniqueLock.tryToLock other m
  (!r.1.toBool, (r.1.destroy other r.2).getD r.2)

/-- The mutex after the threads `others` have called `is_locked` one after the other. -/
def probeAll : List ThreadId → Mutex → Mutex
  | [], m => m
  | o :: rest, m => probeAll rest (is_locked o m).2


/-! ### Queued tasks, `reset` and sequences of calls (`src/src/signal.cpp`) -/

/-- The state `demoNested` (thread 1 is in the handler of subscriber 0 twice, by the
re-entrant Direct emission) once thread 2 as well has passed the check of `enabled` and
entered that handler. -/
def demoCrowded : World :=
  (EnvStep.enter 0 2).apply demoNested

/-- `FunctorCall::operator()()` run on the worker thread `tid`; `runH` runs the
behaviour of a handler.  The result is `none` for an enabled subscriber without a
handler: `call` builds no such task, and what the call of an empty `AnyFunction` does
is not in the sources. -/
def FunctorCall.runWith
    (runH : Handler → ThreadId → World → List EnvStep → Res Outcome)
    (tid : ThreadId) (fc : FunctorCall) (w : World) (env : List EnvStep) :
    Option (Res Unit) :=
  if !(w.subs fc.sub).enabled then some (Res.ok () w env)
  else
    match (w.subs fc.sub).handler with
    | none => none
    | some h =>
      let w1 := (SignalSubscriber.addActive fc.sub tid w).log
        (Event.handlerCall fc.sub tid fc.params)
      match runH (h.body fc.params) tid w1 env with
      | Res.ok _ w2 env2 => some (Res.ok () (SignalSubscriber.removeActive fc.sub tid w2) env2)
      | Res.threw w2 env2 =>
        some (Res.ok () (SignalSubscriber.removeActive fc.sub tid w2) env2)
      | Res.blocked w2 => some (Res.blocked w2)
      | Res.outOfFuel => some Res.outOfFuel

/-- `FunctorCall::operator()()` with handlers run under the step bound `fuel`. -/
def FunctorCall.run (fuel : Nat) (tid : ThreadId) (fc : FunctorCall) (w : World)
    (env : List EnvStep) : Option (Res Unit) :=
  FunctorCall.runWith (runHandler fuel) tid fc w env

/-- The default thread pool event loop takes the first task of its queue and runs it
on the worker thread `tid`; `none` when there is no loop or no task. -/
def runNextTask (fuel : Nat) (tid : ThreadId) (w : World) (env : List EnvStep) :
    Option (Res Unit) :=
  match w.eventLoop with
  | some (fc :: rest) => FunctorCall.run fuel tid fc { w with eventLoop := some rest } env
  | _ => none

/-- Signal 0 of `demoNullary` with one idle plain subscriber of preference Queued whose
handler raises `qi::PointerLockException` (link 2, subscriber 0). -/
def demoQueued : World :=
  (SignalBase.connect 0 (SignalSubscriber.ofFunction expiredFunction MetaCallType.Queued)
    demoNullary).2

/-- The state `demoQueued` after an emission without argument: the task of subscriber
0 waits in the event loop. -/
def demoPosted : World :=
  { demoQueued with eventLoop := some [{ params := [], sub := 0 }] }

/-- The loop of `SignalBasePrivate::reset()` run on thread `tid`: while the map is not
empty, disconnect its first key, and remember whether a disconnect returned false.
The first argument bounds the number of iterations left. -/
def resetLoop (tid : ThreadId) (pp : PrivPtr) :
    Nat → Bool → World → List EnvStep → Res Bool
  | 0, ret, w, env =>
    match (w.privs pp).subscriberMap with
    | [] => Res.ok ret w env
    | _ :: _ => Res.outOfFuel
  | n + 1, ret, w, env =>
    match (w.privs pp).subscriberMap with
    | [] => Res.ok ret w env
    | (k, _) :: _ =>
      (SignalBasePrivate.disconnect tid pp k w env).andThen
        fun b w1 env1 => resetLoop tid pp n (if !b then false else ret) w1 env1

/-- `SignalBasePrivate::reset()` run on thread `tid`, the loop being given `fuel`
iterations. -/
def SignalBasePrivate.reset (fuel : Nat) (tid : ThreadId) (pp : PrivPtr) (w : World)
    (env : List EnvStep) : Res Bool :=
  resetLoop tid pp fuel true w env

/-- `SignalBase::disconnectAll()` called on thread `tid`. -/
def SignalBase.disconnectAll (fuel : Nat) (tid : ThreadId) (sig : SigPtr) (w : World)
    (env : List EnvStep) : Res Bool :=
  match (w.signals sig)._p with
  | some pp => SignalBasePrivate.reset fuel tid pp w env
  | none => Res.ok false w env

/-- A call of `connect`, `disconnect` or `disconnectAll` by client code. -/
inductive SignalCall where
  | connect (sig : SigPtr) (src : SignalSubscriber)
  | disconnect (tid : ThreadId) (sig : SigPtr) (link : SignalLink)
  | disconnectAll (tid : ThreadId) (sig : SigPtr)

/-- Run a sequence of such calls, each loop of `reset` being given `fuel` iterations;
the value lists, for each successful `connect` in order, the signal and the link id
of the subscriber it returned. -/
def runCalls (fuel : Nat) :
    List SignalCall → World → List EnvStep → Res (List (SigPtr × SignalLink))
  | [], w, env => Res.ok [] w env
  | SignalCall.connect sig src :: rest, w, env =>
    let r := SignalBase.connect sig src w
    (runCalls fuel rest r.2 env).andThen fun ls w1 env1 =>
      Res.ok ((r.1.map fun s => (sig, (r.2.subs s).linkId)).toList ++ ls) w1 env1
  | SignalCall.disconnect tid sig link :: rest, w, env =>
    (SignalBase.disconnect tid sig link w env).andThen
      fun _ w1 env1 => runCalls fuel rest w1 env1
  | SignalCall.disconnectAll tid sig :: rest, w, env =>
    (SignalBase.disconnectAll fuel tid sig w env).andThen
      fun _ w1 env1 => runCalls fuel rest w1 env1

/-- The private states of the signal objects are allocated, and no two signal objects
share one. -/
def World.signalsSeparate (w : World) : Prop :=
  ∀ sig pp, (w.signals sig)._p = some pp →
    pp < w.nextPriv ∧ ∀ sig', (w.signals sig')._p = some pp → sig' = sig

/-- Every signal object is as its constructor leaves it: a private state of its own
with an empty subscriber map (or no private state yet). -/
def World.newlyConstructed (w : World) : Prop :=
  w.signalsSeparate ∧
    ∀ sig pp, (w.signals sig)._p = some pp → (w.privs pp).subscriberMap = []

/-- The condition on the maps that the calls of the API maintain: the keys of each map
are distinct and ascending, and each entry holds an allocated subscriber that carries
the key as its link id and the signal as its source, under a key that is among the
links `hist` handed out so far for that signal, and that is enabled when `allEnabled`
holds. -/
def World.linked (allEnabled : Prop) (hist : List (SigPtr × SignalLink)) (w : World) :
    Prop :=
  w.signalsSeparate ∧
    ∀ sig pp, (w.signals sig)._p = some pp →
      mapSorted (w.privs pp).subscriberMap ∧
      ∀ e ∈ (w.privs pp).subscriberMap,
        e.2 < w.nextSub ∧ (w.subs e.2).linkId = e.1 ∧ (w.subs e.2).source = sig ∧
        (sig, e.1) ∈ hist ∧ (allEnabled → (w.subs e.2).enabled = true)

/-- Six calls on the signals 0 and 1: connects on both, the disconnect of link 2,
`disconnectAll` on signal 1 and two more connects. -/
def demoCalls : List SignalCall :=
  [SignalCall.connect 0 (SignalSubscriber.ofFunction nullaryFunction MetaCallType.Direct),
   SignalCall.connect 1 (SignalSubscriber.ofFunction dynamicFunction MetaCallType.Auto),
   SignalCall.disconnect 1 0 2,
   SignalCall.disconnectAll 1 1,
   SignalCall.connect 1 (SignalSubscriber.ofFunction dynamicFunction MetaCallType.Queued),
   SignalCall.connect 0 (SignalSubscriber.ofObject 5 3)]

/-- The state `demoNullary` after the calls `demoCalls`. -/
def demoCallsDone : World :=
  (Res.world? (runCalls 1 demoCalls demoNullary [])).getD demoNullary

/-- A default-constructed `FutureSync<Nat>` in a process without futures, and the heap
afterwards: its flag is clear. -/
def demoPlainSync : FutureSync × FutureHeap Nat :=
  FutureSync.new (FutureHeap.empty Nat)

/-! ## Lemmas -/

@[simp]
theorem World.log_subs (w : World) (e : Event) : (w.log e).subs = w.subs := rfl
@[simp]
theorem World.log_privs (w : World) (e : Event) : (w.log e).privs = w.privs := rfl
@[simp]
theorem World.log_signals (w : World) (e : Event) : (w.log e).signals = w.signals := rfl
@[simp]
theorem World.log_linkUid (w : World) (e : Event) : (w.log e).linkUid = w.linkUid := rfl
@[simp]
theorem World.log_trace (w : World) (e : Event) : (w.log e).trace = w.trace ++ [e] := rfl
@[simp]
theorem World.setSub_privs (w : World) (s : SubPtr) (x : SignalSubscriber) :
    (w.setSub s x).privs = w.privs := rfl
@[simp]
theorem World.setSub_signals (w : World) (s : SubPtr) (x : SignalSubscriber) :
    (w.setSub s x).signals = w.signals := rfl
@[simp]
theorem World.setSub_trace (w : World) (s : SubPtr) (x : SignalSubscriber) :
    (w.setSub s x).trace = w.trace := rfl
@[simp]
theorem World.setSub_linkUid (w : World) (s : SubPtr) (x : SignalSubscriber) :
    (w.setSub s x).linkUid = w.linkUid := rfl
@[simp]
theorem World.setSub_subs_same (w : World) (s : SubPtr) (x : SignalSubscriber) :
    (w.setSub s x).subs s = x := by simp [World.setSub]
theorem World.setSub_subs_ne (w : World) (s p : SubPtr) (x : SignalSubscriber) (h : p ≠ s) :
    (w.setSub s x).subs p = w.subs p := by simp [World.setSub, Function.update_noteq h]
@[simp]
theorem World.setPriv_subs (w : World) (pp : PrivPtr) (x : SignalBasePrivate) :
    (w.setPriv pp x).subs = w.subs := rfl
@[simp]
theorem World.setPriv_signals (w : World) (pp : PrivPtr) (x : SignalBasePrivate) :
    (w.setPriv pp x).signals = w.signals := rfl
@[simp]
theorem World.setPriv_trace (w : World) (pp : PrivPtr) (x : SignalBasePrivate) :
    (w.setPriv pp x).trace = w.trace := rfl
@[simp]
theorem World.setPriv_linkUid (w : World) (pp : PrivPtr) (x : SignalBasePrivate) :
    (w.setPriv pp x).linkUid = w.linkUid := rfl
@[simp]
theorem World.setPriv_privs_same (w : World) (pp : PrivPtr) (x : SignalBasePrivate) :
    (w.setPriv pp x).privs pp = x := by simp [World.setPriv]
theorem World.setPriv_privs_ne (w : World) (pp q : PrivPtr) (x : SignalBasePrivate)
    (h : q ≠ pp) : (w.setPriv pp x).privs q = w.privs q := by
  simp [World.setPriv, Function.update_noteq h]

/-- Looking up another key is not affected by an erasure. -/
theorem mapFind_mapErase_ne (m : SignalSubscriberMap) (l k : SignalLink) (h : k ≠ l) :
    mapFind (mapErase m l) k = mapFind m k := by
  induction m with
  | nil => rfl
  | cons e rest ih =>
    obtain ⟨a, v⟩ := e
    by_cases ha : a = l
    · subst ha
      have : ¬ a = k := fun hk => h hk.symm
      simp [mapErase, mapFind, this]
    · simp [mapErase, mapFind, ha, ih]

/-- A key below every key of a sorted map is not found. -/
theorem mapFind_none_of_lt (m : SignalSubscriberMap) (l : SignalLink)
    (h : ∀ e ∈ m, l < e.1) : mapFind m l = none := by
  induction m with
  | nil => rfl
  | cons e rest ih =>
    obtain ⟨a, v⟩ := e
    have ha : l < a := h (a, v) (List.mem_cons_self _ _)
    have : ¬ a = l := Nat.ne_of_gt ha
    simp only [mapFind, this, if_false]
    exact ih (fun e he => h e (List.mem_cons_of_mem _ he))

/-- In a sorted map the erased key is gone. -/
theorem mapFind_mapErase_self (m : SignalSubscriberMap) (l : SignalLink)
    (hs : mapSorted m) : mapFind (mapErase m l) l = none := by
  induction m with
  | nil => rfl
  | cons e rest ih =>
    obtain ⟨a, v⟩ := e
    have hs' := List.pairwise_cons.mp hs
    by_cases ha : a = l
    · subst ha
      simp only [mapErase, if_true]
      exact mapFind_none_of_lt rest a (fun e he => hs'.1 e he)
    · simp only [mapErase, ha, if_false, mapFind]
      exact ih hs'.2

/-- In a sorted map, erasing a key keeps exactly the entries with another key. -/
theorem mapErase_eq_filter (m : SignalSubscriberMap) (l : SignalLink) (hs : mapSorted m) :
    mapErase m l = m.filter (fun e => decide (e.1 ≠ l)) := by
  induction m with
  | nil => rfl
  | cons e rest ih =>
    obtain ⟨a, v⟩ := e
    have hs' := List.pairwise_cons.mp hs
    by_cases ha : a = l
    · subst ha
      simp only [mapErase, if_true]
      rw [List.filter_cons_of_neg (by simp)]
      symm
      rw [List.filter_eq_self]
      intro e he
      have := hs'.1 e he
      simp only [decide_eq_true_eq]
      exact Nat.ne_of_gt this
    · simp only [mapErase, ha, if_false]
      rw [List.filter_cons_of_pos (by simpa using ha), ih hs'.2]

/-- Erasing a key that is found removes one entry. -/
theorem length_mapErase (m : SignalSubscriberMap) (l : SignalLink) (s : SubPtr)
    (h : mapFind m l = some s) : (mapErase m l).length + 1 = m.length := by
  induction m with
  | nil => simp [mapFind] at h
  | cons e rest ih =>
    obtain ⟨a, v⟩ := e
    by_cases ha : a = l
    · simp [mapErase, ha]
    · simp only [mapFind, ha, if_false] at h
      simp [mapErase, ha, ih h]

/-- Erasing keeps a map sorted. -/
theorem mapSorted_mapErase (m : SignalSubscriberMap) (l : SignalLink) (hs : mapSorted m) :
    mapSorted (mapErase m l) := by
  rw [mapErase_eq_filter m l hs]
  exact List.Pairwise.filter _ hs

theorem inactiveFor_nil (tid : ThreadId) : inactiveFor tid [] = true := rfl


theorem detach_privs (pp : PrivPtr) (l : SignalLink) (s : SubPtr) (w : World) :
    (SignalBasePrivate.detach pp l s w).privs = Function.update w.privs pp
      { w.privs pp with subscriberMap := mapErase (w.privs pp).subscriberMap l } := by
  unfold SignalBasePrivate.detach
  simp only
  split <;> rfl

theorem detach_subs (pp : PrivPtr) (l : SignalLink) (s : SubPtr) (w : World) :
    (SignalBasePrivate.detach pp l s w).subs
      = Function.update w.subs s { w.subs s with enabled := false } := by
  unfold SignalBasePrivate.detach
  simp only
  split <;> rfl

theorem detach_signals (pp : PrivPtr) (l : SignalLink) (s : SubPtr) (w : World) :
    (SignalBasePrivate.detach pp l s w).signals = w.signals := by
  unfold SignalBasePrivate.detach
  simp only
  split <;> rfl

theorem detach_linkUid (pp : PrivPtr) (l : SignalLink) (s : SubPtr) (w : World) :
    (SignalBasePrivate.detach pp l s w).linkUid = w.linkUid := by
  unfold SignalBasePrivate.detach
  simp only
  split <;> rfl

theorem detach_trace (pp : PrivPtr) (l : SignalLink) (s : SubPtr) (w : World) :
    (SignalBasePrivate.detach pp l s w).trace = w.trace ++
      (match (mapErase (w.privs pp).subscriberMap l).isEmpty, (w.privs pp).onSubscribers with
       | true, some cb => [Event.onSubscribers cb false]
       | _, _ => []) := by
  unfold SignalBasePrivate.detach
  simp only [World.setSub_privs, World.setPriv_privs_same]
  split <;> simp

theorem ensurePrivate_p (sig : SigPtr) (w : World) :
    ((SignalBase.ensurePrivate sig w).2.signals sig)._p
      = some (SignalBase.ensurePrivate sig w).1 := by
  unfold SignalBase.ensurePrivate
  cases hp : (w.signals sig)._p with
  | none => simp
  | some pp => simpa using hp

theorem ensurePrivate_trace (sig : SigPtr) (w : World) :
    (SignalBase.ensurePrivate sig w).2.trace = w.trace := by
  unfold SignalBase.ensurePrivate
  cases (w.signals sig)._p <;> rfl

theorem ensurePrivate_linkUid (sig : SigPtr) (w : World) :
    (SignalBase.ensurePrivate sig w).2.linkUid = w.linkUid := by
  unfold SignalBase.ensurePrivate
  cases (w.signals sig)._p <;> rfl

theorem ensurePrivate_linkBits (sig : SigPtr) (w : World) :
    (SignalBase.ensurePrivate sig w).2.linkBits = w.linkBits := by
  unfold SignalBase.ensurePrivate
  cases (w.signals sig)._p <;> rfl

theorem ensurePrivate_subs (sig : SigPtr) (w : World) :
    (SignalBase.ensurePrivate sig w).2.subs = w.subs := by
  unfold SignalBase.ensurePrivate
  cases (w.signals sig)._p <;> rfl

theorem ensurePrivate_alive (sig : SigPtr) (w : World) :
    (SignalBase.ensurePrivate sig w).2.alive = w.alive := by
  unfold SignalBase.ensurePrivate
  cases (w.signals sig)._p <;> rfl

theorem ensurePrivate_priv (sig : SigPtr) (w : World) :
    (SignalBase.ensurePrivate sig w).2.privs (SignalBase.ensurePrivate sig w).1
      = match (w.signals sig)._p with
        | some pp => w.privs pp
        | none => SignalBasePrivate.fresh := by
  unfold SignalBase.ensurePrivate
  cases hp : (w.signals sig)._p with
  | none => simp
  | some pp => simp

theorem ensurePrivate_signature (sig : SigPtr) (w : World) :
    SignalBase.signature sig (SignalBase.ensurePrivate sig w).2
      = SignalBase.signature sig w := by
  unfold SignalBase.signature
  rw [ensurePrivate_p]
  simp only [ensurePrivate_priv]
  cases hp : (w.signals sig)._p <;> simp [SignalBasePrivate.fresh]

theorem ensurePrivate_subscriberMap (sig : SigPtr) (w : World) :
    SignalBase.subscriberMap sig (SignalBase.ensurePrivate sig w).2
      = SignalBase.subscriberMap sig w := by
  unfold SignalBase.subscriberMap
  rw [ensurePrivate_p]
  simp only [ensurePrivate_priv]
  cases hp : (w.signals sig)._p <;> simp [SignalBasePrivate.fresh]

theorem ensurePrivate_hook (sig : SigPtr) (w : World) :
    SignalBase.hook sig (SignalBase.ensurePrivate sig w).2 = SignalBase.hook sig w := by
  unfold SignalBase.hook
  rw [ensurePrivate_p]
  simp only [ensurePrivate_priv]
  cases hp : (w.signals sig)._p <;> simp [SignalBasePrivate.fresh]

theorem ensurePrivate_hasSubscribers (sig : SigPtr) (w : World) :
    SignalBase.hasSubscribers sig (SignalBase.ensurePrivate sig w).2
      = SignalBase.hasSubscribers sig w := by
  unfold SignalBase.hasSubscribers
  rw [ensurePrivate_p]
  simp only [ensurePrivate_priv]
  cases hp : (w.signals sig)._p <;> simp [SignalBasePrivate.fresh]

theorem connectProceed_fst (sig : SigPtr) (pp : PrivPtr) (src : SignalSubscriber)
    (w : World) : (SignalBase.connectProceed sig pp src w).1 = some w.nextSub := by
  unfold SignalBase.connectProceed
  simp only
  split <;> rfl

theorem connectProceed_linkUid (sig : SigPtr) (pp : PrivPtr) (src : SignalSubscriber)
    (w : World) :
    (SignalBase.connectProceed sig pp src w).2.linkUid = incrLinkUid w.linkUid := by
  unfold SignalBase.connectProceed
  simp only
  split <;> rfl

theorem connectProceed_linkBits (sig : SigPtr) (pp : PrivPtr) (src : SignalSubscriber)
    (w : World) :
    (SignalBase.connectProceed sig pp src w).2.linkBits = w.linkBits := by
  unfold SignalBase.connectProceed
  simp only
  split <;> rfl

theorem connectProceed_signals (sig : SigPtr) (pp : PrivPtr) (src : SignalSubscriber)
    (w : World) :
    (SignalBase.connectProceed sig pp src w).2.signals = w.signals := by
  unfold SignalBase.connectProceed
  simp only
  split <;> rfl

theorem connectProceed_subs (sig : SigPtr) (pp : PrivPtr) (src : SignalSubscriber)
    (w : World) :
    (SignalBase.connectProceed sig pp src w).2.subs = Function.update w.subs w.nextSub
      { SignalSubscriber.copy src with
        linkId := toSignalLink w.linkBits (incrLinkUid w.linkUid), source := sig } := by
  unfold SignalBase.connectProceed
  simp only
  split <;> rfl

theorem connectProceed_privs (sig : SigPtr) (pp : PrivPtr) (src : SignalSubscriber)
    (w : World) :
    (SignalBase.connectProceed sig pp src w).2.privs = Function.update w.privs pp
      { w.privs pp with
        subscriberMap := mapSet (w.privs pp).subscriberMap (toSignalLink w.linkBits (incrLinkUid w.linkUid)) w.nextSub } := by
  unfold SignalBase.connectProceed
  simp only
  split <;> rfl

theorem connectProceed_trace (sig : SigPtr) (pp : PrivPtr) (src : SignalSubscriber)
    (w : World) :
    (SignalBase.connectProceed sig pp src w).2.trace = w.trace ++
      (match (w.privs pp).onSubscribers with
       | some cb => if (w.privs pp).subscriberMap = [] then [Event.onSubscribers cb true] else []
       | none => []) := by
  unfold SignalBase.connectProceed
  simp only
  cases hm : (w.privs pp).subscriberMap <;> cases hh : (w.privs pp).onSubscribers <;> simp

/-- What `connect` can do: fail in the state `ensurePrivate` leaves, or proceed from it. -/
theorem connect_cases (sig : SigPtr) (src : SignalSubscriber) (w : World) :
    SignalBase.connect sig src w = (none, (SignalBase.ensurePrivate sig w).2) ∨
    SignalBase.connect sig src w = SignalBase.connectProceed sig
      (SignalBase.ensurePrivate sig w).1 src (SignalBase.ensurePrivate sig w).2 := by
  unfold SignalBase.connect SignalBase.connectCheck
  simp only
  split
  · right; rfl
  · split
    · split
      · right; rfl
      · split
        · left; rfl
        · split
          · left; rfl
          · right; rfl
    · split
      · split
        · left; rfl
        · split
          · right; rfl
          · split
            · left; rfl
            · split
              · left; rfl
              · right; rfl
      · split
        · left; rfl
        · split
          · left; rfl
          · right; rfl
@[simp]
theorem addActive_privs (s : SubPtr) (id : ThreadId) (w : World) :
    (SignalSubscriber.addActive s id w).privs = w.privs := rfl
@[simp]
theorem addActive_signals (s : SubPtr) (id : ThreadId) (w : World) :
    (SignalSubscriber.addActive s id w).signals = w.signals := rfl
@[simp]
theorem addActive_trace (s : SubPtr) (id : ThreadId) (w : World) :
    (SignalSubscriber.addActive s id w).trace = w.trace := rfl
@[simp]
theorem addActive_linkUid (s : SubPtr) (id : ThreadId) (w : World) :
    (SignalSubscriber.addActive s id w).linkUid = w.linkUid := rfl
@[simp]
theorem addActive_linkBits (s : SubPtr) (id : ThreadId) (w : World) :
    (SignalSubscriber.addActive s id w).linkBits = w.linkBits := rfl
@[simp]
theorem removeActive_privs (s : SubPtr) (id : ThreadId) (w : World) :
    (SignalSubscriber.removeActive s id w).privs = w.privs := rfl
@[simp]
theorem removeActive_signals (s : SubPtr) (id : ThreadId) (w : World) :
    (SignalSubscriber.removeActive s id w).signals = w.signals := rfl
@[simp]
theorem removeActive_trace (s : SubPtr) (id : ThreadId) (w : World) :
    (SignalSubscriber.removeActive s id w).trace = w.trace := rfl
@[simp]
theorem removeActive_linkUid (s : SubPtr) (id : ThreadId) (w : World) :
    (SignalSubscriber.removeActive s id w).linkUid = w.linkUid := rfl
@[simp]
theorem removeActive_linkBits (s : SubPtr) (id : ThreadId) (w : World) :
    (SignalSubscriber.removeActive s id w).linkBits = w.linkBits := rfl

/-- The fields of the world no other thread touches through an environment step. -/
theorem EnvStep.apply_frame (e : EnvStep) (w : World) :
    (e.apply w).privs = w.privs ∧ (e.apply w).signals = w.signals ∧
    (e.apply w).trace = w.trace ∧ (e.apply w).linkUid = w.linkUid ∧
    (e.apply w).linkBits = w.linkBits := by
  cases e with
  | enter s id =>
    simp only [EnvStep.apply]
    split <;> simp
  | leave s id => simp [EnvStep.apply]
  | idle => simp [EnvStep.apply]

theorem applyEnv_frame (env : List EnvStep) (w : World) :
    (applyEnv env w).privs = w.privs ∧ (applyEnv env w).signals = w.signals ∧
    (applyEnv env w).trace = w.trace ∧ (applyEnv env w).linkUid = w.linkUid ∧
    (applyEnv env w).linkBits = w.linkBits := by
  induction env generalizing w with
  | nil => simp [applyEnv]
  | cons e rest ih =>
    obtain ⟨h1, h2, h3, h4, h5⟩ := ih (e.apply w)
    obtain ⟨g1, g2, g3, g4, g5⟩ := EnvStep.apply_frame e w
    simp only [applyEnv]
    exact ⟨h1.trans g1, h2.trans g2, h3.trans g3, h4.trans g4, h5.trans g5⟩

theorem applyEnv_append (a b : List EnvStep) (w : World) :
    applyEnv (a ++ b) w = applyEnv b (applyEnv a w) := by
  induction a generalizing w with
  | nil => rfl
  | cons e rest ih => simp [applyEnv, ih]

/-- When `waitForInactive` returns, the other threads have taken some of their steps and
the test holds in the state reached; it had failed in every state polled before. -/
theorem waitForInactive_ok (tid : ThreadId) (s : SubPtr) (env : List EnvStep) (w : World)
    (w' : World) (env' : List EnvStep)
    (h : SignalSubscriber.waitForInactive tid s w env = Res.ok () w' env') :
    ∃ used, env = used ++ env' ∧ w' = applyEnv used w ∧
      inactiveFor tid (w'.subs s).activeThreads = true ∧
      ∀ k, k < used.length →
        inactiveFor tid ((applyEnv (used.take k) w).subs s).activeThreads = false := by
  induction env generalizing w with
  | nil =>
    unfold SignalSubscriber.waitForInactive at h
    split at h
    · rename_i hin
      injection h with _ hw he
      subst hw; subst he
      exact ⟨[], rfl, rfl, hin, by simp⟩
    · cases h
  | cons e rest ih =>
    unfold SignalSubscriber.waitForInactive at h
    split at h
    · rename_i hin
      injection h with _ hw he
      subst hw; subst he
      exact ⟨[], rfl, rfl, hin, by simp⟩
    · rename_i hin
      obtain ⟨used, h1, h2, h3, h4⟩ := ih (e.apply w) h
      refine ⟨e :: used, by simp [h1], by simp [applyEnv, h2], h3, ?_⟩
      intro k hk
      cases k with
      | zero => simpa [applyEnv] using hin
      | succ k =>
        have := h4 k (by simpa using hk)
        simpa [applyEnv] using this

/-- While the test fails in every state the other threads lead to, `waitForInactive`
does not return. -/
theorem waitForInactive_blocked (tid : ThreadId) (s : SubPtr) (env : List EnvStep)
    (w : World)
    (h : ∀ k, k ≤ env.length →
      inactiveFor tid ((applyEnv (env.take k) w).subs s).activeThreads = false) :
    SignalSubscriber.waitForInactive tid s w env = Res.blocked (applyEnv env w) := by
  induction env generalizing w with
  | nil =>
    have h0 := h 0 (Nat.le_refl _)
    simp only [List.take, applyEnv] at h0
    simp [SignalSubscriber.waitForInactive, h0, applyEnv]
  | cons e rest ih =>
    have h0 := h 0 (Nat.zero_le _)
    simp only [List.take, applyEnv] at h0
    simp only [SignalSubscriber.waitForInactive, h0, applyEnv]
    apply ih
    intro k hk
    have := h (k + 1) (by simpa using hk)
    simpa [applyEnv] using this

/-- The two ways `SignalBasePrivate::disconnect` returns. -/
theorem privDisconnect_ok (tid : ThreadId) (pp : PrivPtr) (l : SignalLink) (w : World)
    (env : List EnvStep) (b : Bool) (w' : World) (env' : List EnvStep)
    (h : SignalBasePrivate.disconnect tid pp l w env = Res.ok b w' env') :
    (mapFind (w.privs pp).subscriberMap l = none ∧ b = false ∧ w' = w ∧ env' = env) ∨
    (∃ s used, mapFind (w.privs pp).subscriberMap l = some s ∧ b = true ∧
      env = used ++ env' ∧ w' = applyEnv used (SignalBasePrivate.detach pp l s w) ∧
      inactiveFor tid (w'.subs s).activeThreads = true) := by
  unfold SignalBasePrivate.disconnect at h
  cases hf : mapFind (w.privs pp).subscriberMap l with
  | none =>
    rw [hf] at h
    injection h with hb hw he
    exact Or.inl ⟨rfl, hb.symm, hw.symm, he.symm⟩
  | some s =>
    rw [hf] at h
    simp only at h
    right
    split at h
    · rename_i hin
      injection h with hb hw he
      subst hw; subst he
      exact ⟨s, [], rfl, hb.symm, rfl, rfl, hin⟩
    · cases hwait : SignalSubscriber.waitForInactive tid s
          (SignalBasePrivate.detach pp l s w) env with
      | ok a w4 env4 =>
        rw [hwait] at h
        simp only [Res.andThen] at h
        injection h with hb hw he
        subst hw; subst he
        obtain ⟨used, h1, h2, h3, _⟩ := waitForInactive_ok tid s env _ _ _ hwait
        exact ⟨s, used, rfl, hb.symm, h1, h2, h3⟩
      | threw w4 env4 => rw [hwait] at h; simp [Res.andThen] at h
      | blocked w4 => rw [hwait] at h; simp [Res.andThen] at h
      | outOfFuel => rw [hwait] at h; simp [Res.andThen] at h
theorem handlerCalls_append (a b : List Event) :
    handlerCalls (a ++ b) = handlerCalls a ++ handlerCalls b := by
  induction a with
  | nil => rfl
  | cons e rest ih => cases e <;> simp [handlerCalls, ih]

/-- In a sorted map every entry is found under its key. -/
theorem mapFind_of_mem (m : SignalSubscriberMap) (hs : mapSorted m) (k : SignalLink)
    (s : SubPtr) (h : (k, s) ∈ m) : mapFind m k = some s := by
  induction m with
  | nil => cases h
  | cons e rest ih =>
    obtain ⟨a, v⟩ := e
    have hs' := List.pairwise_cons.mp hs
    rcases List.mem_cons.mp h with heq | hmem
    · injection heq with h1 h2
      subst h1; subst h2
      simp [mapFind]
    · have hlt : a < k := hs'.1 (k, s) hmem
      have : ¬ a = k := Nat.ne_of_lt hlt
      simp only [mapFind, this, if_false]
      exact ih hs'.2 hmem

theorem mapSorted_keys_nodup (m : SignalSubscriberMap) (hs : mapSorted m) :
    (m.map Prod.fst).Nodup := by
  unfold mapSorted at hs
  rw [List.Nodup, List.pairwise_map]
  exact hs.imp (fun h => Nat.ne_of_lt h)

theorem removeActiveList_singleton (tid : ThreadId) :
    removeActiveList tid (addActiveList tid []) = [] := by
  simp [removeActiveList, addActiveList, removeActiveLoop]

/-- Entering and leaving the handler of an idle subscriber leaves only the trace entry. -/
theorem removeActive_addActive_log (s : SubPtr) (tid : ThreadId) (w : World) (e : Event)
    (hidle : (w.subs s).activeThreads = []) :
    SignalSubscriber.removeActive s tid ((SignalSubscriber.addActive s tid w).log e)
      = w.log e := by
  unfold SignalSubscriber.removeActive SignalSubscriber.addActive World.setSub World.log
  simp only [Function.update_same, Function.update_idem, hidle, removeActiveList_singleton]
  have hx : ∀ x : SignalSubscriber, x.activeThreads = [] →
      { x with activeThreads := [] } = x := by
    intro x hx
    cases x
    simp only at hx
    simp [hx]
  rw [hx _ hidle, Function.update_eq_self]

/-- The inline call of a handler that ends without calling back into the signal API,
on an idle enabled subscriber registered under its own link. -/
theorem call_inert (n : Nat) (tid : ThreadId) (sig : SigPtr) (pp : PrivPtr) (k : SignalLink)
    (s : SubPtr) (params : GenericFunctionParameters) (w : World) (env : List EnvStep)
    (h : AnyFunction) (o : Outcome)
    (hp : (w.signals sig)._p = some pp)
    (hh : (w.subs s).handler = some h) (hbody : h.body params = Handler.done o)
    (hen : (w.subs s).enabled = true)
    (hmodel : (w.subs s).threadingModel = MetaCallType.Direct ∨
      (w.subs s).threadingModel = MetaCallType.Auto)
    (hidle : (w.subs s).activeThreads = [])
    (hlink : (w.subs s).linkId = k) (hsrc : (w.subs s).source = sig)
    (hfind : mapFind (w.privs pp).subscriberMap k = some s) :
    SignalSubscriber.callWith (runHandler (n + 1)) tid s params MetaCallType.Direct w env
      = Res.ok () (if o = Outcome.pointerLockException then
          SignalBasePrivate.detach pp k s (w.log (Event.handlerCall s tid params))
          else w.log (Event.handlerCall s tid params)) env := by
  have hasync : (if (w.subs s).threadingModel ≠ MetaCallType.Auto then
        decide ((w.subs s).threadingModel = MetaCallType.Queued)
      else if MetaCallType.Direct ≠ MetaCallType.Auto then
        decide (MetaCallType.Direct = MetaCallType.Queued)
      else true) = false := by
    rcases hmodel with hm | hm <;> rw [hm] <;> decide
  unfold SignalSubscriber.callWith
  simp only [hh, hasync, hen, hbody, runHandler, Bool.false_eq_true, if_false,
    Bool.not_true]
  rw [removeActive_addActive_log s tid w _ hidle]
  by_cases ho : o = Outcome.pointerLockException
  · simp only [ho, if_true]
    simp only [World.log_subs, hsrc, hlink, SignalBase.disconnect, World.log_signals, hp,
      SignalBasePrivate.disconnect, World.log_privs, hfind]
    rw [if_pos]
    · rfl
    · simp [detach_subs, hidle, inactiveFor_nil]
  · simp only [ho, if_false]
/-- One round of the removal loop takes out an entry equal to `id` and nothing else. -/
theorem count_swap_pop (id x : ThreadId) (a : List ThreadId) (i : Nat) (hx : x ≠ id)
    (hi : a[i]? = some id) :
    ((a.set i (a.getLastD id)).dropLast).count x = a.count x := by
  rcases List.eq_nil_or_concat a with rfl | ⟨L, b, rfl⟩
  · simp at hi
  · rw [List.concat_eq_append] at hi ⊢
    rw [List.getLastD_concat]
    by_cases hlt : i < L.length
    · rw [List.set_append_left i b hlt, List.dropLast_concat, List.count_set b x L i hlt]
      rw [List.getElem?_append_left hlt] at hi
      have hLi : L[i] = id := by
        rw [List.getElem?_eq_getElem hlt] at hi
        exact Option.some.inj hi
      have hne : (L[i] == x) = false := by
        rw [hLi]
        exact beq_false_of_ne (Ne.symm hx)
      simp [hne, List.count_cons, List.count_nil]
    · have hlen : i = L.length := by
        have : i < (L ++ [b]).length := by
          by_contra hc
          rw [List.getElem?_eq_none (by omega)] at hi
          cases hi
        simp at this
        omega
      subst hlen
      rw [List.getElem?_concat_length] at hi
      have hb : b = id := Option.some.inj hi
      rw [List.set_append_right _ _ (Nat.le_refl _)]
      have hne : (b == x) = false := by
        rw [hb]
        exact beq_false_of_ne (Ne.symm hx)
      simp [hne, List.count_cons]

/-- The removal loop for `id` keeps every entry of another thread. -/
theorem count_removeActiveLoop (id x : ThreadId) (hx : x ≠ id) :
    ∀ (fuel i : Nat) (a : List ThreadId), (removeActiveLoop id fuel i a).count x = a.count x := by
  intro fuel
  induction fuel with
  | zero => intro i a; rfl
  | succ n ih =>
    intro i a
    simp only [removeActiveLoop]
    split
    · split
      · rename_i hi
        rw [ih, count_swap_pop id x a i hx hi]
      · exact ih _ _
    · rfl

theorem count_removeActiveList (id x : ThreadId) (hx : x ≠ id) (a : List ThreadId) :
    (removeActiveList id a).count x = a.count x :=
  count_removeActiveLoop id x hx _ _ _

/-- A step of another thread keeps the entries of thread `tid` in every list. -/
theorem EnvStep.apply_count (e : EnvStep) (tid : ThreadId) (s : SubPtr) (w : World)
    (he : e.thread ≠ some tid) :
    ((e.apply w).subs s).activeThreads.count tid = (w.subs s).activeThreads.count tid := by
  cases e with
  | enter s' id =>
    have hid : tid ≠ id := fun h => he (by simp [EnvStep.thread, h])
    simp only [EnvStep.apply]
    split
    · by_cases hs : s = s'
      · subst hs
        have hne : (id == tid) = false := beq_false_of_ne (Ne.symm hid)
        simp [SignalSubscriber.addActive, addActiveList, List.count_cons, hne]
      · simp [SignalSubscriber.addActive, World.setSub_subs_ne _ _ _ _ hs]
    · rfl
  | leave s' id =>
    have hid : tid ≠ id := fun h => he (by simp [EnvStep.thread, h])
    simp only [EnvStep.apply]
    by_cases hs : s = s'
    · subst hs
      simp [SignalSubscriber.removeActive, count_removeActiveList id tid hid]
    · simp [SignalSubscriber.removeActive, World.setSub_subs_ne _ _ _ _ hs]
  | idle => rfl

theorem applyEnv_count (env : List EnvStep) (tid : ThreadId) (s : SubPtr) (w : World)
    (he : ∀ e ∈ env, e.thread ≠ some tid) :
    ((applyEnv env w).subs s).activeThreads.count tid
      = (w.subs s).activeThreads.count tid := by
  induction env generalizing w with
  | nil => rfl
  | cons e rest ih =>
    simp only [applyEnv]
    rw [ih _ (fun e' he' => he e' (List.mem_cons_of_mem _ he')),
      EnvStep.apply_count e tid s w (he e (List.mem_cons_self _ _))]

theorem inactiveFor_false_of_twice (tid : ThreadId) (a : List ThreadId)
    (h : 2 ≤ a.count tid) : inactiveFor tid a = false := by
  match a, h with
  | [], h => simp at h
  | [y], h =>
    have := List.count_le_length tid [y]
    simp at this
    omega
  | _ :: _ :: _, _ => simp [inactiveFor]

/-- The general form of the defect behind C2. -/
theorem disconnect_blocks_when_active_twice (tid : ThreadId) (sig : SigPtr) (pp : PrivPtr)
    (link : SignalLink) (s : SubPtr) (w : World) (env : List EnvStep)
    (hp : (w.signals sig)._p = some pp)
    (hfind : mapFind (w.privs pp).subscriberMap link = some s)
    (htwice : 2 ≤ (w.subs s).activeThreads.count tid)
    (henv : ∀ e ∈ env, e.thread ≠ some tid) :
    SignalBase.disconnect tid sig link w env
      = Res.blocked (applyEnv env (SignalBasePrivate.detach pp link s w)) := by
  have hd : ((SignalBasePrivate.detach pp link s w).subs s).activeThreads
      = (w.subs s).activeThreads := by
    simp [detach_subs]
  have hpoll : ∀ k, k ≤ env.length → inactiveFor tid ((applyEnv (env.take k)
      (SignalBasePrivate.detach pp link s w)).subs s).activeThreads = false := by
    intro k _
    apply inactiveFor_false_of_twice
    rw [applyEnv_count _ tid s _ (fun e he => henv e (List.mem_of_mem_take he)), hd]
    exact htwice
  simp only [SignalBase.disconnect, hp, SignalBasePrivate.disconnect, hfind]
  have h0 := hpoll 0 (Nat.zero_le _)
  simp only [List.take, applyEnv] at h0
  rw [h0]
  simp only [Bool.false_eq_true, if_false]
  rw [waitForInactive_blocked tid s env _ hpoll]
  rfl

example (n : Nat) : Res.isBlocked (SignalBase.trigger (n + 6) 1 0 [] MetaCallType.Direct demoReentrant []) = true := rfl
theorem incrLinkUid_eq (u : Int) (h : u + 1 < 2147483648) : incrLinkUid u = u + 1 := by
  simp [incrLinkUid, h]

theorem toSignalLink_eq (bits : Nat) (u : Int) (h0 : 0 ≤ u) (h1 : u < 2147483648)
    (hb : 31 ≤ bits) : toSignalLink bits u = u.toNat := by
  unfold toSignalLink
  have hpow : (2147483648 : Nat) ≤ 2 ^ bits := by
    calc (2147483648 : Nat) = 2 ^ 31 := by norm_num
      _ ≤ 2 ^ bits := Nat.pow_le_pow_right (by norm_num) hb
  have hlt : u < ((2 ^ bits : Nat) : Int) := by
    have : ((2147483648 : Nat) : Int) ≤ ((2 ^ bits : Nat) : Int) := by exact_mod_cast hpow
    omega
  rw [Int.emod_eq_of_lt h0 hlt]

theorem connect_counter (sig : SigPtr) (src : SignalSubscriber) (w : World) :
    (SignalBase.connect sig src w).2.linkBits = w.linkBits ∧
    (((SignalBase.connect sig src w).1 = none ∧
        (SignalBase.connect sig src w).2.linkUid = w.linkUid) ∨
     (∃ s, (SignalBase.connect sig src w).1 = some s ∧
        (SignalBase.connect sig src w).2.linkUid = incrLinkUid w.linkUid ∧
        ((SignalBase.connect sig src w).2.subs s).linkId
          = toSignalLink w.linkBits (incrLinkUid w.linkUid))) := by
  rcases connect_cases sig src w with h | h
  · rw [h]
    exact ⟨ensurePrivate_linkBits sig w, Or.inl ⟨rfl, ensurePrivate_linkUid sig w⟩⟩
  · rw [h]
    refine ⟨by rw [connectProceed_linkBits, ensurePrivate_linkBits], Or.inr ⟨_, connectProceed_fst _ _ _ _, ?_, ?_⟩⟩
    · rw [connectProceed_linkUid, ensurePrivate_linkUid]
    · rw [connectProceed_subs, ensurePrivate_linkUid, ensurePrivate_linkBits]
      simp

theorem disconnect_counter (tid : ThreadId) (sig : SigPtr) (link : SignalLink) (w : World)
    (env : List EnvStep) (b : Bool) (w' : World) (env' : List EnvStep)
    (h : SignalBase.disconnect tid sig link w env = Res.ok b w' env') :
    w'.linkUid = w.linkUid ∧ w'.linkBits = w.linkBits := by
  unfold SignalBase.disconnect at h
  cases hp : (w.signals sig)._p with
  | none =>
    rw [hp] at h
    injection h with hb hw he
    subst hw
    exact ⟨rfl, rfl⟩
  | some pp =>
    rw [hp] at h
    simp only at h
    rcases privDisconnect_ok tid pp link w env b w' env' h with
      ⟨_, _, hw, _⟩ | ⟨s, used, _, _, _, hw, _⟩
    · subst hw
      exact ⟨rfl, rfl⟩
    · obtain ⟨_, _, _, f4, f5⟩ := applyEnv_frame used (SignalBasePrivate.detach pp link s w)
      rw [hw, f4, f5, detach_linkUid]
      refine ⟨rfl, ?_⟩
      unfold SignalBasePrivate.detach
      simp only
      split <;> rfl

/-- Link ids handed out by a sequence of API calls, short of wrap-around. -/
theorem runOps_links (ops : List SignalOp) : ∀ (w : World) (env : List EnvStep)
    (links : List SignalLink) (w' : World) (env' : List EnvStep),
    runOps ops w env = Res.ok links w' env' →
    0 ≤ w.linkUid → w.linkUid + ops.length < 2147483648 → 31 ≤ w.linkBits →
    links.Pairwise (fun a b => a < b) ∧ ∀ l ∈ links, w.linkUid.toNat < l := by
  induction ops with
  | nil =>
    intro w env links w' env' h _ _ _
    simp only [runOps] at h
    injection h with hl
    subst hl
    simp
  | cons op rest ih =>
    intro w env links w' env' h h0 h1 hb
    simp only [List.length_cons, Nat.cast_add, Nat.cast_one] at h1
    cases op with
    | connect sig src =>
      simp only [runOps] at h
      cases hr : runOps rest (SignalBase.connect sig src w).2 env with
      | ok ls w1 env1 =>
        rw [hr] at h
        simp only [Res.andThen] at h
        injection h with hl
        obtain ⟨hbits, hcase⟩ := connect_counter sig src w
        rcases hcase with ⟨hnone, hu⟩ | ⟨s, hsome, hu, hlink⟩
        · rw [hnone] at hl
          simp only [Option.map_none', Option.toList, List.nil_append] at hl
          subst hl
          have := ih _ env ls w1 env1 hr (by rw [hu]; exact h0) (by rw [hu]; omega)
            (by rw [hbits]; exact hb)
          rw [hu] at this
          exact this
        · rw [hsome] at hl
          simp only [Option.map_some', Option.toList, List.singleton_append] at hl
          subst hl
          have hinc : incrLinkUid w.linkUid = w.linkUid + 1 :=
            incrLinkUid_eq _ (by omega)
          rw [hinc] at hu hlink
          rw [toSignalLink_eq _ _ (by omega) (by omega) hb] at hlink
          obtain ⟨hp, hgt⟩ := ih _ env ls w1 env1 hr (by rw [hu]; omega) (by rw [hu]; omega)
            (by rw [hbits]; exact hb)
          rw [hu] at hgt
          rw [hlink]
          refine ⟨List.pairwise_cons.mpr ⟨fun l hl => hgt l hl, hp⟩, ?_⟩
          intro l hl
          rcases List.mem_cons.mp hl with rfl | hl
          · omega
          · have := hgt l hl
            omega
      | threw w1 env1 => rw [hr] at h; simp [Res.andThen] at h
      | blocked w1 => rw [hr] at h; simp [Res.andThen] at h
      | outOfFuel => rw [hr] at h; simp [Res.andThen] at h
    | disconnect tid sig link =>
      simp only [runOps] at h
      cases hd : SignalBase.disconnect tid sig link w env with
      | ok b w1 env1 =>
        rw [hd] at h
        simp only [Res.andThen] at h
        obtain ⟨hu, hbits⟩ := disconnect_counter tid sig link w env b w1 env1 hd
        have := ih w1 env1 links w' env' h (by rw [hu]; exact h0) (by rw [hu]; omega)
          (by rw [hbits]; exact hb)
        rw [hu] at this
        exact this
      | threw w1 env1 => rw [hd] at h; simp [Res.andThen] at h
      | blocked w1 => rw [hd] at h; simp [Res.andThen] at h
      | outOfFuel => rw [hd] at h; simp [Res.andThen] at h
/-- `SignalBase::disconnect` of a link that is not in the map. -/
theorem disconnect_not_found (tid : ThreadId) (sig : SigPtr)
    (link : SignalLink) (w : World) (env : List EnvStep)
    (hunknown : mapFind (SignalBase.subscriberMap sig w) link = none) :
    SignalBase.disconnect tid sig link w env = Res.ok false w env := by
  unfold SignalBase.disconnect
  unfold SignalBase.subscriberMap at hunknown
  cases hp : (w.signals sig)._p with
  | none => rfl
  | some pp =>
    rw [hp] at hunknown
    simp only [SignalBasePrivate.disconnect]
    simp only at hunknown
    rw [hunknown]

/-- The trace after a call of `connect`: the hook is called with `true` when the
subscriber was registered in an empty map, and not otherwise. -/
theorem connect_trace (sig : SigPtr) (src : SignalSubscriber) (w : World) :
    (SignalBase.connect sig src w).2.trace = w.trace ++
      (match (SignalBase.connect sig src w).1, SignalBase.hook sig w with
       | some _, some cb =>
         if SignalBase.subscriberMap sig w = [] then [Event.onSubscribers cb true] else []
       | _, _ => []) := by
  have hhook : SignalBase.hook sig w = ((SignalBase.ensurePrivate sig w).2.privs
      (SignalBase.ensurePrivate sig w).1).onSubscribers := by
    rw [← ensurePrivate_hook]
    simp [SignalBase.hook, ensurePrivate_p]
  have hmap : SignalBase.subscriberMap sig w = ((SignalBase.ensurePrivate sig w).2.privs
      (SignalBase.ensurePrivate sig w).1).subscriberMap := by
    rw [← ensurePrivate_subscriberMap]
    simp [SignalBase.subscriberMap, ensurePrivate_p]
  rcases connect_cases sig src w with h | h
  · rw [h]
    simp [ensurePrivate_trace]
  · rw [h, connectProceed_trace, connectProceed_fst, ensurePrivate_trace, hhook, hmap]
    cases ((SignalBase.ensurePrivate sig w).2.privs
      (SignalBase.ensurePrivate sig w).1).onSubscribers <;> rfl

/-- The trace and the map after `SignalBase::disconnect` has returned. -/
theorem disconnect_trace (tid : ThreadId) (sig : SigPtr) (link : SignalLink) (w : World)
    (env : List EnvStep) (b : Bool) (w' : World) (env' : List EnvStep)
    (h : SignalBase.disconnect tid sig link w env = Res.ok b w' env') :
    SignalBase.subscriberMap sig w'
      = (if b then mapErase (SignalBase.subscriberMap sig w) link
         else SignalBase.subscriberMap sig w) ∧
    w'.trace = w.trace ++
      (match b, SignalBase.hook sig w with
       | true, some cb =>
         if SignalBase.subscriberMap sig w' = [] then [Event.onSubscribers cb false] else []
       | _, _ => []) := by
  unfold SignalBase.disconnect at h
  cases hp : (w.signals sig)._p with
  | none =>
    rw [hp] at h
    injection h with hb hw he
    subst hb; subst hw
    simp
  | some pp =>
    rw [hp] at h
    simp only at h
    rcases privDisconnect_ok tid pp link w env b w' env' h with
      ⟨_, hb, hw, _⟩ | ⟨s, used, hs, hb, he, hw, hin⟩
    · subst hb; subst hw
      simp
    · subst hb
      obtain ⟨f1, f2, f3, _, _⟩ := applyEnv_frame used (SignalBasePrivate.detach pp link s w)
      rw [← hw] at f1 f2 f3
      have hmap : SignalBase.subscriberMap sig w'
          = mapErase (SignalBase.subscriberMap sig w) link := by
        simp [SignalBase.subscriberMap, f2, detach_signals, hp, f1, detach_privs]
      refine ⟨by simpa using hmap, ?_⟩
      rw [f3, detach_trace, hmap]
      simp only [SignalBase.hook, SignalBase.subscriberMap, hp]
      cases (w.privs pp).onSubscribers with
      | none => simp
      | some cb =>
        cases hm : mapErase (w.privs pp).subscriberMap link <;> simp

/-- An entry of the map after an assignment is the assigned key or an old entry. -/
theorem mapSet_keys (m : SignalSubscriberMap) (l : SignalLink) (s : SubPtr)
    (e : SignalLink × SubPtr) (he : e ∈ mapSet m l s) : e.1 = l ∨ e ∈ m := by
  induction m with
  | nil =>
    simp only [mapSet, List.mem_singleton] at he
    exact Or.inl (by rw [he])
  | cons x rest ih =>
    obtain ⟨a, v⟩ := x
    simp only [mapSet] at he
    split at he
    · rcases List.mem_cons.mp he with h | h
      · exact Or.inl (by rw [h])
      · exact Or.inr h
    · split at he
      · rcases List.mem_cons.mp he with h | h
        · exact Or.inl (by rw [h])
        · exact Or.inr (List.mem_cons_of_mem _ h)
      · rcases List.mem_cons.mp he with h | h
        · exact Or.inr (by rw [h]; exact List.mem_cons_self _ _)
        · rcases ih h with h' | h'
          · exact Or.inl h'
          · exact Or.inr (List.mem_cons_of_mem _ h')

/-- Assigning keeps a map sorted. -/
theorem mapSorted_mapSet (m : SignalSubscriberMap) (l : SignalLink) (s : SubPtr)
    (hs : mapSorted m) : mapSorted (mapSet m l s) := by
  induction m with
  | nil => simp [mapSet, mapSorted]
  | cons x rest ih =>
    obtain ⟨a, v⟩ := x
    have hs' := List.pairwise_cons.mp hs
    simp only [mapSet]
    split
    · rename_i hlt
      refine List.pairwise_cons.mpr ⟨?_, hs⟩
      intro e he
      rcases List.mem_cons.mp he with h | h
      · rw [h]; exact hlt
      · exact Nat.lt_trans hlt (hs'.1 e h)
    · split
      · rename_i heq
        refine List.pairwise_cons.mpr ⟨?_, hs'.2⟩
        intro e he
        show l < e.1
        rw [heq]
        exact hs'.1 e he
      · rename_i hnlt hne
        refine List.pairwise_cons.mpr ⟨?_, ih hs'.2⟩
        intro e he
        rcases mapSet_keys rest l s e he with h | h
        · show a < e.1
          rw [h]
          exact Nat.lt_of_le_of_ne (Nat.le_of_not_lt hnlt) (fun h' => hne h'.symm)
        · exact hs'.1 e h


/-- A handler that never returns keeps the inline call from returning. -/
theorem callWith_blocked
    (runH : Handler → ThreadId → World → List EnvStep → Res Outcome)
    (tid : ThreadId) (s : SubPtr) (args : GenericFunctionParameters)
    (callType : MetaCallType) (w : World) (env : List EnvStep) (h : AnyFunction)
    (wb : World)
    (hh : (w.subs s).handler = some h)
    (hmodel : (w.subs s).threadingModel = MetaCallType.Direct)
    (hen : (w.subs s).enabled = true)
    (hrun : runH (h.body args) tid
      ((SignalSubscriber.addActive s tid w).log (Event.handlerCall s tid args)) env
        = Res.blocked wb) :
    SignalSubscriber.callWith runH tid s args callType w env = Res.blocked wb := by
  unfold SignalSubscriber.callWith
  simp [hh, hmodel, hen, hrun]

/-- A call that never returns keeps the loop over the snapshot from returning. -/
theorem callEach_cons_blocked
    (runH : Handler → ThreadId → World → List EnvStep → Res Outcome)
    (tid : ThreadId) (params : GenericFunctionParameters) (mct : MetaCallType)
    (k : SignalLink) (s : SubPtr) (rest : SignalSubscriberMap) (w : World)
    (env : List EnvStep) (wb : World)
    (h : SignalSubscriber.callWith runH tid s params mct w env = Res.blocked wb) :
    callEachWith runH tid params mct ((k, s) :: rest) w env = Res.blocked wb := by
  simp [callEachWith, h, Res.andThen]

/-- An emission that never returns keeps the emitting handler from returning. -/
theorem runHandler_trigger_blocked (n : Nat) (sig : SigPtr)
    (params : GenericFunctionParameters) (callType : MetaCallType) (k : Handler)
    (tid : ThreadId) (w : World) (env : List EnvStep) (wb : World)
    (h : SignalBase.triggerWith (runHandler n) tid sig params callType w env
      = Res.blocked wb) :
    runHandler (n + 1) (Handler.trigger sig params callType k) tid w env = Res.blocked wb := by
  simp [runHandler, h]

/-- When the test of `waitForInactive` holds, every entry belongs to the calling thread. -/
theorem inactiveFor_true (tid : ThreadId) (a : List ThreadId)
    (h : inactiveFor tid a = true) : ∀ x ∈ a, x = tid := by
  intro x hx
  match a, h, hx with
  | [y], h, hx =>
    simp [inactiveFor] at h
    simp at hx
    rw [hx, h]
  | _ :: _ :: _, h, _ => simp [inactiveFor] at h

/-- An entry of another thread makes the test of `waitForInactive` fail. -/
theorem inactiveFor_false_of_foreign (tid : ThreadId) (a : List ThreadId)
    (h : ∃ x ∈ a, x ≠ tid) : inactiveFor tid a = false := by
  cases hin : inactiveFor tid a with
  | false => rfl
  | true =>
    obtain ⟨x, hx, hne⟩ := h
    exact absurd (inactiveFor_true tid a hin x hx) hne

/-- The loop of `callSubscribers` over entries whose handlers end without calling back
into the signal API: every handler is called once, in order, and the loop returns. -/
theorem callEach_inert (n : Nat) (tid : ThreadId) (sig : SigPtr) (pp : PrivPtr)
    (params : GenericFunctionParameters) (env : List EnvStep) :
    ∀ (rest : SignalSubscriberMap) (w : World),
    (w.signals sig)._p = some pp →
    (rest.map Prod.fst).Nodup →
    (∀ e ∈ rest, ∃ h o, (w.subs e.2).handler = some h ∧ h.body params = Handler.done o ∧
      (w.subs e.2).enabled = true ∧
      ((w.subs e.2).threadingModel = MetaCallType.Direct ∨
        (w.subs e.2).threadingModel = MetaCallType.Auto) ∧
      (w.subs e.2).activeThreads = [] ∧ (w.subs e.2).linkId = e.1 ∧
      (w.subs e.2).source = sig ∧ mapFind (w.privs pp).subscriberMap e.1 = some e.2) →
    ∃ w', callEachWith (runHandler (n + 1)) tid params MetaCallType.Direct rest w env
        = Res.ok () w' env ∧
      handlerCalls w'.trace
        = handlerCalls w.trace ++ rest.map (fun e => (e.2, tid, params)) := by
  intro rest
  induction rest with
  | nil =>
    intro w _ _ _
    exact ⟨w, rfl, by simp⟩
  | cons e rest ih =>
    intro w hp hnd hall
    obtain ⟨k, s⟩ := e
    obtain ⟨h, o, hh, hbody, hen, hmodel, hidle, hlink, hsrc, hfind⟩ :=
      hall (k, s) (List.mem_cons_self _ _)
    simp only at hh hbody hen hmodel hidle hlink hsrc hfind
    have hcall := call_inert n tid sig pp k s params w env h o hp hh hbody hen hmodel hidle
      hlink hsrc hfind
    simp only [List.map_cons, List.nodup_cons] at hnd
    -- the state after the call of the first entry
    have hnext : ∀ w1 : World, w1.signals = w.signals →
        (∀ p, p ≠ s → w1.subs p = w.subs p) →
        (∀ k', k' ≠ k → mapFind (w1.privs pp).subscriberMap k'
          = mapFind (w.privs pp).subscriberMap k') →
        handlerCalls w1.trace = handlerCalls w.trace ++ [(s, tid, params)] →
        ∃ w', callEachWith (runHandler (n + 1)) tid params MetaCallType.Direct rest w1 env
            = Res.ok () w' env ∧
          handlerCalls w'.trace
            = handlerCalls w.trace ++ ((s, tid, params) :: rest.map (fun e => (e.2, tid, params))) := by
      intro w1 hsig hsubs hmap htrace
      have hall1 : ∀ e ∈ rest, ∃ h o, (w1.subs e.2).handler = some h ∧
          h.body params = Handler.done o ∧ (w1.subs e.2).enabled = true ∧
          ((w1.subs e.2).threadingModel = MetaCallType.Direct ∨
            (w1.subs e.2).threadingModel = MetaCallType.Auto) ∧
          (w1.subs e.2).activeThreads = [] ∧ (w1.subs e.2).linkId = e.1 ∧
          (w1.subs e.2).source = sig ∧
          mapFind (w1.privs pp).subscriberMap e.1 = some e.2 := by
        intro e he
        obtain ⟨h', o', g1, g2, g3, g4, g5, g6, g7, g8⟩ := hall e (List.mem_cons_of_mem _ he)
        have hk : e.1 ≠ k := by
          intro heq
          exact hnd.1 (heq ▸ List.mem_map_of_mem Prod.fst he)
        have hs : e.2 ≠ s := by
          intro heq
          rw [heq, hlink] at g6
          exact hk g6.symm
        rw [hsubs e.2 hs, hmap e.1 hk]
        exact ⟨h', o', g1, g2, g3, g4, g5, g6, g7, g8⟩
      obtain ⟨w', hrun, htr⟩ := ih w1 (by rw [hsig]; exact hp) hnd.2 hall1
      refine ⟨w', hrun, ?_⟩
      rw [htr, htrace]
      simp
    simp only [callEachWith, hcall, Res.andThen, List.map_cons]
    by_cases ho : o = Outcome.pointerLockException
    · simp only [ho, if_true]
      apply hnext
      · rw [detach_signals]; rfl
      · intro p hps
        simp [detach_subs, Function.update_noteq hps]
      · intro k' hk'
        simp [detach_privs, mapFind_mapErase_ne _ _ _ hk']
      · rw [detach_trace]
        simp only [World.log_trace, handlerCalls_append]
        have h1 : handlerCalls [Event.handlerCall s tid params] = [(s, tid, params)] := rfl
        rw [h1]
        split <;> simp [handlerCalls]
    · simp only [ho, if_false]
      apply hnext
      · rfl
      · intro p _; rfl
      · intro k' _; rfl
      · simp [handlerCalls_append, handlerCalls]

/-- The call of an object and method subscriber with a live target posts to the target
whatever the `enabled` flag says. -/
theorem call_target_ignores_enabled (fuel : Nat) (tid : ThreadId) (s : SubPtr)
    (args : GenericFunctionParameters) (callType : MetaCallType) (w : World)
    (env : List EnvStep) (obj : ObjId)
    (hh : (w.subs s).handler = none) (ht : (w.subs s).target = some obj)
    (halive : w.alive obj = true) :
    SignalSubscriber.call fuel tid s args callType w env
      = Res.ok () (w.log (Event.metaPost obj (w.subs s).method args)) env := by
  unfold SignalSubscriber.call SignalSubscriber.callWith
  simp [hh, ht, halive]

/-- The inline call of a plain handler does nothing once the subscriber is disabled. -/
theorem call_disabled_handler_inline (fuel : Nat) (tid : ThreadId) (s : SubPtr)
    (args : GenericFunctionParameters) (w : World) (env : List EnvStep) (h : AnyFunction)
    (hh : (w.subs s).handler = some h)
    (hmodel : (w.subs s).threadingModel ≠ MetaCallType.Queued)
    (hdis : (w.subs s).enabled = false) :
    SignalSubscriber.call fuel tid s args MetaCallType.Direct w env = Res.ok () w env := by
  unfold SignalSubscriber.call SignalSubscriber.callWith
  cases hm : (w.subs s).threadingModel with
  | Auto => simp [hh, hm, hdis]
  | Direct => simp [hh, hm, hdis]
  | Queued => exact absurd hm hmodel

/-- `waitForInactive` returns or polls for ever; it neither raises nor runs a handler. -/
theorem waitForInactive_ok_or_blocked (tid : ThreadId) (s : SubPtr) (env : List EnvStep)
    (w : World) :
    (∃ w' env', SignalSubscriber.waitForInactive tid s w env = Res.ok () w' env') ∨
    (∃ wb, SignalSubscriber.waitForInactive tid s w env = Res.blocked wb) := by
  induction env generalizing w with
  | nil =>
    unfold SignalSubscriber.waitForInactive
    split
    · exact Or.inl ⟨_, _, rfl⟩
    · exact Or.inr ⟨_, rfl⟩
  | cons e rest ih =>
    unfold SignalSubscriber.waitForInactive
    split
    · exact Or.inl ⟨_, _, rfl⟩
    · exact ih (e.apply w)

/-- `SignalBase::disconnect` returns or polls for ever; it never raises. -/
theorem disconnect_ok_or_blocked (tid : ThreadId) (sig : SigPtr) (link : SignalLink)
    (w : World) (env : List EnvStep) :
    (∃ b w' env', SignalBase.disconnect tid sig link w env = Res.ok b w' env') ∨
    (∃ wb, SignalBase.disconnect tid sig link w env = Res.blocked wb) := by
  unfold SignalBase.disconnect
  cases (w.signals sig)._p with
  | none => exact Or.inl ⟨_, _, _, rfl⟩
  | some pp =>
    simp only [SignalBasePrivate.disconnect]
    cases mapFind (w.privs pp).subscriberMap link with
    | none => exact Or.inl ⟨_, _, _, rfl⟩
    | some s =>
      simp only
      split
      · exact Or.inl ⟨_, _, _, rfl⟩
      · rcases waitForInactive_ok_or_blocked tid s env
          (SignalBasePrivate.detach pp link s w) with ⟨w', env', h⟩ | ⟨wb, h⟩
        · rw [h]; exact Or.inl ⟨_, _, _, rfl⟩
        · rw [h]; exact Or.inr ⟨_, rfl⟩

/-- `disconnect` of a link whose subscriber is idle returns at once. -/
theorem privDisconnect_idle (tid : ThreadId) (pp : PrivPtr) (l : SignalLink) (s : SubPtr)
    (w : World) (env : List EnvStep)
    (hfind : mapFind (w.privs pp).subscriberMap l = some s)
    (hidle : (w.subs s).activeThreads = []) :
    SignalBasePrivate.disconnect tid pp l w env
      = Res.ok true (SignalBasePrivate.detach pp l s w) env := by
  simp only [SignalBasePrivate.disconnect, hfind]
  rw [if_pos]
  simp [detach_subs, hidle, inactiveFor_nil]

/-- The loop of the destructor over the keys of the map, when no subscriber is
executing: the map ends empty, every subscriber that was in it is disabled, the other
subscribers are untouched, and nothing is added to the trace when the hook is empty. -/
theorem disconnectEach_all (tid : ThreadId) (pp : PrivPtr) (env : List EnvStep) :
    ∀ (m : SignalSubscriberMap) (w : World),
    (w.privs pp).subscriberMap = m →
    (∀ e ∈ m, (w.subs e.2).activeThreads = []) →
    ∃ w', disconnectEach tid pp (m.map Prod.fst) w env = Res.ok () w' env ∧
      (w'.privs pp).subscriberMap = [] ∧
      (∀ e ∈ m, (w'.subs e.2).enabled = false) ∧
      (∀ p, (∀ e ∈ m, e.2 ≠ p) → w'.subs p = w.subs p) ∧
      w'.signals = w.signals ∧
      ((w.privs pp).onSubscribers = none → w'.trace = w.trace) := by
  intro m
  induction m with
  | nil =>
    intro w hm _
    exact ⟨w, rfl, hm, by simp, fun _ _ => rfl, rfl, fun _ => rfl⟩
  | cons e rest ih =>
    intro w hm hidle
    obtain ⟨k, s⟩ := e
    have hfind : mapFind (w.privs pp).subscriberMap k = some s := by
      rw [hm]; simp [mapFind]
    have hs : (w.subs s).activeThreads = [] := hidle (k, s) (List.mem_cons_self _ _)
    have hd := privDisconnect_idle tid pp k s w env hfind hs
    have hmap1 : ((SignalBasePrivate.detach pp k s w).privs pp).subscriberMap = rest := by
      simp [detach_privs, hm, mapErase]
    have hidle1 : ∀ e ∈ rest,
        ((SignalBasePrivate.detach pp k s w).subs e.2).activeThreads = [] := by
      intro e he
      have := hidle e (List.mem_cons_of_mem _ he)
      rw [detach_subs]
      by_cases hes : e.2 = s
      · rw [hes, Function.update_same]
        exact hs
      · rw [Function.update_noteq hes]
        exact this
    obtain ⟨w', hrun, hempty, hdis, hframe, hsig, htrace⟩ :=
      ih (SignalBasePrivate.detach pp k s w) hmap1 hidle1
    refine ⟨w', ?_, hempty, ?_, ?_, ?_, ?_⟩
    · simp only [List.map_cons, disconnectEach, hd, Res.andThen]
      exact hrun
    · intro e he
      rcases List.mem_cons.mp he with heq | hmem
      · rw [heq]
        simp only
        by_cases hin : ∃ e' ∈ rest, e'.2 = s
        · obtain ⟨e', he', hes⟩ := hin
          rw [← hes]
          exact hdis e' he'
        · rw [hframe s (fun e' he' hes => hin ⟨e', he', hes⟩)]
          simp [detach_subs]
      · exact hdis e hmem
    · intro p hp
      rw [hframe p (fun e he => hp e (List.mem_cons_of_mem _ he))]
      have hps : p ≠ s := fun h => hp (k, s) (List.mem_cons_self _ _) h.symm
      simp [detach_subs, Function.update_noteq hps]
    · rw [hsig, detach_signals]
    · intro hhook
      have hhook1 : ((SignalBasePrivate.detach pp k s w).privs pp).onSubscribers = none := by
        simp [detach_privs, hhook]
      rw [htrace hhook1, detach_trace, hhook]
      cases (mapErase (w.privs pp).subscriberMap k).isEmpty <;> simp

theorem ensurePrivate_nextSub (sig : SigPtr) (w : World) :
    (SignalBase.ensurePrivate sig w).2.nextSub = w.nextSub := by
  unfold SignalBase.ensurePrivate
  cases (w.signals sig)._p <;> rfl

theorem ensurePrivate_eventLoop (sig : SigPtr) (w : World) :
    (SignalBase.ensurePrivate sig w).2.eventLoop = w.eventLoop := by
  unfold SignalBase.ensurePrivate
  cases (w.signals sig)._p <;> rfl

theorem ensurePrivate_nextPriv (sig : SigPtr) (w : World) :
    w.nextPriv ≤ (SignalBase.ensurePrivate sig w).2.nextPriv := by
  unfold SignalBase.ensurePrivate
  cases (w.signals sig)._p with
  | none => exact Nat.le_succ _
  | some pp => exact Nat.le_refl _

/-- Creating the private state of a signal leaves the allocated private states alone. -/
theorem ensurePrivate_privs_lt (sig : SigPtr) (w : World) (pp : PrivPtr)
    (h : pp < w.nextPriv) : (SignalBase.ensurePrivate sig w).2.privs pp = w.privs pp := by
  unfold SignalBase.ensurePrivate
  cases (w.signals sig)._p with
  | none =>
    have hne : pp ≠ w.nextPriv := Nat.ne_of_lt h
    simp [Function.update_noteq hne]
  | some q => rfl

/-- Creating the private state of a signal leaves the signals that have one alone. -/
theorem ensurePrivate_signals (sig sig0 : SigPtr) (w : World) (pp : PrivPtr)
    (h : (w.signals sig0)._p = some pp) :
    ((SignalBase.ensurePrivate sig w).2.signals sig0)._p = some pp := by
  unfold SignalBase.ensurePrivate
  cases hs : (w.signals sig)._p with
  | none =>
    have hne : sig0 ≠ sig := by
      intro heq
      rw [heq, hs] at h
      cases h
    simp [Function.update_noteq hne, h]
  | some q => exact h

theorem connectProceed_nextSub (sig : SigPtr) (pp : PrivPtr) (src : SignalSubscriber)
    (w : World) : (SignalBase.connectProceed sig pp src w).2.nextSub = w.nextSub + 1 := by
  unfold SignalBase.connectProceed
  simp only
  split <;> rfl

theorem connectProceed_nextPriv (sig : SigPtr) (pp : PrivPtr) (src : SignalSubscriber)
    (w : World) : (SignalBase.connectProceed sig pp src w).2.nextPriv = w.nextPriv := by
  unfold SignalBase.connectProceed
  simp only
  split <;> rfl

theorem connectProceed_eventLoop (sig : SigPtr) (pp : PrivPtr) (src : SignalSubscriber)
    (w : World) : (SignalBase.connectProceed sig pp src w).2.eventLoop = w.eventLoop := by
  unfold SignalBase.connectProceed
  simp only
  split <;> rfl

/-- An entry of the map after an assignment is the assigned entry or an old entry. -/
theorem mapSet_mem (m : SignalSubscriberMap) (l : SignalLink) (s : SubPtr)
    (e : SignalLink × SubPtr) (he : e ∈ mapSet m l s) : e = (l, s) ∨ e ∈ m := by
  induction m with
  | nil =>
    simp only [mapSet, List.mem_singleton] at he
    exact Or.inl he
  | cons x rest ih =>
    obtain ⟨a, v⟩ := x
    simp only [mapSet] at he
    split at he
    · rcases List.mem_cons.mp he with h | h
      · exact Or.inl h
      · exact Or.inr h
    · split at he
      · rcases List.mem_cons.mp he with h | h
        · exact Or.inl h
        · exact Or.inr (List.mem_cons_of_mem _ h)
      · rcases List.mem_cons.mp he with h | h
        · exact Or.inr (by rw [h]; exact List.mem_cons_self _ _)
        · rcases ih h with h' | h'
          · exact Or.inl h'
          · exact Or.inr (List.mem_cons_of_mem _ h')

/-- What a call of `connect` does to the parts of the state an emission in progress
depends on: no handler is called, signals keep their private state, and either nothing
is allocated, or one subscriber is allocated at `nextSub` and entered in one map. -/
theorem connect_effect (sig' : SigPtr) (src : SignalSubscriber) (w : World) :
    handlerCalls (SignalBase.connect sig' src w).2.trace = handlerCalls w.trace ∧
    w.nextPriv ≤ (SignalBase.connect sig' src w).2.nextPriv ∧
    (SignalBase.connect sig' src w).2.eventLoop = w.eventLoop ∧
    (∀ sig pp, (w.signals sig)._p = some pp →
      ((SignalBase.connect sig' src w).2.signals sig)._p = some pp) ∧
    (((SignalBase.connect sig' src w).2.subs = w.subs ∧
        (SignalBase.connect sig' src w).2.nextSub = w.nextSub ∧
        ∀ pp, pp < w.nextPriv → (SignalBase.connect sig' src w).2.privs pp = w.privs pp) ∨
      ((SignalBase.connect sig' src w).2.nextSub = w.nextSub + 1 ∧
        (∀ p, p ≠ w.nextSub → (SignalBase.connect sig' src w).2.subs p = w.subs p) ∧
        ((SignalBase.connect sig' src w).2.subs w.nextSub).handler = src.handler ∧
        ((SignalBase.connect sig' src w).2.subs w.nextSub).enabled = src.enabled ∧
        ((SignalBase.connect sig' src w).2.subs w.nextSub).threadingModel
          = src.threadingModel ∧
        ∀ pp, pp < w.nextPriv →
          ((SignalBase.connect sig' src w).2.privs pp).defaultCallType
            = (w.privs pp).defaultCallType ∧
          ∀ e ∈ ((SignalBase.connect sig' src w).2.privs pp).subscriberMap,
            e ∈ (w.privs pp).subscriberMap ∨ e.2 = w.nextSub)) := by
  rcases connect_cases sig' src w with h | h
  · rw [h]
    refine ⟨by rw [ensurePrivate_trace], ensurePrivate_nextPriv _ _,
      ensurePrivate_eventLoop _ _, fun sig pp hp => ensurePrivate_signals _ _ _ _ hp,
      Or.inl ⟨ensurePrivate_subs _ _, ensurePrivate_nextSub _ _,
        fun pp hpp => ensurePrivate_privs_lt _ _ _ hpp⟩⟩
  · rw [h]
    refine ⟨?_, ?_, ?_, ?_, Or.inr ⟨?_, ?_, ?_, ?_, ?_, ?_⟩⟩
    · rw [connectProceed_trace, ensurePrivate_trace, handlerCalls_append]
      cases ((SignalBase.ensurePrivate sig' w).2.privs
        (SignalBase.ensurePrivate sig' w).1).onSubscribers with
      | none => simp [handlerCalls]
      | some cb =>
        simp only
        split <;> simp [handlerCalls]
    · rw [connectProceed_nextPriv]
      exact ensurePrivate_nextPriv _ _
    · rw [connectProceed_eventLoop, ensurePrivate_eventLoop]
    · intro sig pp hp
      rw [connectProceed_signals]
      exact ensurePrivate_signals _ _ _ _ hp
    · rw [connectProceed_nextSub, ensurePrivate_nextSub]
    · intro p hp
      rw [connectProceed_subs, ensurePrivate_nextSub, ensurePrivate_subs,
        Function.update_noteq hp]
    · rw [connectProceed_subs, ensurePrivate_nextSub, Function.update_same]
      rfl
    · rw [connectProceed_subs, ensurePrivate_nextSub, Function.update_same]
      rfl
    · rw [connectProceed_subs, ensurePrivate_nextSub, Function.update_same]
      rfl
    · intro pp hpp
      rw [connectProceed_privs, ensurePrivate_nextSub]
      by_cases hq : pp = (SignalBase.ensurePrivate sig' w).1
      · rw [← hq, Function.update_same, ensurePrivate_privs_lt _ _ _ hpp]
        refine ⟨rfl, ?_⟩
        intro e he
        rcases mapSet_mem _ _ _ e he with h1 | h1
        · exact Or.inr (by rw [h1])
        · exact Or.inl h1
      · rw [Function.update_noteq hq, ensurePrivate_privs_lt _ _ _ hpp]
        exact ⟨rfl, fun e he => Or.inl he⟩


theorem endsAtOnce_done (h : Handler) (hh : h.endsAtOnce) :
    ∃ o, h = Handler.done o ∧ o ≠ Outcome.pointerLockException := by
  cases h with
  | done o => exact ⟨o, rfl, hh⟩
  | disconnect sig l k => exact absurd hh id
  | connect sig dyn arity psig model body k => exact absurd hh id
  | trigger sig params callType k => exact absurd hh id

theorem endsAtOnce_connectsThenEnds (params : GenericFunctionParameters) (h : Handler)
    (hh : h.endsAtOnce) : h.connectsThenEnds params := by
  obtain ⟨o, rfl, ho⟩ := endsAtOnce_done h hh
  exact ho

/-- Leaving a handler changes nothing but the list of active threads. -/
theorem removeActive_fields (s : SubPtr) (id : ThreadId) (w : World) (p : SubPtr) :
    ((SignalSubscriber.removeActive s id w).subs p).handler = (w.subs p).handler ∧
    ((SignalSubscriber.removeActive s id w).subs p).enabled = (w.subs p).enabled ∧
    ((SignalSubscriber.removeActive s id w).subs p).threadingModel
      = (w.subs p).threadingModel := by
  unfold SignalSubscriber.removeActive
  by_cases hp : p = s
  · subst hp
    simp
  · simp [World.setSub_subs_ne _ _ _ _ hp]

/-- Entering a handler changes nothing but the list of active threads. -/
theorem addActive_fields (s : SubPtr) (id : ThreadId) (w : World) (p : SubPtr) :
    ((SignalSubscriber.addActive s id w).subs p).handler = (w.subs p).handler ∧
    ((SignalSubscriber.addActive s id w).subs p).enabled = (w.subs p).enabled ∧
    ((SignalSubscriber.addActive s id w).subs p).threadingModel
      = (w.subs p).threadingModel := by
  unfold SignalSubscriber.addActive
  by_cases hp : p = s
  · subst hp
    simp
  · simp [World.setSub_subs_ne _ _ _ _ hp]

/-- The end of an inline call, seen from the state `x` the handler left: if `x` kept
the subscribers of `w` as they were, allocated only `connectingSubscriber`s and entered
only such in the map, then so did the state after `removeActive`. -/
theorem call_connecting_finish (params : GenericFunctionParameters) (sig : SigPtr)
    (pp : PrivPtr) (s : SubPtr) (tid : ThreadId) (w x : World)
    (hsig : connectingSignal params sig pp w)
    (hxsig : (x.signals sig)._p = some pp)
    (hxpriv : w.nextPriv ≤ x.nextPriv)
    (hxnext : w.nextSub ≤ x.nextSub)
    (hxold : ∀ p, p < w.nextSub → (x.subs p).handler = (w.subs p).handler ∧
      (x.subs p).enabled = (w.subs p).enabled ∧
      (x.subs p).threadingModel = (w.subs p).threadingModel)
    (hxdefault : (x.privs pp).defaultCallType = (w.privs pp).defaultCallType)
    (hxmap : ∀ e ∈ (x.privs pp).subscriberMap,
      e ∈ (w.privs pp).subscriberMap ∨ (w.nextSub ≤ e.2 ∧ connectingSubscriber params x e.2)) :
    connectingSignal params sig pp (SignalSubscriber.removeActive s tid x) ∧
    w.nextSub ≤ (SignalSubscriber.removeActive s tid x).nextSub ∧
    (∀ p, connectingSubscriber params w p →
      connectingSubscriber params (SignalSubscriber.removeActive s tid x) p) ∧
    ((SignalSubscriber.removeActive s tid x).privs pp).defaultCallType
      = (w.privs pp).defaultCallType ∧
    (∀ e ∈ ((SignalSubscriber.removeActive s tid x).privs pp).subscriberMap,
      e ∈ (w.privs pp).subscriberMap ∨ w.nextSub ≤ e.2) := by
  have hkeep : ∀ p, connectingSubscriber params x p →
      connectingSubscriber params (SignalSubscriber.removeActive s tid x) p := by
    intro p ⟨hlt, h, hh, htame, hen, hmodel⟩
    obtain ⟨f1, f2, f3⟩ := removeActive_fields s tid x p
    exact ⟨hlt, h, by rw [f1]; exact hh, htame, by rw [f2]; exact hen, by rw [f3]; exact hmodel⟩
  have hold : ∀ p, connectingSubscriber params w p → connectingSubscriber params x p := by
    intro p ⟨hlt, h, hh, htame, hen, hmodel⟩
    obtain ⟨g1, g2, g3⟩ := hxold p hlt
    exact ⟨Nat.lt_of_lt_of_le hlt hxnext, h, by rw [g1]; exact hh, htame,
      by rw [g2]; exact hen, by rw [g3]; exact hmodel⟩
  refine ⟨⟨hxsig, Nat.lt_of_lt_of_le hsig.2.1 hxpriv, ?_⟩, hxnext,
    fun p hp => hkeep p (hold p hp), hxdefault, ?_⟩
  · intro e he
    rcases hxmap e he with h1 | ⟨_, h2⟩
    · exact hkeep _ (hold _ (hsig.2.2 e h1))
    · exact hkeep _ h2
  · intro e he
    rcases hxmap e he with h1 | ⟨h2, _⟩
    · exact Or.inl h1
    · exact Or.inr h2

/-- The inline call of a `connectingSubscriber` during an emission on a
`connectingSignal`: the handler is called once, the call returns, and the state keeps
the invariant; entries added to the map are freshly allocated subscribers. -/
theorem call_connecting (n : Nat) (tid : ThreadId) (sig : SigPtr) (pp : PrivPtr)
    (params : GenericFunctionParameters) (s : SubPtr) (w : World) (env : List EnvStep)
    (hsig : connectingSignal params sig pp w)
    (hs : connectingSubscriber params w s) :
    ∃ w1, SignalSubscriber.callWith (runHandler (n + 2)) tid s params MetaCallType.Direct
        w env = Res.ok () w1 env ∧
      handlerCalls w1.trace = handlerCalls w.trace ++ [(s, tid, params)] ∧
      connectingSignal params sig pp w1 ∧
      w.nextSub ≤ w1.nextSub ∧
      (∀ p, connectingSubscriber params w p → connectingSubscriber params w1 p) ∧
      (w1.privs pp).defaultCallType = (w.privs pp).defaultCallType ∧
      (∀ e ∈ (w1.privs pp).subscriberMap,
        e ∈ (w.privs pp).subscriberMap ∨ w.nextSub ≤ e.2) := by
  obtain ⟨hlt, h, hh, htame, hen, hmodel⟩ := hs
  have hasync : (if (w.subs s).threadingModel ≠ MetaCallType.Auto then
        decide ((w.subs s).threadingModel = MetaCallType.Queued)
      else if MetaCallType.Direct ≠ MetaCallType.Auto then
        decide (MetaCallType.Direct = MetaCallType.Queued)
      else true) = false := by
    revert hmodel
    cases (w.subs s).threadingModel <;> simp
  have hw1old : ∀ p, (((SignalSubscriber.addActive s tid w).log
      (Event.handlerCall s tid params)).subs p).handler = (w.subs p).handler ∧
      (((SignalSubscriber.addActive s tid w).log
        (Event.handlerCall s tid params)).subs p).enabled = (w.subs p).enabled ∧
      (((SignalSubscriber.addActive s tid w).log
        (Event.handlerCall s tid params)).subs p).threadingModel
        = (w.subs p).threadingModel := fun p => addActive_fields s tid w p
  cases hb : h.body params with
  | done o =>
    rw [hb] at htame
    have ho : o ≠ Outcome.pointerLockException := htame
    refine ⟨SignalSubscriber.removeActive s tid ((SignalSubscriber.addActive s tid w).log
      (Event.handlerCall s tid params)), ?_, ?_, ?_⟩
    · unfold SignalSubscriber.callWith
      simp only [hh, hasync, hen, hb, runHandler, Bool.false_eq_true, if_false,
        Bool.not_true, ho]
    · simp [handlerCalls_append, handlerCalls]
    · exact call_connecting_finish params sig pp s tid w _ hsig hsig.1 (Nat.le_refl _)
        (Nat.le_refl _) (fun p _ => hw1old p) rfl (fun e he => Or.inl he)
  | connect sig' dyn arity psig model body k =>
    rw [hb] at htame
    obtain ⟨hm, hbody, hk⟩ := htame
    obtain ⟨c1, c2, _, c4, c5⟩ := connect_effect sig'
      (SignalSubscriber.ofFunction
        { dynamic := dyn, arity := arity, parametersSignature := psig, body := body } model)
      ((SignalSubscriber.addActive s tid w).log (Event.handlerCall s tid params))
    generalize hC : SignalBase.connect sig'
      (SignalSubscriber.ofFunction
        { dynamic := dyn, arity := arity, parametersSignature := psig, body := body } model)
      ((SignalSubscriber.addActive s tid w).log (Event.handlerCall s tid params)) = C
      at c1 c2 c4 c5
    obtain ⟨o, hko, ho⟩ := endsAtOnce_done _ (hk (C.1.map fun s => (C.2.subs s).linkId))
    refine ⟨SignalSubscriber.removeActive s tid C.2, ?_, ?_, ?_⟩
    · unfold SignalSubscriber.callWith
      simp only [hh, hasync, hen, hb, runHandler, Bool.false_eq_true, if_false,
        Bool.not_true, hC, hko, ho]
    · rw [removeActive_trace, c1]
      simp [handlerCalls_append, handlerCalls]
    · have hnext0 : ((SignalSubscriber.addActive s tid w).log
          (Event.handlerCall s tid params)).nextSub = w.nextSub := rfl
      have hpriv0 : ((SignalSubscriber.addActive s tid w).log
          (Event.handlerCall s tid params)).nextPriv = w.nextPriv := rfl
      have hprivs0 : ((SignalSubscriber.addActive s tid w).log
          (Event.handlerCall s tid params)).privs = w.privs := rfl
      rw [hnext0, hpriv0, hprivs0] at c5
      rw [hpriv0] at c2
      have hxsig : (C.2.signals sig)._p = some pp := c4 sig pp hsig.1
      rcases c5 with ⟨s1, s2, s3⟩ | ⟨s1, s2, s3, s4, s5, s6⟩
      · exact call_connecting_finish params sig pp s tid w C.2 hsig hxsig c2
          (by rw [s2]) (fun p _ => by rw [s1]; exact hw1old p)
          (by rw [s3 pp hsig.2.1]) (fun e he => by
            rw [s3 pp hsig.2.1] at he
            exact Or.inl he)
      · refine call_connecting_finish params sig pp s tid w C.2 hsig hxsig c2
          (by rw [s1]; exact Nat.le_succ _) (fun p hp => by
            rw [s2 p (Nat.ne_of_lt hp)]
            exact hw1old p)
          (s6 pp hsig.2.1).1 (fun e he => ?_)
        rcases (s6 pp hsig.2.1).2 e he with h1 | h1
        · exact Or.inl h1
        · refine Or.inr ⟨by rw [h1], ?_⟩
          rw [h1]
          exact ⟨by rw [s1]; exact Nat.lt_succ_self _,
            { dynamic := dyn, arity := arity, parametersSignature := psig, body := body },
            by rw [s3]; rfl, endsAtOnce_connectsThenEnds params _ hbody,
            by rw [s4]; rfl, by rw [s5]; exact hm⟩
  | disconnect sig' l k =>
    rw [hb] at htame
    exact absurd htame id
  | trigger sig' ps ct k =>
    rw [hb] at htame
    exact absurd htame id


/-- The loop of an emission over `connectingSubscriber`s: every entry of the snapshot
is called once, in order, whatever the handlers connect meanwhile; the loop returns
and the state keeps the invariant. -/
theorem callEach_connecting (n : Nat) (tid : ThreadId) (sig : SigPtr) (pp : PrivPtr)
    (params : GenericFunctionParameters) (env : List EnvStep) :
    ∀ (rest : SignalSubscriberMap) (w : World),
    connectingSignal params sig pp w →
    (∀ e ∈ rest, connectingSubscriber params w e.2) →
    ∃ w', callEachWith (runHandler (n + 2)) tid params MetaCallType.Direct rest w env
        = Res.ok () w' env ∧
      handlerCalls w'.trace
        = handlerCalls w.trace ++ rest.map (fun e => (e.2, tid, params)) ∧
      connectingSignal params sig pp w' ∧
      w.nextSub ≤ w'.nextSub ∧
      (w'.privs pp).defaultCallType = (w.privs pp).defaultCallType ∧
      (∀ e ∈ (w'.privs pp).subscriberMap,
        e ∈ (w.privs pp).subscriberMap ∨ w.nextSub ≤ e.2) := by
  intro rest
  induction rest with
  | nil =>
    intro w hsig _
    exact ⟨w, rfl, by simp, hsig, Nat.le_refl _, rfl, fun e he => Or.inl he⟩
  | cons e rest ih =>
    intro w hsig hall
    obtain ⟨k, s⟩ := e
    obtain ⟨w1, hcall, htr1, hsig1, hn1, hkeep1, hd1, hm1⟩ :=
      call_connecting n tid sig pp params s w env hsig (hall (k, s) (List.mem_cons_self _ _))
    obtain ⟨w', hrun, htr, hsig', hn', hd', hm'⟩ := ih w1 hsig1
      (fun e he => hkeep1 _ (hall e (List.mem_cons_of_mem _ he)))
    refine ⟨w', ?_, ?_, hsig', Nat.le_trans hn1 hn', by rw [hd', hd1], ?_⟩
    · simp only [callEachWith, hcall, Res.andThen]
      exact hrun
    · rw [htr, htr1]
      simp
    · intro e he
      rcases hm' e he with h1 | h1
      · exact hm1 e h1
      · exact Or.inr (Nat.le_trans hn1 h1)

/-- A conversion yields a handle on the same cell, allocates at most fresh cells and
leaves the allocated cells as they are. -/
theorem Conversion.apply_cell {T : Type} (c : Conversion) (x : Handle) (h : FutureHeap T)
    (y : Handle) (h' : FutureHeap T) (hc : c.apply x h = some (y, h')) :
    y.cell = x.cell ∧ h.nextCell ≤ h'.nextCell ∧
    ∀ a, a < h.nextCell → h'.cells a = h.cells a := by
  have hnew : ∀ a, a < h.nextCell → (Future.new h).2.cells a = h.cells a := by
    intro a ha
    simp [Future.new, Function.update_noteq (Nat.ne_of_lt ha)]
  cases c <;> cases x <;> simp only [Conversion.apply] at hc <;> cases hc
  all_goals first
    | exact ⟨rfl, Nat.le_refl _, fun _ _ => rfl⟩
    | exact ⟨rfl, Nat.le_succ _, hnew⟩

/-- A chain of conversions yields a handle on the same cell and leaves the allocated
cells as they are. -/
theorem deriveHandle_cell {T : Type} (ds : List Conversion) :
    ∀ (x : Handle) (h : FutureHeap T) (y : Handle) (h' : FutureHeap T),
    deriveHandle ds x h = some (y, h') →
    y.cell = x.cell ∧ h.nextCell ≤ h'.nextCell ∧
    ∀ a, a < h.nextCell → h'.cells a = h.cells a := by
  induction ds with
  | nil =>
    intro x h y h' hd
    simp only [deriveHandle] at hd
    injection hd with hd
    injection hd with h1 h2
    subst h1; subst h2
    exact ⟨rfl, Nat.le_refl _, fun _ _ => rfl⟩
  | cons c rest ih =>
    intro x h y h' hd
    simp only [deriveHandle] at hd
    cases hc : c.apply x h with
    | none => rw [hc] at hd; cases hd
    | some r =>
      rw [hc] at hd
      obtain ⟨r1, r2⟩ := r
      obtain ⟨c1, c2, c3⟩ := Conversion.apply_cell c x h r1 r2 hc
      obtain ⟨d1, d2, d3⟩ := ih r1 r2 y h' hd
      exact ⟨d1.trans c1, Nat.le_trans c2 d2,
        fun a ha => (d3 a (Nat.lt_of_lt_of_le ha c2)).trans (c3 a ha)⟩

/-- From an index on from which no entry is `id`, the loop of `removeActive` leaves the
vector as it is. -/
theorem removeActiveLoop_no_match (id : ThreadId) :
    ∀ (fuel i : Nat) (a : List ThreadId), (∀ j, i ≤ j → a[j]? ≠ some id) →
      removeActiveLoop id fuel i a = a := by
  intro fuel
  induction fuel with
  | zero => intro i a _; rfl
  | succ n ih =>
    intro i a h
    simp only [removeActiveLoop]
    split
    · rw [if_neg (h i (Nat.le_refl _))]
      exact ih (i + 1) a (fun j hj => h j (Nat.le_of_succ_le hj))
    · rfl

/-- When `id` does not occur in the vector, `removeActive` leaves it as it is. -/
theorem removeActiveList_not_mem (id : ThreadId) (a : List ThreadId) (h : id ∉ a) :
    removeActiveList id a = a := by
  apply removeActiveLoop_no_match
  intro j _ hj
  exact h (List.mem_iff_getElem?.mpr ⟨j, hj⟩)

/-- The loop of `removeActive` on a vector that ends with `id`, started at an index
from which the part before the last entry holds `id` at most once: the last entry is
removed and nothing else. -/
theorem removeActiveLoop_after_push (id : ThreadId) :
    ∀ (fuel i : Nat) (l : List ThreadId), i ≤ l.length → l.length + 1 ≤ fuel + i →
      (l.drop i).count id ≤ 1 →
      removeActiveLoop id fuel i (l ++ [id]) = l := by
  intro fuel
  induction fuel with
  | zero =>
    intro i l hi hf _
    omega
  | succ n ih =>
    intro i l hi hf hc
    simp only [removeActiveLoop]
    have hlen : i < (l ++ [id]).length := by simp; omega
    rw [if_pos hlen]
    have hlast : (l ++ [id]).getLastD id = id := by simp
    rcases Nat.lt_or_ge i l.length with hlt | hge
    · have hget : (l ++ [id])[i]? = l[i]? := List.getElem?_append_left hlt
      rw [hget]
      have hdrop : l.drop i = l[i] :: l.drop (i + 1) := List.drop_eq_getElem_cons hlt
      by_cases hm : l[i]? = some id
      · rw [if_pos hm, hlast]
        have hli : l[i] = id := by
          rw [List.getElem?_eq_getElem hlt] at hm
          exact Option.some.inj hm
        have hset : (l ++ [id]).set i id = l ++ [id] := by
          rw [List.set_append_left _ _ hlt]
          congr 1
          apply List.ext_getElem (by simp)
          intro k h1 h2
          by_cases hk : i = k
          · subst hk; simp [hli]
          · simp [List.getElem_set_ne hk]
        rw [hset, List.dropLast_concat]
        apply removeActiveLoop_no_match
        intro j hj hj'
        have hmem : id ∈ l.drop (i + 1) := by
          have hjl : j < l.length := by
            by_contra hcon
            rw [List.getElem?_eq_none (Nat.le_of_not_lt hcon)] at hj'
            cases hj'
          rw [List.mem_iff_getElem?]
          refine ⟨j - (i + 1), ?_⟩
          rw [List.getElem?_drop]
          have : i + 1 + (j - (i + 1)) = j := by omega
          rw [this]
          exact hj'
        rw [hdrop, hli, List.count_cons_self] at hc
        have hpos := List.count_pos_iff.mpr hmem
        omega
      · rw [if_neg hm]
        apply ih (i + 1) l hlt (by omega)
        rw [hdrop] at hc
        exact Nat.le_trans (List.count_le_count_cons _ _ _) hc
    · have hil : i = l.length := Nat.le_antisymm hi hge
      subst hil
      have hget : (l ++ [id])[l.length]? = some id := by simp
      rw [if_pos hget, hlast]
      have hset : (l ++ [id]).set l.length id = l ++ [id] := by
        rw [List.set_append_right _ _ (Nat.le_refl _)]
        simp
      rw [hset, List.dropLast_concat]
      apply removeActiveLoop_no_match
      intro j hj hj'
      rw [List.getElem?_eq_none (by omega)] at hj'
      cases hj'

/-- After `addActive(id)` on a vector that holds `id` at most once, `removeActive(id)`
gives the vector back. -/
theorem removeActiveList_addActiveList (id : ThreadId) (l : List ThreadId)
    (h : l.count id ≤ 1) : removeActiveList id (addActiveList id l) = l := by
  unfold removeActiveList addActiveList
  apply removeActiveLoop_after_push id _ 0 l (Nat.zero_le _) (by simp) (by simpa using h)


/-- Entering and leaving the handler of a subscriber on a thread that is recorded at
most once in its vector leaves only the trace entry. -/
theorem removeActive_addActive_log_count (s : SubPtr) (tid : ThreadId) (w : World)
    (e : Event) (hcount : (w.subs s).activeThreads.count tid ≤ 1) :
    SignalSubscriber.removeActive s tid ((SignalSubscriber.addActive s tid w).log e)
      = w.log e := by
  unfold SignalSubscriber.removeActive SignalSubscriber.addActive World.setSub World.log
  simp only [Function.update_same, Function.update_idem,
    removeActiveList_addActiveList tid _ hcount]
  have hx : ∀ x : SignalSubscriber, { x with activeThreads := x.activeThreads } = x := by
    intro x
    cases x
    rfl
  rw [hx, Function.update_eq_self]


/-- The fields of a subscriber no other thread touches through an environment step:
all but the vector of active threads. -/
theorem EnvStep.apply_fields (e : EnvStep) (w : World) (p : SubPtr) :
    ((e.apply w).subs p).enabled = (w.subs p).enabled ∧
    ((e.apply w).subs p).linkId = (w.subs p).linkId ∧
    ((e.apply w).subs p).source = (w.subs p).source ∧
    (e.apply w).nextSub = w.nextSub ∧ (e.apply w).nextPriv = w.nextPriv := by
  cases e with
  | enter s id =>
    simp only [EnvStep.apply]
    split
    · by_cases hp : p = s
      · subst hp; simp [SignalSubscriber.addActive, World.setSub]
      · simp [SignalSubscriber.addActive, World.setSub, Function.update_noteq hp]
    · simp
  | leave s id =>
    by_cases hp : p = s
    · subst hp; simp [EnvStep.apply, SignalSubscriber.removeActive, World.setSub]
    · simp [EnvStep.apply, SignalSubscriber.removeActive, World.setSub,
        Function.update_noteq hp]
  | idle => simp [EnvStep.apply]

theorem applyEnv_fields (env : List EnvStep) (w : World) (p : SubPtr) :
    ((applyEnv env w).subs p).enabled = (w.subs p).enabled ∧
    ((applyEnv env w).subs p).linkId = (w.subs p).linkId ∧
    ((applyEnv env w).subs p).source = (w.subs p).source ∧
    (applyEnv env w).nextSub = w.nextSub ∧ (applyEnv env w).nextPriv = w.nextPriv := by
  induction env generalizing w with
  | nil => simp [applyEnv]
  | cons e rest ih =>
    obtain ⟨h1, h2, h3, h4, h5⟩ := ih (e.apply w)
    obtain ⟨g1, g2, g3, g4, g5⟩ := EnvStep.apply_fields e w p
    simp only [applyEnv]
    exact ⟨h1.trans g1, h2.trans g2, h3.trans g3, h4.trans g4, h5.trans g5⟩

/-- The disconnect of a link registered in a map with distinct keys: when it returns,
it returns true, the link is out of the map and its subscriber is disabled; it
returns at once when the subscriber is not executing. -/
theorem disconnect_registered (tid : ThreadId) (sig : SigPtr) (pp : PrivPtr)
    (l : SignalLink) (s : SubPtr) (x : World) (env : List EnvStep)
    (hp : (x.signals sig)._p = some pp)
    (hfind : mapFind (x.privs pp).subscriberMap l = some s)
    (hsorted : mapSorted (x.privs pp).subscriberMap) :
    (∀ b w' env', SignalBase.disconnect tid sig l x env = Res.ok b w' env' →
      b = true ∧ (w'.privs pp).subscriberMap = mapErase (x.privs pp).subscriberMap l ∧
      mapFind (w'.privs pp).subscriberMap l = none ∧ (w'.subs s).enabled = false) ∧
    ((x.subs s).activeThreads = [] →
      SignalBase.disconnect tid sig l x env
        = Res.ok true (SignalBasePrivate.detach pp l s x) env) := by
  refine ⟨?_, ?_⟩
  · intro b w' env' hd
    simp only [SignalBase.disconnect, hp] at hd
    rcases privDisconnect_ok tid pp l x env b w' env' hd with
      ⟨hnone, _⟩ | ⟨s', used, hs', hb, _, hw', _⟩
    · rw [hfind] at hnone; cases hnone
    · rw [hfind] at hs'
      have hss : s = s' := Option.some.inj hs'
      subst hss
      have hmap : (w'.privs pp).subscriberMap = mapErase (x.privs pp).subscriberMap l := by
        rw [hw', (applyEnv_frame used _).1, detach_privs]
        simp
      refine ⟨hb, hmap, ?_, ?_⟩
      · rw [hmap]
        exact mapFind_mapErase_self _ _ hsorted
      · rw [hw', (applyEnv_fields used _ s).1, detach_subs]
        simp
  · intro hidle
    simp only [SignalBase.disconnect, hp]
    exact privDisconnect_idle tid pp l s x env hfind hidle

/-- The inline call of a plain handler that ends at once, on an enabled subscriber:
the handler is entered and left, and the own link is disconnected after the
target-expired fault. -/
theorem call_inline_form (n : Nat) (tid : ThreadId) (s : SubPtr)
    (args : GenericFunctionParameters) (callType : MetaCallType) (w : World)
    (env : List EnvStep) (h : AnyFunction) (o : Outcome)
    (hh : (w.subs s).handler = some h) (hbody : h.body args = Handler.done o)
    (hen : (w.subs s).enabled = true)
    (hdirect : (w.subs s).threadingModel = MetaCallType.Direct ∨
      ((w.subs s).threadingModel = MetaCallType.Auto ∧ callType = MetaCallType.Direct)) :
    SignalSubscriber.call (n + 1) tid s args callType w env
      = if o = Outcome.pointerLockException then
          (SignalBase.disconnect tid (w.subs s).source (w.subs s).linkId
            (SignalSubscriber.removeActive s tid ((SignalSubscriber.addActive s tid w).log
              (Event.handlerCall s tid args))) env).andThen
            fun _ w4 env4 => Res.ok () w4 env4
        else Res.ok () (SignalSubscriber.removeActive s tid
          ((SignalSubscriber.addActive s tid w).log (Event.handlerCall s tid args))) env := by
  have hasync : (if (w.subs s).threadingModel ≠ MetaCallType.Auto then
        decide ((w.subs s).threadingModel = MetaCallType.Queued)
      else if callType ≠ MetaCallType.Auto then decide (callType = MetaCallType.Queued)
      else true) = false := by
    rcases hdirect with hm | ⟨hm, hc⟩
    · rw [hm]; simp
    · rw [hm, hc]; decide
  have hsrc : ((SignalSubscriber.removeActive s tid ((SignalSubscriber.addActive s tid w).log
      (Event.handlerCall s tid args))).subs s).source = (w.subs s).source := by
    simp [SignalSubscriber.removeActive, SignalSubscriber.addActive, World.setSub, World.log]
  have hlink : ((SignalSubscriber.removeActive s tid ((SignalSubscriber.addActive s tid w).log
      (Event.handlerCall s tid args))).subs s).linkId = (w.subs s).linkId := by
    simp [SignalSubscriber.removeActive, SignalSubscriber.addActive, World.setSub, World.log]
  unfold SignalSubscriber.call SignalSubscriber.callWith
  simp only [hh, hasync, hbody, runHandler, Bool.false_eq_true, if_false, hen,
    Bool.not_true, hsrc, hlink]


/-- A plain handler of preference Auto called with the call type Auto is posted: one
task is appended to the queue of the event loop and nothing else changes. -/
theorem call_auto_posted (runH : Handler → ThreadId → World → List EnvStep → Res Outcome)
    (tid : ThreadId) (s : SubPtr) (params : GenericFunctionParameters) (w : World)
    (env : List EnvStep) (h : AnyFunction) (q : List FunctorCall)
    (hh : (w.subs s).handler = some h)
    (hmodel : (w.subs s).threadingModel = MetaCallType.Auto)
    (hloop : w.eventLoop = some q) :
    SignalSubscriber.callWith runH tid s params MetaCallType.Auto w env
      = Res.ok () { w with eventLoop := some (q ++ [{ params := params, sub := s }]) }
          env := by
  unfold SignalSubscriber.callWith
  simp [hh, hmodel, hloop]

/-- The loop of an emission with the call type Auto over plain handlers of preference
Auto posts one task for each, in the order of the map, and changes nothing else. -/
theorem callEach_auto_posted
    (runH : Handler → ThreadId → World → List EnvStep → Res Outcome)
    (tid : ThreadId) (params : GenericFunctionParameters) (env : List EnvStep) :
    ∀ (m : SignalSubscriberMap) (w : World) (q : List FunctorCall),
    w.eventLoop = some q →
    (∀ e ∈ m, ∃ h, (w.subs e.2).handler = some h ∧
      (w.subs e.2).threadingModel = MetaCallType.Auto) →
    callEachWith runH tid params MetaCallType.Auto m w env
      = Res.ok () { w with eventLoop := some (q ++ m.map fun e => ⟨params, e.2⟩) } env := by
  intro m
  induction m with
  | nil =>
    intro w q hq _
    simp only [callEachWith, List.map_nil, List.append_nil]
    rw [← hq]
  | cons e rest ih =>
    intro w q hq hall
    obtain ⟨k, s⟩ := e
    obtain ⟨h, hh, hm⟩ := hall (k, s) (List.mem_cons_self _ _)
    simp only [callEachWith]
    rw [call_auto_posted runH tid s params w env h q hh hm hq]
    simp only [Res.andThen]
    rw [ih { w with eventLoop := some (q ++ [{ params := params, sub := s }]) }
      (q ++ [{ params := params, sub := s }]) rfl
      (fun e he => hall e (List.mem_cons_of_mem _ he))]
    simp

/-- The loop of `reset` when no subscriber of the map is executing and the bound is
at least the size of the map: it returns the flag it was started with, the map ends
empty, every subscriber that was in it is disabled, the other subscribers are
untouched, and the hook is called with false once if the map was not empty. -/
theorem resetLoop_all (tid : ThreadId) (pp : PrivPtr) (env : List EnvStep) (ret : Bool) :
    ∀ (m : SignalSubscriberMap) (w : World) (fuel : Nat),
    (w.privs pp).subscriberMap = m →
    (∀ e ∈ m, (w.subs e.2).activeThreads = []) →
    m.length ≤ fuel →
    ∃ w', resetLoop tid pp fuel ret w env = Res.ok ret w' env ∧
      (w'.privs pp).subscriberMap = [] ∧
      (∀ e ∈ m, (w'.subs e.2).enabled = false) ∧
      (∀ p, (∀ e ∈ m, e.2 ≠ p) → w'.subs p = w.subs p) ∧
      w'.signals = w.signals ∧
      w'.trace = w.trace ++
        (match (w.privs pp).onSubscribers with
         | some cb => if m = [] then [] else [Event.onSubscribers cb false]
         | none => []) := by
  intro m
  induction m with
  | nil =>
    intro w fuel hm _ _
    refine ⟨w, ?_, hm, by simp, fun _ _ => rfl, rfl, ?_⟩
    · cases fuel <;> simp [resetLoop, hm]
    · cases (w.privs pp).onSubscribers <;> simp
  | cons e rest ih =>
    intro w fuel hm hidle hfuel
    obtain ⟨k, s⟩ := e
    obtain ⟨n, rfl⟩ : ∃ n, fuel = n + 1 := ⟨fuel - 1, by simp at hfuel; omega⟩
    have hfind : mapFind (w.privs pp).subscriberMap k = some s := by
      rw [hm]; simp [mapFind]
    have hs : (w.subs s).activeThreads = [] := hidle (k, s) (List.mem_cons_self _ _)
    have hd := privDisconnect_idle tid pp k s w env hfind hs
    have hmap1 : ((SignalBasePrivate.detach pp k s w).privs pp).subscriberMap = rest := by
      simp [detach_privs, hm, mapErase]
    have hidle1 : ∀ e ∈ rest,
        ((SignalBasePrivate.detach pp k s w).subs e.2).activeThreads = [] := by
      intro e he
      have := hidle e (List.mem_cons_of_mem _ he)
      rw [detach_subs]
      by_cases hes : e.2 = s
      · rw [hes, Function.update_same]
        exact hs
      · rw [Function.update_noteq hes]
        exact this
    obtain ⟨w', hrun, hempty, hdis, hframe, hsig, htrace⟩ :=
      ih (SignalBasePrivate.detach pp k s w) n hmap1 hidle1 (by simp at hfuel; omega)
    refine ⟨w', ?_, hempty, ?_, ?_, ?_, ?_⟩
    · simp only [resetLoop, hm, hd, Res.andThen]
      simpa using hrun
    · intro e he
      rcases List.mem_cons.mp he with heq | hmem
      · rw [heq]
        simp only
        by_cases hin : ∃ e' ∈ rest, e'.2 = s
        · obtain ⟨e', he', hes⟩ := hin
          rw [← hes]
          exact hdis e' he'
        · rw [hframe s (fun e' he' hes => hin ⟨e', he', hes⟩)]
          simp [detach_subs]
      · exact hdis e hmem
    · intro p hp
      rw [hframe p (fun e he => hp e (List.mem_cons_of_mem _ he))]
      have hps : p ≠ s := fun h => hp (k, s) (List.mem_cons_self _ _) h.symm
      simp [detach_subs, Function.update_noteq hps]
    · rw [hsig, detach_signals]
    · have hhook : ((SignalBasePrivate.detach pp k s w).privs pp).onSubscribers
          = (w.privs pp).onSubscribers := by
        simp [detach_privs]
      rw [htrace, hhook, detach_trace, hm]
      simp only [mapErase, if_true]
      cases (w.privs pp).onSubscribers with
      | none => cases rest <;> simp
      | some cb => cases rest <;> simp

/-- The state `waitForInactive` ends or is stuck in is the state it started from after
some steps of the other threads. -/
theorem waitForInactive_world (tid : ThreadId) (s : SubPtr) (env : List EnvStep) :
    ∀ (w w' : World), (SignalSubscriber.waitForInactive tid s w env).world? = some w' →
      ∃ used, w' = applyEnv used w := by
  induction env with
  | nil =>
    intro w w' h
    simp only [SignalSubscriber.waitForInactive] at h
    split at h <;> simp only [Res.world?, Option.some.injEq] at h <;> exact ⟨[], h.symm⟩
  | cons e rest ih =>
    intro w w' h
    simp only [SignalSubscriber.waitForInactive] at h
    split at h
    · simp only [Res.world?, Option.some.injEq] at h
      exact ⟨[], h.symm⟩
    · obtain ⟨used, hu⟩ := ih (e.apply w) w' h
      exact ⟨e :: used, hu⟩

/-- While the hook of a private state is empty, a disconnect on it adds nothing to the
trace, wherever it ends or is stuck, and leaves the hook empty. -/
theorem privDisconnect_no_hook (tid : ThreadId) (pp : PrivPtr) (l : SignalLink) (w : World)
    (env : List EnvStep) (hhook : (w.privs pp).onSubscribers = none) :
    (∀ w', (SignalBasePrivate.disconnect tid pp l w env).world? = some w' →
      w'.trace = w.trace ∧ (w'.privs pp).onSubscribers = none) ∧
    ((∃ b w' env', SignalBasePrivate.disconnect tid pp l w env = Res.ok b w' env') ∨
      ∃ wb, SignalBasePrivate.disconnect tid pp l w env = Res.blocked wb) := by
  have hdt : ∀ s, (SignalBasePrivate.detach pp l s w).trace = w.trace ∧
      ((SignalBasePrivate.detach pp l s w).privs pp).onSubscribers = none := by
    intro s
    refine ⟨?_, by simp [detach_privs, hhook]⟩
    rw [detach_trace, hhook]
    cases (mapErase (w.privs pp).subscriberMap l).isEmpty <;> simp
  unfold SignalBasePrivate.disconnect
  cases hf : mapFind (w.privs pp).subscriberMap l with
  | none =>
    simp only
    exact ⟨fun w' h => by
      simp only [Res.world?, Option.some.injEq] at h
      subst h
      exact ⟨rfl, hhook⟩, Or.inl ⟨_, _, _, rfl⟩⟩
  | some s =>
    simp only
    split
    · exact ⟨fun w' h => by
        simp only [Res.world?, Option.some.injEq] at h
        subst h
        exact hdt s, Or.inl ⟨_, _, _, rfl⟩⟩
    · have hworld := waitForInactive_world tid s env (SignalBasePrivate.detach pp l s w)
      rcases waitForInactive_ok_or_blocked tid s env (SignalBasePrivate.detach pp l s w) with
        ⟨w1, env1, hw⟩ | ⟨wb, hw⟩
      · rw [hw] at hworld ⊢
        obtain ⟨used, hu⟩ := hworld w1 rfl
        refine ⟨fun w' h => ?_, Or.inl ⟨_, _, _, rfl⟩⟩
        simp only [Res.andThen, Res.world?, Option.some.injEq] at h
        subst h
        rw [hu, (applyEnv_frame used _).2.2.1, (applyEnv_frame used _).1]
        exact hdt s
      · rw [hw] at hworld ⊢
        obtain ⟨used, hu⟩ := hworld wb rfl
        refine ⟨fun w' h => ?_, Or.inr ⟨_, rfl⟩⟩
        simp only [Res.andThen, Res.world?, Option.some.injEq] at h
        subst h
        rw [hu, (applyEnv_frame used _).2.2.1, (applyEnv_frame used _).1]
        exact hdt s

/-- While the hook is empty, the loop of the destructor adds nothing to the trace,
wherever it ends or is stuck; it returns or waits for ever. -/
theorem disconnectEach_no_hook (tid : ThreadId) (pp : PrivPtr) :
    ∀ (links : List SignalLink) (w : World) (env : List EnvStep),
    (w.privs pp).onSubscribers = none →
    (∀ w', (disconnectEach tid pp links w env).world? = some w' →
      w'.trace = w.trace ∧ (w'.privs pp).onSubscribers = none) ∧
    ((∃ w' env', disconnectEach tid pp links w env = Res.ok () w' env') ∨
      ∃ wb, disconnectEach tid pp links w env = Res.blocked wb) := by
  intro links
  induction links with
  | nil =>
    intro w env hhook
    exact ⟨fun w' h => by
      simp only [disconnectEach, Res.world?, Option.some.injEq] at h
      subst h
      exact ⟨rfl, hhook⟩, Or.inl ⟨_, _, rfl⟩⟩
  | cons l rest ih =>
    intro w env hhook
    obtain ⟨h1, h2⟩ := privDisconnect_no_hook tid pp l w env hhook
    simp only [disconnectEach]
    rcases h2 with ⟨b, w1, env1, hd⟩ | ⟨wb, hd⟩
    · rw [hd] at h1 ⊢
      obtain ⟨ht, hh⟩ := h1 w1 rfl
      obtain ⟨g1, g2⟩ := ih w1 env1 hh
      simp only [Res.andThen]
      exact ⟨fun w' h => ⟨((g1 w' h).1).trans ht, (g1 w' h).2⟩, g2⟩
    · rw [hd] at h1 ⊢
      simp only [Res.andThen]
      exact ⟨fun w' h => by
        simp only [Res.world?, Option.some.injEq] at h
        subst h
        exact h1 _ rfl, Or.inr ⟨_, rfl⟩⟩


theorem detach_nextSub (pp : PrivPtr) (l : SignalLink) (s : SubPtr) (w : World) :
    (SignalBasePrivate.detach pp l s w).nextSub = w.nextSub ∧
    (SignalBasePrivate.detach pp l s w).nextPriv = w.nextPriv := by
  unfold SignalBasePrivate.detach
  simp only
  split <;> exact ⟨rfl, rfl⟩

/-- An entry found by the lookup is an entry of the map. -/
theorem mapFind_mem (m : SignalSubscriberMap) (l : SignalLink) (s : SubPtr)
    (h : mapFind m l = some s) : (l, s) ∈ m := by
  induction m with
  | nil => cases h
  | cons e rest ih =>
    obtain ⟨k, v⟩ := e
    simp only [mapFind] at h
    by_cases hk : k = l
    · rw [if_pos hk] at h
      rw [hk, Option.some.inj h]
      exact List.mem_cons_self _ _
    · rw [if_neg hk] at h
      exact List.mem_cons_of_mem _ (ih h)

/-- What is left after the removal of a key from a map with distinct keys: entries of
the map under other keys. -/
theorem mapErase_mem (m : SignalSubscriberMap) (l : SignalLink) (hs : mapSorted m)
    (e : SignalLink × SubPtr) (he : e ∈ mapErase m l) : e ∈ m ∧ e.1 ≠ l := by
  rw [mapErase_eq_filter m l hs, List.mem_filter] at he
  exact ⟨he.1, by simpa using he.2⟩

/-- The condition `linked` passes to a state with the same signal objects and
allocation marks whose maps are sorted parts of the old maps and whose subscribers in
the maps have kept link id, source and the enabled flag. -/
theorem linked_of_frame (E : Prop) (hist : List (SigPtr × SignalLink)) (w w' : World)
    (hl : w.linked E hist)
    (hsig : w'.signals = w.signals) (hnp : w'.nextPriv = w.nextPriv)
    (hns : w'.nextSub = w.nextSub)
    (hmaps : ∀ sig pp, (w.signals sig)._p = some pp →
      mapSorted (w'.privs pp).subscriberMap ∧
      ∀ e ∈ (w'.privs pp).subscriberMap, e ∈ (w.privs pp).subscriberMap ∧
        (w'.subs e.2).linkId = (w.subs e.2).linkId ∧
        (w'.subs e.2).source = (w.subs e.2).source ∧
        (w'.subs e.2).enabled = (w.subs e.2).enabled) :
    w'.linked E hist := by
  obtain ⟨hsep, hent⟩ := hl
  refine ⟨?_, ?_⟩
  · intro sig pp hp
    rw [hsig] at hp
    rw [hnp, hsig]
    exact hsep sig pp hp
  · intro sig pp hp
    rw [hsig] at hp
    obtain ⟨hsorted, hold⟩ := hmaps sig pp hp
    refine ⟨hsorted, ?_⟩
    intro e he
    obtain ⟨hmem, h1, h2, h3⟩ := hold e he
    obtain ⟨g1, g2, g3, g4, g5⟩ := (hent sig pp hp).2 e hmem
    rw [hns, h1, h2, h3]
    exact ⟨g1, g2, g3, g4, g5⟩

/-- More links handed out keep the condition `linked`. -/
theorem linked_mono (E : Prop) (h1 h2 : List (SigPtr × SignalLink)) (w : World)
    (hsub : ∀ x ∈ h1, x ∈ h2) (hl : w.linked E h1) : w.linked E h2 := by
  refine ⟨hl.1, ?_⟩
  intro sig pp hp
  refine ⟨(hl.2 sig pp hp).1, ?_⟩
  intro e he
  obtain ⟨g1, g2, g3, g4, g5⟩ := (hl.2 sig pp hp).2 e he
  exact ⟨g1, g2, g3, hsub _ g4, g5⟩

/-- The steps of other threads keep the condition `linked`. -/
theorem linked_applyEnv (E : Prop) (hist : List (SigPtr × SignalLink)) (env : List EnvStep)
    (w : World) (hl : w.linked E hist) : (applyEnv env w).linked E hist := by
  apply linked_of_frame E hist w _ hl (applyEnv_frame env w).2.1
    (applyEnv_fields env w 0).2.2.2.2 (applyEnv_fields env w 0).2.2.2.1
  intro sig pp hp
  rw [(applyEnv_frame env w).1]
  refine ⟨(hl.2 sig pp hp).1, ?_⟩
  intro e he
  obtain ⟨f1, f2, f3, _, _⟩ := applyEnv_fields env w e.2
  exact ⟨he, f2, f3, f1⟩

/-- Allocating the private state of a signal keeps the condition `linked`. -/
theorem linked_ensurePrivate (E : Prop) (hist : List (SigPtr × SignalLink)) (sig : SigPtr)
    (w : World) (hl : w.linked E hist) : (SignalBase.ensurePrivate sig w).2.linked E hist := by
  cases hp : (w.signals sig)._p with
  | some pp =>
    have : SignalBase.ensurePrivate sig w = (pp, w) := by
      simp [SignalBase.ensurePrivate, hp]
    rw [this]
    exact hl
  | none =>
    obtain ⟨hsep, hent⟩ := hl
    have hw : (SignalBase.ensurePrivate sig w).2
        = { w with privs := Function.update w.privs w.nextPriv SignalBasePrivate.fresh,
                   nextPriv := w.nextPriv + 1,
                   signals := Function.update w.signals sig { _p := some w.nextPriv } } := by
      simp [SignalBase.ensurePrivate, hp]
    rw [hw]
    have hold : ∀ sig0 pp0, sig0 ≠ sig →
        ((Function.update w.signals sig { _p := some w.nextPriv }) sig0)._p = some pp0 →
        (w.signals sig0)._p = some pp0 := by
      intro sig0 pp0 hne h
      rwa [Function.update_noteq hne] at h
    refine ⟨?_, ?_⟩
    · intro sig0 pp0 hp0
      by_cases hs : sig0 = sig
      · subst hs
        simp only [Function.update_same, Option.some.injEq] at hp0
        subst hp0
        refine ⟨Nat.lt_succ_self _, ?_⟩
        intro sig' hp'
        by_contra hne
        have := (hsep sig' _ (hold sig' _ hne hp')).1
        exact Nat.lt_irrefl _ this
      · have hp0' := hold sig0 pp0 hs hp0
        refine ⟨Nat.lt_succ_of_lt (hsep sig0 pp0 hp0').1, ?_⟩
        intro sig' hp'
        by_cases hs' : sig' = sig
        · subst hs'
          simp only [Function.update_same, Option.some.injEq] at hp'
          have := (hsep sig0 pp0 hp0').1
          rw [← hp'] at this
          exact absurd this (Nat.lt_irrefl _)
        · exact (hsep sig0 pp0 hp0').2 sig' (hold sig' pp0 hs' hp')
    · intro sig0 pp0 hp0
      by_cases hs : sig0 = sig
      · subst hs
        simp only [Function.update_same, Option.some.injEq] at hp0
        subst hp0
        simp [SignalBasePrivate.fresh, mapSorted]
      · have hp0' := hold sig0 pp0 hs hp0
        have hne : pp0 ≠ w.nextPriv := Nat.ne_of_lt (hsep sig0 pp0 hp0').1
        simp only [Function.update_noteq hne]
        exact hent sig0 pp0 hp0'


/-- The part of `connect` after `proceed:` keeps the condition `linked`, the link it
hands out being added to the history. -/
theorem linked_connectProceed (E : Prop) (hist : List (SigPtr × SignalLink)) (sig : SigPtr)
    (pp : PrivPtr) (src : SignalSubscriber) (w : World)
    (hl : w.linked E hist) (hp : (w.signals sig)._p = some pp)
    (hen : E → src.enabled = true) :
    (SignalBase.connectProceed sig pp src w).2.linked E
      (hist ++ [(sig, toSignalLink w.linkBits (incrLinkUid w.linkUid))]) := by
  obtain ⟨hsep, hent⟩ := hl
  refine ⟨?_, ?_⟩
  · intro sig0 pp0 hp0
    rw [connectProceed_signals] at hp0
    rw [connectProceed_nextPriv, connectProceed_signals]
    exact hsep sig0 pp0 hp0
  · intro sig0 pp0 hp0
    rw [connectProceed_signals] at hp0
    rw [connectProceed_privs, connectProceed_subs, connectProceed_nextSub]
    obtain ⟨hsorted, hold⟩ := hent sig0 pp0 hp0
    have holdentry : ∀ e ∈ (w.privs pp0).subscriberMap,
        e.2 < w.nextSub + 1 ∧
        ((Function.update w.subs w.nextSub
          { SignalSubscriber.copy src with
            linkId := toSignalLink w.linkBits (incrLinkUid w.linkUid),
            source := sig }) e.2).linkId = e.1 ∧
        ((Function.update w.subs w.nextSub
          { SignalSubscriber.copy src with
            linkId := toSignalLink w.linkBits (incrLinkUid w.linkUid),
            source := sig }) e.2).source = sig0 ∧
        (sig0, e.1) ∈ hist ++ [(sig, toSignalLink w.linkBits (incrLinkUid w.linkUid))] ∧
        (E → ((Function.update w.subs w.nextSub
          { SignalSubscriber.copy src with
            linkId := toSignalLink w.linkBits (incrLinkUid w.linkUid),
            source := sig }) e.2).enabled = true) := by
      intro e he
      obtain ⟨g1, g2, g3, g4, g5⟩ := hold e he
      have hne : e.2 ≠ w.nextSub := Nat.ne_of_lt g1
      rw [Function.update_noteq hne]
      exact ⟨Nat.lt_succ_of_lt g1, g2, g3, List.mem_append_left _ g4, g5⟩
    by_cases hpp : pp0 = pp
    · subst hpp
      have hsig : sig0 = sig := (hsep sig pp0 hp).2 sig0 hp0
      subst hsig
      simp only [Function.update_same]
      refine ⟨mapSorted_mapSet _ _ _ hsorted, ?_⟩
      intro e he
      rcases mapSet_mem _ _ _ e he with heq | hmem
      · subst heq
        simp only [Function.update_same]
        refine ⟨Nat.lt_succ_self _, trivial, trivial, ?_, ?_⟩
        · exact List.mem_append_right _ (List.mem_singleton_self _)
        · intro hE
          exact hen hE
      · exact holdentry e hmem
    · rw [Function.update_noteq hpp]
      exact ⟨hsorted, holdentry⟩

/-- `connect` keeps the condition `linked`, the link of the subscriber it returns being
added to the history. -/
theorem linked_connect (E : Prop) (hist : List (SigPtr × SignalLink)) (sig : SigPtr)
    (src : SignalSubscriber) (w : World) (hl : w.linked E hist)
    (hen : E → src.enabled = true) :
    (SignalBase.connect sig src w).2.linked E
      (hist ++ ((SignalBase.connect sig src w).1.map
        fun s => (sig, ((SignalBase.connect sig src w).2.subs s).linkId)).toList) := by
  have hens := linked_ensurePrivate E hist sig w hl
  rcases connect_cases sig src w with hc | hc
  · rw [hc]
    simpa using hens
  · rw [hc]
    have hproc := linked_connectProceed E hist sig (SignalBase.ensurePrivate sig w).1 src
      (SignalBase.ensurePrivate sig w).2 hens (ensurePrivate_p sig w) hen
    rw [connectProceed_fst]
    simp only [Option.map_some', Option.toList_some, connectProceed_subs,
      Function.update_same]
    exact hproc

/-- A disconnect that returns leaves the signal objects as they are. -/
theorem privDisconnect_signals (tid : ThreadId) (pp : PrivPtr) (l : SignalLink) (w : World)
    (env : List EnvStep) (b : Bool) (w' : World) (env' : List EnvStep)
    (h : SignalBasePrivate.disconnect tid pp l w env = Res.ok b w' env') :
    w'.signals = w.signals := by
  rcases privDisconnect_ok tid pp l w env b w' env' h with
    ⟨_, _, hw, _⟩ | ⟨s, used, _, _, _, hw, _⟩
  · rw [hw]
  · rw [hw, (applyEnv_frame used _).2.1, detach_signals]

/-- The locked phase of a disconnect keeps the condition `linked`. -/
theorem linked_detach (E : Prop) (hist : List (SigPtr × SignalLink)) (sig : SigPtr)
    (pp : PrivPtr) (l : SignalLink) (s : SubPtr) (w : World)
    (hl : w.linked E hist) (hp : (w.signals sig)._p = some pp)
    (hfind : mapFind (w.privs pp).subscriberMap l = some s) :
    (SignalBasePrivate.detach pp l s w).linked E hist := by
  have hmem := mapFind_mem _ _ _ hfind
  obtain ⟨_, hsl, hss, _, _⟩ := (hl.2 sig pp hp).2 (l, s) hmem
  apply linked_of_frame E hist w _ hl (detach_signals pp l s w) (detach_nextSub pp l s w).2
    (detach_nextSub pp l s w).1
  intro sig0 pp0 hp0
  rw [detach_privs, detach_subs]
  obtain ⟨hsorted, hold⟩ := hl.2 sig0 pp0 hp0
  have hkeep : ∀ e : SignalLink × SubPtr, e.2 ≠ s →
      ((Function.update w.subs s { w.subs s with enabled := false }) e.2).linkId
          = (w.subs e.2).linkId ∧
      ((Function.update w.subs s { w.subs s with enabled := false }) e.2).source
          = (w.subs e.2).source ∧
      ((Function.update w.subs s { w.subs s with enabled := false }) e.2).enabled
          = (w.subs e.2).enabled := by
    intro e hne
    rw [Function.update_noteq hne]
    exact ⟨rfl, rfl, rfl⟩
  by_cases hpp : pp0 = pp
  · subst hpp
    simp only [Function.update_same]
    refine ⟨mapSorted_mapErase _ _ hsorted, ?_⟩
    intro e he
    obtain ⟨hin, hkey⟩ := mapErase_mem _ _ hsorted e he
    refine ⟨hin, hkeep e ?_⟩
    intro hes
    have h1 := (hold e hin).2.1
    rw [hes] at h1
    have hsig : sig0 = sig := (hl.1 sig pp0 hp).2 sig0 hp0
    subst hsig
    exact hkey (h1.symm.trans hsl)
  · rw [Function.update_noteq hpp]
    refine ⟨hsorted, ?_⟩
    intro e he
    refine ⟨he, hkeep e ?_⟩
    intro hes
    have h1 := (hold e he).2.2.1
    rw [hes, hss] at h1
    rw [← h1] at hp0
    rw [hp] at hp0
    exact hpp (Option.some.inj hp0).symm

/-- A disconnect that returns keeps the condition `linked`. -/
theorem linked_privDisconnect (E : Prop) (hist : List (SigPtr × SignalLink))
    (tid : ThreadId) (sig : SigPtr) (pp : PrivPtr) (l : SignalLink) (w : World)
    (env : List EnvStep) (b : Bool) (w' : World) (env' : List EnvStep)
    (hl : w.linked E hist) (hp : (w.signals sig)._p = some pp)
    (h : SignalBasePrivate.disconnect tid pp l w env = Res.ok b w' env') :
    w'.linked E hist := by
  rcases privDisconnect_ok tid pp l w env b w' env' h with
    ⟨_, _, hw, _⟩ | ⟨s, used, hfind, _, _, hw, _⟩
  · rw [hw]
    exact hl
  · rw [hw]
    exact linked_applyEnv E hist used _ (linked_detach E hist sig pp l s w hl hp hfind)

/-- The loop of `reset`, when it returns, keeps the condition `linked`. -/
theorem linked_resetLoop (E : Prop) (hist : List (SigPtr × SignalLink)) (tid : ThreadId)
    (sig : SigPtr) (pp : PrivPtr) :
    ∀ (fuel : Nat) (ret : Bool) (w : World) (env : List EnvStep) (b : Bool) (w' : World)
      (env' : List EnvStep),
    w.linked E hist → (w.signals sig)._p = some pp →
    resetLoop tid pp fuel ret w env = Res.ok b w' env' → w'.linked E hist := by
  intro fuel
  induction fuel with
  | zero =>
    intro ret w env b w' env' hl _ h
    simp only [resetLoop] at h
    split at h
    · injection h with _ hw _
      rw [← hw]
      exact hl
    · cases h
  | succ n ih =>
    intro ret w env b w' env' hl hp h
    simp only [resetLoop] at h
    split at h
    · injection h with _ hw _
      rw [← hw]
      exact hl
    · rename_i k v rest hm
      cases hd : SignalBasePrivate.disconnect tid pp k w env with
      | ok b1 w1 env1 =>
        rw [hd] at h
        simp only [Res.andThen] at h
        have hl1 := linked_privDisconnect E hist tid sig pp k w env b1 w1 env1 hl hp hd
        have hp1 : (w1.signals sig)._p = some pp := by
          rw [privDisconnect_signals tid pp k w env b1 w1 env1 hd]
          exact hp
        exact ih _ w1 env1 b w' env' hl1 hp1 h
      | threw w1 env1 => rw [hd] at h; simp [Res.andThen] at h
      | blocked w1 => rw [hd] at h; simp [Res.andThen] at h
      | outOfFuel => rw [hd] at h; simp [Res.andThen] at h

/-- Every sequence of calls of `connect`, `disconnect` and `disconnectAll` that
returns keeps the condition `linked`, the links handed out being added to the
history. -/
theorem linked_runCalls (E : Prop) (fuel : Nat) :
    ∀ (calls : List SignalCall) (hist : List (SigPtr × SignalLink)) (w : World)
      (env : List EnvStep) (links : List (SigPtr × SignalLink)) (w' : World)
      (env' : List EnvStep),
    w.linked E hist →
    (E → ∀ sig src, SignalCall.connect sig src ∈ calls → src.enabled = true) →
    runCalls fuel calls w env = Res.ok links w' env' →
    w'.linked E (hist ++ links) := by
  intro calls
  induction calls with
  | nil =>
    intro hist w env links w' env' hl _ h
    simp only [runCalls] at h
    injection h with hls hw _
    rw [← hls, ← hw, List.append_nil]
    exact hl
  | cons c rest ih =>
    intro hist w env links w' env' hl hen h
    have hen' : E → ∀ sig src, SignalCall.connect sig src ∈ rest → src.enabled = true :=
      fun hE sig src hm => hen hE sig src (List.mem_cons_of_mem _ hm)
    cases c with
    | connect sig src =>
      simp only [runCalls] at h
      have hl1 := linked_connect E hist sig src w hl
        (fun hE => hen hE sig src (List.mem_cons_self _ _))
      cases hr : runCalls fuel rest (SignalBase.connect sig src w).2 env with
      | ok ls w1 env1 =>
        rw [hr] at h
        simp only [Res.andThen] at h
        injection h with hls hw _
        have := ih _ _ env ls w1 env1 hl1 hen' hr
        rw [← hls, ← hw, ← List.append_assoc]
        exact this
      | threw w1 env1 => rw [hr] at h; simp [Res.andThen] at h
      | blocked w1 => rw [hr] at h; simp [Res.andThen] at h
      | outOfFuel => rw [hr] at h; simp [Res.andThen] at h
    | disconnect tid sig link =>
      simp only [runCalls] at h
      cases hd : SignalBase.disconnect tid sig link w env with
      | ok b w1 env1 =>
        rw [hd] at h
        simp only [Res.andThen] at h
        have hl1 : w1.linked E hist := by
          unfold SignalBase.disconnect at hd
          cases hp : (w.signals sig)._p with
          | none =>
            rw [hp] at hd
            simp only at hd
            injection hd with _ hw _
            rw [← hw]
            exact hl
          | some pp =>
            rw [hp] at hd
            exact linked_privDisconnect E hist tid sig pp link w env b w1 env1 hl hp hd
        exact ih hist w1 env1 links w' env' hl1 hen' h
      | threw w1 env1 => rw [hd] at h; simp [Res.andThen] at h
      | blocked w1 => rw [hd] at h; simp [Res.andThen] at h
      | outOfFuel => rw [hd] at h; simp [Res.andThen] at h
    | disconnectAll tid sig =>
      simp only [runCalls] at h
      cases hd : SignalBase.disconnectAll fuel tid sig w env with
      | ok b w1 env1 =>
        rw [hd] at h
        simp only [Res.andThen] at h
        have hl1 : w1.linked E hist := by
          unfold SignalBase.disconnectAll at hd
          cases hp : (w.signals sig)._p with
          | none =>
            rw [hp] at hd
            simp only at hd
            injection hd with _ hw _
            rw [← hw]
            exact hl
          | some pp =>
            rw [hp] at hd
            exact linked_resetLoop E hist tid sig pp fuel true w env b w1 env1 hl hp hd
        exact ih hist w1 env1 links w' env' hl1 hen' h
      | threw w1 env1 => rw [hd] at h; simp [Res.andThen] at h
      | blocked w1 => rw [hd] at h; simp [Res.andThen] at h
      | outOfFuel => rw [hd] at h; simp [Res.andThen] at h

/-- Newly constructed signals satisfy the condition `linked` with an empty history. -/
theorem linked_of_newlyConstructed (E : Prop) (w : World) (h : w.newlyConstructed) :
    w.linked E [] := by
  refine ⟨h.1, ?_⟩
  intro sig pp hp
  rw [h.2 sig pp hp]
  exact ⟨List.Pairwise.nil, fun e he => by cases he⟩

/-- The state of a process that has not touched the signal engine, and that state
after the construction of signal 0, hold newly constructed signals only. -/
theorem newlyConstructed_demoNullary : demoNullary.newlyConstructed := by
  have hsig : ∀ sig pp, (demoNullary.signals sig)._p = some pp → sig = 0 ∧ pp = 0 := by
    intro sig pp h
    by_cases hs : sig = 0
    · subst hs
      exact ⟨rfl, (Option.some.inj h).symm⟩
    · have : (demoNullary.signals sig)._p = none := by
        show ((Function.update (fun _ => ({ _p := none } : SignalBase)) 0
          { _p := some 0 }) sig)._p = none
        rw [Function.update_noteq hs]
      rw [this] at h
      cases h
  refine ⟨?_, ?_⟩
  · intro sig pp hp
    obtain ⟨h1, h2⟩ := hsig sig pp hp
    subst h1; subst h2
    exact ⟨by decide, fun sig' hp' => (hsig sig' 0 hp').1⟩
  · intro sig pp hp
    obtain ⟨h1, h2⟩ := hsig sig pp hp
    subst h1; subst h2
    rfl

/-! ## The claims -/

/-- C1 (code defect): in `demoTarget`, once `disconnect` of link 3 has returned true
and subscriber 1 is disabled, `SignalSubscriber::call` on subscriber 1 still posts
method 3 to object 5.  So does the Direct emission on thread 1: it first runs the
handler of link 2, which disconnects link 3, then reaches subscriber 1 of its snapshot
and posts to the target. -/
theorem disabled_target_still_receives_post (n : Nat) (env : List EnvStep) :
    (SignalBase.subscriberMap 0 demoTarget = [(2, 0), (3, 1)] ∧
      SignalBase.disconnect 1 0 3 demoTarget env
        = Res.ok true (SignalBasePrivate.detach 0 3 1 demoTarget) env ∧
      ((SignalBasePrivate.detach 0 3 1 demoTarget).subs 1).enabled = false ∧
      SignalSubscriber.call n 1 1 [] MetaCallType.Direct
          (SignalBasePrivate.detach 0 3 1 demoTarget) env
        = Res.ok () ((SignalBasePrivate.detach 0 3 1 demoTarget).log
            (Event.metaPost 5 3 [])) env) ∧
    (Res.returned
        (SignalBase.trigger (n + 3) 1 0 [] MetaCallType.Direct demoTarget env) = true ∧
      (Res.world?
          (SignalBase.trigger (n + 3) 1 0 [] MetaCallType.Direct demoTarget env)).map
        (fun w => (SignalBase.subscriberMap 0 w, (w.subs 1).enabled, w.trace.drop 1))
        = some ([(2, 0)], false, [Event.handlerCall 0 1 [], Event.metaPost 5 3 []])) :=
  ⟨⟨rfl, rfl, rfl, rfl⟩, rfl, rfl⟩

/-- C2 (code defect): in `demoReentrant` the handler of link 2 re-enters the Direct
emission of its own signal on thread 1 and, in the nested invocation (state
`demoNested`, where the subscriber is active twice on thread 1), disconnects its own
link.  Whatever the bound on handler steps and whatever the other threads do, the
emission never returns: it polls for ever in `waitForInactive`. -/
theorem reentrant_disconnect_never_returns (n : Nat) (env : List EnvStep)
    (henv : ∀ e ∈ env, e.thread ≠ some 1) :
    (demoNested.subs 0).activeThreads = [1, 1] ∧
    handlerCalls demoNested.trace = [(0, 1, []), (0, 1, [])] ∧
    SignalBase.trigger (n + 6) 1 0 [] MetaCallType.Direct demoReentrant env
      = Res.blocked (applyEnv env (SignalBasePrivate.detach 0 2 0 demoNested)) := by
  refine ⟨rfl, rfl, ?_⟩
  -- the nested invocation: link 3 is gone, the handler disconnects its own link
  have h5 : runHandler (n + 4) (reentrantFunction.body []) 1 demoNested env
      = Res.blocked (applyEnv env (SignalBasePrivate.detach 0 2 0 demoNested)) := by
    have hd := disconnect_blocks_when_active_twice 1 0 0 2 0 demoNested env
      (by decide) (by decide) (by decide) henv
    have hstep : runHandler (n + 4) (reentrantFunction.body []) 1 demoNested env
        = (SignalBase.disconnect 1 0 2 demoNested env).andThen
            (fun b w1 env1 => runHandler (n + 2) (Handler.done Outcome.returned) 1 w1 env1) := rfl
    rw [hstep, hd]
    rfl
  have h4 : SignalBase.triggerWith (runHandler (n + 4)) 1 0 [] MetaCallType.Direct
      demoReemit env
      = Res.blocked (applyEnv env (SignalBasePrivate.detach 0 2 0 demoNested)) := by
    have hstep : SignalBase.triggerWith (runHandler (n + 4)) 1 0 [] MetaCallType.Direct
        demoReemit env
        = callEachWith (runHandler (n + 4)) 1 [] MetaCallType.Direct [(2, 0)] demoReemit env :=
      rfl
    rw [hstep]
    exact callEach_cons_blocked _ _ _ _ _ _ _ _ _ _
      (callWith_blocked _ 1 0 [] _ demoReemit env reentrantFunction _ rfl rfl rfl h5)
  have h3 : runHandler (n + 6) (reentrantFunction.body []) 1 demoEntered env
      = Res.blocked (applyEnv env (SignalBasePrivate.detach 0 2 0 demoNested)) := by
    have hstep : runHandler (n + 6) (reentrantFunction.body []) 1 demoEntered env
        = runHandler (n + 5)
            (Handler.trigger 0 [] MetaCallType.Direct (Handler.done Outcome.returned)) 1
            demoReemit env := rfl
    rw [hstep]
    exact runHandler_trigger_blocked _ _ _ _ _ _ _ _ _ h4
  have hstep : SignalBase.trigger (n + 6) 1 0 [] MetaCallType.Direct demoReentrant env
      = callEachWith (runHandler (n + 6)) 1 [] MetaCallType.Direct [(2, 0), (3, 1)]
          demoReentrant env := rfl
  rw [hstep]
  exact callEach_cons_blocked _ _ _ _ _ _ _ _ _ _
    (callWith_blocked _ 1 0 [] _ demoReentrant env reentrantFunction _ rfl rfl rfl h3)

/-- C2 witness: the emission with thread 7 leaving and thread 8 trying to enter the
handler meanwhile. -/
theorem reentrant_disconnect_never_returns_witness :
    (∀ e ∈ [EnvStep.leave 0 7, EnvStep.enter 0 8, EnvStep.idle], e.thread ≠ some 1) ∧
    Res.isBlocked (SignalBase.trigger 6 1 0 [] MetaCallType.Direct demoReentrant
      [EnvStep.leave 0 7, EnvStep.enter 0 8, EnvStep.idle]) = true := by
  refine ⟨by decide, ?_⟩
  rw [(reentrant_disconnect_never_returns 0
    [EnvStep.leave 0 7, EnvStep.enter 0 8, EnvStep.idle] (by decide)).2.2]
  rfl

/-- C3: `disconnect` of a registered link called on thread `tid` returns only with
true and only in a state, reached from the detached state by steps of the other
threads, in which every entry of the active-thread list of the subscriber belongs to
`tid`; and if an entry of another thread is present in every state these steps lead
to, the call does not return. -/
theorem disconnect_waits_for_other_threads (tid : ThreadId) (sig : SigPtr) (pp : PrivPtr)
    (link : SignalLink) (s : SubPtr) (w : World) (env : List EnvStep)
    (hp : (w.signals sig)._p = some pp)
    (hfind : mapFind (w.privs pp).subscriberMap link = some s) :
    (∀ b w' env', SignalBase.disconnect tid sig link w env = Res.ok b w' env' →
      b = true ∧ (∀ x ∈ (w'.subs s).activeThreads, x = tid) ∧
      ∃ used, env = used ++ env' ∧
        w' = applyEnv used (SignalBasePrivate.detach pp link s w)) ∧
    ((∀ k, k ≤ env.length → ∃ x ∈ ((applyEnv (env.take k)
          (SignalBasePrivate.detach pp link s w)).subs s).activeThreads, x ≠ tid) →
      SignalBase.disconnect tid sig link w env
        = Res.blocked (applyEnv env (SignalBasePrivate.detach pp link s w))) := by
  constructor
  · intro b w' env' h
    simp only [SignalBase.disconnect, hp] at h
    rcases privDisconnect_ok tid pp link w env b w' env' h with ⟨hnone, _⟩ | ⟨s', used, hs', hb, he, hw, hin⟩
    · rw [hfind] at hnone
      cases hnone
    · rw [hfind] at hs'
      injection hs' with hs'
      subst hs'
      exact ⟨hb, inactiveFor_true tid _ hin, used, he, hw⟩
  · intro hforeign
    simp only [SignalBase.disconnect, hp, SignalBasePrivate.disconnect, hfind]
    have h0 := inactiveFor_false_of_foreign tid _ (hforeign 0 (Nat.zero_le _))
    simp only [List.take, applyEnv] at h0
    rw [h0]
    simp only [Bool.false_eq_true, if_false]
    rw [waitForInactive_blocked tid s env _
      (fun k hk => inactiveFor_false_of_foreign tid _ (hforeign k hk))]
    rfl

/-- C3 witness: the subscriber of link 2 in `demoBusy` is running on thread 7; the
disconnect on thread 1 does not return while thread 7 stays in the handler, and
returns once thread 7 has left it. -/
theorem disconnect_waits_for_other_threads_witness :
    (demoBusy.signals 0)._p = some 0 ∧
    mapFind (demoBusy.privs 0).subscriberMap 2 = some 0 ∧
    (demoBusy.subs 0).activeThreads = [7] ∧
    Res.isBlocked (SignalBase.disconnect 1 0 2 demoBusy []) = true ∧
    Res.returned (SignalBase.disconnect 1 0 2 demoBusy [EnvStep.leave 0 7]) = true := by
  refine ⟨by decide, by decide, by decide, ?_, by decide⟩
  rw [(disconnect_waits_for_other_threads 1 0 0 2 0 demoBusy [] (by decide) (by decide)).2
    (fun k hk => by
      have hk0 : k = 0 := Nat.le_zero.mp hk
      subst hk0
      exact ⟨7, by decide, by decide⟩)]
  rfl

/-- C4: for a link that is a key of the subscriber map and whose subscriber has no
handler executing, `disconnect` returns true at once; the map keeps exactly the entries
with another key, in order (one entry fewer, the link no longer found, every other key
found as before); every other private state and every other subscriber is unchanged;
and the removed subscriber differs from before only by `enabled = false`. -/
theorem disconnect_removes_exactly_the_entry (tid : ThreadId) (sig : SigPtr) (pp : PrivPtr)
    (link : SignalLink) (s : SubPtr) (w : World) (env : List EnvStep)
    (hp : (w.signals sig)._p = some pp)
    (hsorted : mapSorted (w.privs pp).subscriberMap)
    (hfind : mapFind (w.privs pp).subscriberMap link = some s)
    (hidle : (w.subs s).activeThreads = []) :
    ∃ w', SignalBase.disconnect tid sig link w env = Res.ok true w' env ∧
      (w'.privs pp).subscriberMap
        = (w.privs pp).subscriberMap.filter (fun e => decide (e.1 ≠ link)) ∧
      (w'.privs pp).subscriberMap.length + 1 = (w.privs pp).subscriberMap.length ∧
      (∀ k, mapFind (w'.privs pp).subscriberMap k
        = if k = link then none else mapFind (w.privs pp).subscriberMap k) ∧
      (∀ q, q ≠ pp → w'.privs q = w.privs q) ∧
      (∀ p, p ≠ s → w'.subs p = w.subs p) ∧
      (w'.subs s).enabled = false ∧
      w'.subs s = { w.subs s with enabled := false } ∧
      w'.signals = w.signals := by
  refine ⟨SignalBasePrivate.detach pp link s w, ?_, ?_, ?_, ?_, ?_, ?_, ?_, ?_, ?_⟩
  · simp only [SignalBase.disconnect, hp, SignalBasePrivate.disconnect, hfind]
    rw [if_pos]
    simp [detach_subs, hidle, inactiveFor_nil]
  · simp [detach_privs, mapErase_eq_filter _ _ hsorted]
  · simpa [detach_privs] using length_mapErase _ _ _ hfind
  · intro k
    by_cases hk : k = link
    · subst hk
      simpa [detach_privs] using mapFind_mapErase_self _ _ hsorted
    · simpa [detach_privs, hk] using mapFind_mapErase_ne _ _ _ hk
  · intro q hq
    simp [detach_privs, Function.update_noteq hq]
  · intro p hp'
    simp [detach_subs, Function.update_noteq hp']
  · simp [detach_subs]
  · simp [detach_subs]
  · exact detach_signals _ _ _ _

/-- C4 witness: disconnecting link 2 of `demoOne`. -/
theorem disconnect_removes_exactly_the_entry_witness :
    ((demoOne.signals 0)._p = some 0 ∧ mapSorted (demoOne.privs 0).subscriberMap ∧
      mapFind (demoOne.privs 0).subscriberMap 2 = some 0 ∧
      (demoOne.subs 0).activeThreads = []) ∧
    ∃ w', SignalBase.disconnect 1 0 2 demoOne [] = Res.ok true w' [] ∧
      (w'.privs 0).subscriberMap = [] ∧ (w'.subs 0).enabled = false := by
  refine ⟨⟨by decide, by decide, by decide, by decide⟩, ?_⟩
  obtain ⟨w', h1, h2, _, _, _, _, h7, _, _⟩ :=
    disconnect_removes_exactly_the_entry 1 0 0 2 0 demoOne []
      (by decide) (by decide) (by decide) (by decide)
  exact ⟨w', h1, by rw [h2]; decide, h7⟩

/-- C5: `disconnect` of a link id that is not a key of the subscriber map (in
particular on a signal without private state, where the map is empty) returns false
and leaves the whole state as it was: the map, every `enabled` flag, and the trace, so
the hook is not called. -/
theorem disconnect_unknown_link_returns_false (tid : ThreadId) (sig : SigPtr)
    (link : SignalLink) (w : World) (env : List EnvStep)
    (hunknown : mapFind (SignalBase.subscriberMap sig w) link = none) :
    SignalBase.disconnect tid sig link w env = Res.ok false w env :=
  disconnect_not_found tid sig link w env hunknown

/-- C5 witness: link 2 of signal 0 after it has been disconnected once, and any link
of signal 4, which has no private state. -/
theorem disconnect_unknown_link_returns_false_witness :
    (mapFind (SignalBase.subscriberMap 0 demoGone) 2 = none ∧
      SignalBase.disconnect 1 0 2 demoGone [] = Res.ok false demoGone []) ∧
    ((demoGone.signals 4)._p = none ∧
      SignalBase.disconnect 1 4 2 demoGone [] = Res.ok false demoGone []) :=
  ⟨⟨by decide, disconnect_unknown_link_returns_false 1 0 2 demoGone [] (by decide)⟩,
   ⟨by decide, disconnect_unknown_link_returns_false 1 4 2 demoGone [] (by decide)⟩⟩

/-- C6, as stated, fails on two inputs: a function of the dynamic function type that
reports no argument is registered on the signal of one argument, and a function of one
argument is registered on the signal with the dynamic signature, whose `children()` is
empty; both signals had no subscriber and `hasSubscribers()` is true afterwards. -/
theorem connect_arity_mismatch_counterexample :
    (SignalBase.hasSubscribers 0 demoUnary = false ∧
      (dynamicFunction.arity : Int) ≠ (SignalBase.signature 0 demoUnary).children.length ∧
      (SignalBase.connect 0 (SignalSubscriber.ofFunction dynamicFunction MetaCallType.Direct)
        demoUnary).1 = some 0 ∧
      SignalBase.hasSubscribers 0
        (SignalBase.connect 0 (SignalSubscriber.ofFunction dynamicFunction MetaCallType.Direct)
          demoUnary).2 = true) ∧
    (SignalBase.hasSubscribers 0 demoDynamic = false ∧
      (unaryFunction.arity : Int) ≠ (SignalBase.signature 0 demoDynamic).children.length ∧
      (SignalBase.connect 0
        (SignalSubscriber.ofFunction unaryFunction MetaCallType.Direct)
        demoDynamic).1 = some 0 ∧
      SignalBase.hasSubscribers 0
        (SignalBase.connect 0
          (SignalSubscriber.ofFunction unaryFunction MetaCallType.Direct)
          demoDynamic).2 = true) := by
  decide

/-- C6, amended: on a signal whose signature is not the dynamic one, `connect` of a
plain handler that is not of the dynamic function type and whose arity differs from
the arity of the signal returns the invalid subscriber; `hasSubscribers()` is as before
(so still false on a signal without subscribers), and so are the subscriber map, the
subscriber objects, the trace and the link counter. -/
theorem connect_arity_mismatch_is_invalid (sig : SigPtr) (src : SignalSubscriber)
    (h : AnyFunction) (w : World)
    (hsig : SignalBase.signature sig w ≠ Signature.dynamic)
    (hh : src.handler = some h) (hdyn : h.dynamic = false)
    (harity : (h.arity : Int) ≠ ((SignalBase.signature sig w).children.length : Int)) :
    (SignalBase.connect sig src w).1 = none ∧
    SignalBase.hasSubscribers sig (SignalBase.connect sig src w).2
      = SignalBase.hasSubscribers sig w ∧
    SignalBase.subscriberMap sig (SignalBase.connect sig src w).2
      = SignalBase.subscriberMap sig w ∧
    (SignalBase.connect sig src w).2.subs = w.subs ∧
    (SignalBase.connect sig src w).2.trace = w.trace ∧
    (SignalBase.connect sig src w).2.linkUid = w.linkUid := by
  have hc : SignalBase.connect sig src w = (none, (SignalBase.ensurePrivate sig w).2) := by
    unfold SignalBase.connect SignalBase.connectCheck
    simp only [ensurePrivate_signature, hsig, hh, hdyn, if_false, Bool.false_eq_true]
    rw [if_pos (Ne.symm harity)]
  rw [hc]
  exact ⟨rfl, ensurePrivate_hasSubscribers sig w, ensurePrivate_subscriberMap sig w,
    ensurePrivate_subs sig w, ensurePrivate_trace sig w, ensurePrivate_linkUid sig w⟩

/-- C6 witness: a function of no argument on the signal of one argument. -/
theorem connect_arity_mismatch_is_invalid_witness :
    (SignalBase.signature 0 demoUnary ≠ Signature.dynamic ∧
      (SignalSubscriber.ofFunction nullaryFunction MetaCallType.Direct).handler
        = some nullaryFunction ∧
      nullaryFunction.dynamic = false ∧
      (nullaryFunction.arity : Int) ≠ ((SignalBase.signature 0 demoUnary).children.length : Int)) ∧
    (SignalBase.connect 0 (SignalSubscriber.ofFunction nullaryFunction MetaCallType.Direct)
        demoUnary).1 = none ∧
    SignalBase.hasSubscribers 0
      (SignalBase.connect 0 (SignalSubscriber.ofFunction nullaryFunction MetaCallType.Direct)
        demoUnary).2 = SignalBase.hasSubscribers 0 demoUnary :=
  ⟨⟨by decide, rfl, rfl, by decide⟩,
   (connect_arity_mismatch_is_invalid 0
      (SignalSubscriber.ofFunction nullaryFunction MetaCallType.Direct) nullaryFunction
      demoUnary (by decide) rfl rfl (by decide)).1,
   (connect_arity_mismatch_is_invalid 0
      (SignalSubscriber.ofFunction nullaryFunction MetaCallType.Direct) nullaryFunction
      demoUnary (by decide) rfl rfl (by decide)).2.1⟩

/-- C7, as stated, fails on the signal with the dynamic signature: `connect` of method
3 of the expired object 6 returns a registered subscriber, the map gains the entry of
link 2 and the hook is called with `true`. -/
theorem connect_dead_target_counterexample :
    demoDynamic.alive 6 = false ∧
    (SignalBase.connect 0 (SignalSubscriber.ofObject 6 3) demoDynamic).1 = some 0 ∧
    SignalBase.subscriberMap 0 demoDynamic = [] ∧
    SignalBase.subscriberMap 0
      (SignalBase.connect 0 (SignalSubscriber.ofObject 6 3) demoDynamic).2 = [(2, 0)] ∧
    demoDynamic.trace = [] ∧
    (SignalBase.connect 0 (SignalSubscriber.ofObject 6 3) demoDynamic).2.trace
      = [Event.onSubscribers 9 true] := by
  decide

/-- C7, amended: on a signal whose signature is not the dynamic one, `connect` of an
object and method subscriber whose weak target has expired returns the invalid
subscriber and registers nothing: the subscriber map, `hasSubscribers()`, the
subscriber objects, the trace (so the hook is not called) and the link counter are as
before. -/
theorem connect_dead_target_is_invalid (sig : SigPtr) (src : SignalSubscriber)
    (obj : ObjId) (w : World)
    (hsig : SignalBase.signature sig w ≠ Signature.dynamic)
    (hh : src.handler = none) (ht : src.target = some obj) (hdead : w.alive obj = false) :
    (SignalBase.connect sig src w).1 = none ∧
    SignalBase.subscriberMap sig (SignalBase.connect sig src w).2
      = SignalBase.subscriberMap sig w ∧
    SignalBase.hasSubscribers sig (SignalBase.connect sig src w).2
      = SignalBase.hasSubscribers sig w ∧
    (SignalBase.connect sig src w).2.subs = w.subs ∧
    (SignalBase.connect sig src w).2.trace = w.trace ∧
    (SignalBase.connect sig src w).2.linkUid = w.linkUid := by
  have hc : SignalBase.connect sig src w = (none, (SignalBase.ensurePrivate sig w).2) := by
    unfold SignalBase.connect
    simp only [ensurePrivate_signature, hsig, hh, ht, if_false, ensurePrivate_alive, hdead]
    simp
  rw [hc]
  exact ⟨rfl, ensurePrivate_subscriberMap sig w, ensurePrivate_hasSubscribers sig w,
    ensurePrivate_subs sig w, ensurePrivate_trace sig w, ensurePrivate_linkUid sig w⟩

/-- C7 witness: method 3 of the expired object 6 on the signal of no argument. -/
theorem connect_dead_target_is_invalid_witness :
    (SignalBase.signature 0 demoNullary ≠ Signature.dynamic ∧
      (SignalSubscriber.ofObject 6 3).handler = none ∧
      (SignalSubscriber.ofObject 6 3).target = some 6 ∧ demoNullary.alive 6 = false) ∧
    (SignalBase.connect 0 (SignalSubscriber.ofObject 6 3) demoNullary).1 = none ∧
    (SignalBase.connect 0 (SignalSubscriber.ofObject 6 3) demoNullary).2.trace
      = demoNullary.trace :=
  ⟨⟨by decide, rfl, rfl, by decide⟩,
   (connect_dead_target_is_invalid 0 (SignalSubscriber.ofObject 6 3) 6 demoNullary
      (by decide) rfl rfl (by decide)).1,
   (connect_dead_target_is_invalid 0 (SignalSubscriber.ofObject 6 3) 6 demoNullary
      (by decide) rfl rfl (by decide)).2.2.2.2.1⟩

/-- C8: over any sequence of `connect` and `disconnect` calls, on any signals, that
stays short of the wrap-around of the counter, the link ids of the successfully
connected subscribers are strictly increasing, and all above the counter value the
sequence started from: no id is shared or handed out again. -/
theorem link_ids_strictly_increase (ops : List SignalOp) (w : World) (env : List EnvStep)
    (links : List SignalLink) (w' : World) (env' : List EnvStep)
    (hnonneg : 0 ≤ w.linkUid) (hshort : w.linkUid + ops.length < 2147483648)
    (hbits : 31 ≤ w.linkBits)
    (hrun : runOps ops w env = Res.ok links w' env') :
    links.Pairwise (fun a b => a < b) ∧
    ∀ l ∈ links, toSignalLink w.linkBits w.linkUid < l := by
  obtain ⟨h1, h2⟩ := runOps_links ops w env links w' env' hrun hnonneg hshort hbits
  refine ⟨h1, ?_⟩
  intro l hl
  rw [toSignalLink_eq _ _ hnonneg (by omega) hbits]
  exact h2 l hl

/-- C8 witness: two connects, a disconnect of the first link and a third connect hand
out the ids 2, 3 and 4. -/
theorem link_ids_strictly_increase_witness :
    (0 ≤ demoNullary.linkUid ∧ demoNullary.linkUid + demoOps.length < 2147483648 ∧
      31 ≤ demoNullary.linkBits ∧
      runOps demoOps demoNullary [] = Res.ok [2, 3, 4] demoOpsDone []) ∧
    (List.Pairwise (fun a b => a < b) [2, 3, 4] ∧
      ∀ l ∈ [2, 3, 4], toSignalLink demoNullary.linkBits demoNullary.linkUid < l) :=
  ⟨⟨by decide, by decide, by decide, rfl⟩,
   link_ids_strictly_increase demoOps demoNullary [] [2, 3, 4] demoOpsDone []
     (by decide) (by decide) (by decide) rfl⟩

/-- C9: the hook fires exactly at the transitions between an empty and a non-empty
map.  A successful `connect` appends one call of the hook with `true` to the trace if
the map was empty before, and nothing otherwise; a failed `connect` appends nothing; a
`disconnect` that returns true appends one call with `false` if the map is empty
afterwards, and nothing otherwise; the `disconnect` of an unknown link returns false
and appends nothing. -/
theorem hook_fires_exactly_at_transitions :
    (∀ (sig : SigPtr) (src : SignalSubscriber) (w : World) (s : SubPtr) (cb : Nat),
      (SignalBase.connect sig src w).1 = some s → SignalBase.hook sig w = some cb →
      (SignalBase.connect sig src w).2.trace = w.trace ++
        (if SignalBase.subscriberMap sig w = [] then [Event.onSubscribers cb true] else [])) ∧
    (∀ (sig : SigPtr) (src : SignalSubscriber) (w : World),
      (SignalBase.connect sig src w).1 = none →
      (SignalBase.connect sig src w).2.trace = w.trace) ∧
    (∀ (tid : ThreadId) (sig : SigPtr) (link : SignalLink) (w : World) (env : List EnvStep)
      (w' : World) (env' : List EnvStep) (cb : Nat),
      SignalBase.disconnect tid sig link w env = Res.ok true w' env' →
      SignalBase.hook sig w = some cb →
      w'.trace = w.trace ++
        (if SignalBase.subscriberMap sig w' = [] then [Event.onSubscribers cb false] else [])) ∧
    (∀ (tid : ThreadId) (sig : SigPtr) (link : SignalLink) (w : World) (env : List EnvStep),
      mapFind (SignalBase.subscriberMap sig w) link = none →
      ∃ w', SignalBase.disconnect tid sig link w env = Res.ok false w' env ∧
        w'.trace = w.trace) := by
  refine ⟨?_, ?_, ?_, ?_⟩
  · intro sig src w s cb hs hcb
    rw [connect_trace, hs, hcb]
  · intro sig src w hn
    rw [connect_trace, hn]
    simp
  · intro tid sig link w env w' env' cb h hcb
    rw [(disconnect_trace tid sig link w env true w' env' h).2, hcb]
  · intro tid sig link w env hunknown
    exact ⟨w, disconnect_not_found tid sig link w env hunknown, rfl⟩

/-- C9 witness: the first connect on `demoNullary`, whose hook is 9, and the
disconnect of the only link of `demoOne`. -/
theorem hook_fires_exactly_at_transitions_witness :
    ((SignalBase.connect 0 (SignalSubscriber.ofFunction nullaryFunction MetaCallType.Direct)
        demoNullary).1 = some 0 ∧ SignalBase.hook 0 demoNullary = some 9 ∧
      (SignalBase.connect 0 (SignalSubscriber.ofFunction nullaryFunction MetaCallType.Direct)
        demoNullary).2.trace = demoNullary.trace ++
          (if SignalBase.subscriberMap 0 demoNullary = [] then [Event.onSubscribers 9 true]
           else [])) ∧
    (SignalBase.disconnect 1 0 2 demoOne [] = Res.ok true demoGone [] ∧
      SignalBase.hook 0 demoOne = some 9 ∧
      demoGone.trace = demoOne.trace ++
        (if SignalBase.subscriberMap 0 demoGone = [] then [Event.onSubscribers 9 false]
         else [])) :=
  ⟨⟨by decide, by decide,
    hook_fires_exactly_at_transitions.1 0
      (SignalSubscriber.ofFunction nullaryFunction MetaCallType.Direct) demoNullary 0 9
      (by decide) (by decide)⟩,
   ⟨rfl, by decide,
    hook_fires_exactly_at_transitions.2.2.1 1 0 2 demoOne [] demoGone [] 9 rfl (by decide)⟩⟩

/-- C10, as stated, fails on `demoPair`: both subscribers of the snapshot are enabled
plain handlers with preference Direct, the Direct emission on thread 1 returns, and
only the handler of subscriber 0 has been called: it disconnected link 3 before the
emission reached subscriber 1. -/
theorem direct_emission_skips_disconnected_counterexample :
    SignalBase.subscriberMap 0 demoPair = [(2, 0), (3, 1)] ∧
    (demoPair.subs 1).enabled = true ∧
    ((demoPair.subs 1).handler.map fun f => f.dynamic) = some false ∧
    (demoPair.subs 1).threadingModel = MetaCallType.Direct ∧
    Res.returned (SignalBase.callSubscribers 3 1 0 [] MetaCallType.Direct demoPair []) = true ∧
    (Res.world? (SignalBase.callSubscribers 3 1 0 [] MetaCallType.Direct demoPair [])).map
      (fun w => handlerCalls w.trace) = some [(0, 1, [])] := by
  decide

/-- C10, amended: let the emission resolve to Direct on a signal whose map is sorted
and holds only idle, enabled plain-handler subscribers with preference Direct or Auto,
each registered under its own link and source, whose handlers end (by return or by any
exception) without calling back into the signal API.  Then the emission returns
without waiting, and the handler calls it adds to the trace are exactly one call per
entry of the snapshot, in key order, on the emitting thread with the emitted
arguments. -/
theorem direct_emission_calls_each_handler_once (n : Nat) (tid : ThreadId) (sig : SigPtr)
    (pp : PrivPtr) (params : GenericFunctionParameters) (callType : MetaCallType)
    (w : World) (env : List EnvStep)
    (hp : (w.signals sig)._p = some pp)
    (hmode : (if callType = MetaCallType.Auto then (w.privs pp).defaultCallType
      else callType) = MetaCallType.Direct)
    (hsorted : mapSorted (w.privs pp).subscriberMap)
    (hsubs : ∀ e ∈ (w.privs pp).subscriberMap, ∃ h o,
      (w.subs e.2).handler = some h ∧ h.body params = Handler.done o ∧
      (w.subs e.2).enabled = true ∧
      ((w.subs e.2).threadingModel = MetaCallType.Direct ∨
        (w.subs e.2).threadingModel = MetaCallType.Auto) ∧
      (w.subs e.2).activeThreads = [] ∧ (w.subs e.2).linkId = e.1 ∧
      (w.subs e.2).source = sig) :
    ∃ w', SignalBase.callSubscribers (n + 1) tid sig params callType w env
        = Res.ok () w' env ∧
      handlerCalls w'.trace = handlerCalls w.trace ++
        (w.privs pp).subscriberMap.map (fun e => (e.2, tid, params)) := by
  unfold SignalBase.callSubscribers SignalBase.callSubscribersWith
  simp only [hp, hmode]
  apply callEach_inert n tid sig pp params env _ w hp (mapSorted_keys_nodup _ hsorted)
  intro e he
  obtain ⟨h, o, g1, g2, g3, g4, g5, g6, g7⟩ := hsubs e he
  exact ⟨h, o, g1, g2, g3, g4, g5, g6, g7, mapFind_of_mem _ hsorted e.1 e.2 he⟩

/-- C10 witness: the Direct emission on `demoTwo`, whose first handler raises the
target-expired fault and whose second handler returns. -/
theorem direct_emission_calls_each_handler_once_witness :
    ((demoTwo.signals 0)._p = some 0 ∧ mapSorted (demoTwo.privs 0).subscriberMap ∧
      (demoTwo.privs 0).subscriberMap = [(2, 0), (3, 1)]) ∧
    ∃ w', SignalBase.callSubscribers 1 7 0 [] MetaCallType.Direct demoTwo []
        = Res.ok () w' [] ∧
      handlerCalls w'.trace = [(0, 7, []), (1, 7, [])] := by
  refine ⟨⟨by decide, by decide, by decide⟩, ?_⟩
  obtain ⟨w', h1, h2⟩ := direct_emission_calls_each_handler_once 0 7 0 0 []
    MetaCallType.Direct demoTwo [] (by decide) (by decide) (by decide)
    (by
      intro e he
      have he' : e = (2, 0) ∨ e = (3, 1) := by
        have : e ∈ [((2 : SignalLink), (0 : SubPtr)), (3, 1)] := he
        simpa using this
      rcases he' with rfl | rfl
      · exact ⟨expiredFunction, Outcome.pointerLockException, rfl, rfl, rfl,
          Or.inl rfl, rfl, rfl, rfl⟩
      · exact ⟨nullaryFunction, Outcome.returned, rfl, rfl, rfl, Or.inr rfl, rfl, rfl, rfl⟩)
  exact ⟨w', h1, by rw [h2]; decide⟩

/-- C11: when the combined signature of the arguments differs from the declared
signature of the signal, `operator()` returns with the state exactly as it was: no
handler has been called, no task posted, no message sent to a target, and the
subscriber map is unchanged (with or without an emission override). -/
theorem emit_signature_mismatch_drops (fuel : Nat) (tid : ThreadId) (sig : SigPtr)
    (pp : PrivPtr) (p1 p2 p3 p4 p5 p6 p7 p8 : Option AnyReference) (w : World)
    (env : List EnvStep)
    (hp : (w.signals sig)._p = some pp)
    (hmismatch : makeTupleSignature ([p1, p2, p3, p4, p5, p6, p7, p8].filterMap id)
      ≠ (w.privs pp).signature) :
    SignalBase.emit fuel tid sig p1 p2 p3 p4 p5 p6 p7 p8 w env = some (Res.ok () w env) := by
  unfold SignalBase.emit
  simp only [hp]
  rw [if_pos hmismatch]

/-- C11 witness: one argument emitted on the signal of no argument in `demoTwo`. -/
theorem emit_signature_mismatch_drops_witness :
    ((demoTwo.signals 0)._p = some 0 ∧
      makeTupleSignature ([some { typeCode := 1, value := 5 }, none, none, none, none,
        none, none, none].filterMap id) ≠ (demoTwo.privs 0).signature) ∧
    SignalBase.emit 3 1 0 (some { typeCode := 1, value := 5 }) none none none none none
      none none demoTwo [] = some (Res.ok () demoTwo []) :=
  ⟨⟨by decide, by decide⟩,
   emit_signature_mismatch_drops 3 1 0 0 (some { typeCode := 1, value := 5 }) none none
     none none none none none demoTwo [] (by decide) (by decide)⟩


/-- C12, as stated, fails on `demoOverride`: the override 4 is installed on signal 0,
whose signature has no argument; `operator()` with one argument returns and the trace
is as before, so the override has not been invoked. -/
theorem emit_override_counterexample :
    ((demoOverride.signals 0)._p = some 0 ∧
      (demoOverride.privs 0).triggerOverride = some 4) ∧
    (SignalBase.emit 3 1 0 (some { typeCode := 1, value := 5 }) none none none none none
        none none demoOverride []).map (fun r => (Res.returned r,
          (Res.world? r).map fun w => w.trace))
      = some (true, some demoOverride.trace) := by
  decide

/-- C12, amended: on a signal with an emission override, `operator()` with arguments
whose combined signature equals the declared one adds to the state exactly one call
of the override, with these arguments and the default call type of the signal: no
handler is called, nothing is posted.  `SignalBase::trigger` does so for every
argument list and call type. -/
theorem emit_delegates_to_override (fuel : Nat) (tid : ThreadId) (sig : SigPtr)
    (pp : PrivPtr) (cb : Nat) (p1 p2 p3 p4 p5 p6 p7 p8 : Option AnyReference) (w : World)
    (env : List EnvStep)
    (hp : (w.signals sig)._p = some pp)
    (hoverride : (w.privs pp).triggerOverride = some cb)
    (hmatch : makeTupleSignature ([p1, p2, p3, p4, p5, p6, p7, p8].filterMap id)
      = (w.privs pp).signature) :
    SignalBase.emit fuel tid sig p1 p2 p3 p4 p5 p6 p7 p8 w env
      = some (Res.ok () (w.log (Event.triggerOverride cb
          ([p1, p2, p3, p4, p5, p6, p7, p8].filterMap id) (w.privs pp).defaultCallType)) env) ∧
    ∀ (params : GenericFunctionParameters) (callType : MetaCallType),
      SignalBase.trigger fuel tid sig params callType w env
        = Res.ok () (w.log (Event.triggerOverride cb params callType)) env := by
  have htrig : ∀ (params : GenericFunctionParameters) (callType : MetaCallType),
      SignalBase.trigger fuel tid sig params callType w env
        = Res.ok () (w.log (Event.triggerOverride cb params callType)) env := by
    intro params callType
    simp only [SignalBase.trigger, SignalBase.triggerWith, hp, hoverride]
  refine ⟨?_, htrig⟩
  unfold SignalBase.emit
  simp only [hp]
  rw [if_neg (not_not.mpr hmatch), htrig]

/-- C12 witness: `operator()` without argument on `demoOverride`. -/
theorem emit_delegates_to_override_witness :
    ((demoOverride.signals 0)._p = some 0 ∧
      (demoOverride.privs 0).triggerOverride = some 4 ∧
      makeTupleSignature ([(none : Option AnyReference), none, none, none, none, none,
        none, none].filterMap id) = (demoOverride.privs 0).signature) ∧
    SignalBase.emit 3 1 0 none none none none none none none none demoOverride []
      = some (Res.ok () (demoOverride.log (Event.triggerOverride 4 [] MetaCallType.Auto)) []) :=
  ⟨⟨by decide, by decide, by decide⟩,
   (emit_delegates_to_override 3 1 0 0 4 none none none none none none none none
     demoOverride [] (by decide) (by decide) (by decide)).1⟩

/-- C13, as stated, fails on `demoAuto`: the preference of the subscriber, the call
type of the emission and the default call type of the signal are all Auto, so the mode
the claim resolves is Auto, not Queued; yet the emission posts the handler to the event
loop and does not call it. -/
theorem dispatch_mode_counterexample :
    ((demoAuto.subs 0).threadingModel = MetaCallType.Auto ∧
      (demoAuto.privs 0).defaultCallType = MetaCallType.Auto ∧
      specEffectiveMode (demoAuto.subs 0).threadingModel MetaCallType.Auto
        (demoAuto.privs 0).defaultCallType = MetaCallType.Auto ∧
      demoAuto.eventLoop = some []) ∧
    (Res.world? (SignalBase.callSubscribers 3 1 0 [] MetaCallType.Auto demoAuto [])).map
      (fun w => (w.eventLoop, handlerCalls w.trace))
      = some (some [{ params := [], sub := 0 }], []) := by
  decide

/-- C13, amended: `callSubscribers` calls each subscriber with the call type of the
emission, or the default of the signal when that is Auto.  For a plain-handler
subscriber let the mode be resolved as the claim says.  If it is Direct the call is
inline: nothing happens when the subscriber is disabled, and otherwise a handler that
returns or raises is called once on the calling thread, the event loop is left alone,
and the call ends (after the disconnect of the own link when the handler raised the
target-expired fault).  If it is Queued or Auto, the handler is not called and exactly
one task is appended to the event loop. -/
theorem dispatch_mode_resolution (n : Nat) (tid : ThreadId) (s : SubPtr)
    (args : GenericFunctionParameters) (callType default : MetaCallType) (w : World)
    (env : List EnvStep) (h : AnyFunction)
    (hh : (w.subs s).handler = some h) :
    (specEffectiveMode (w.subs s).threadingModel callType default = MetaCallType.Direct →
      ((w.subs s).enabled = false →
        SignalSubscriber.call (n + 1) tid s args (resolveCallType callType default) w env
          = Res.ok () w env) ∧
      ((w.subs s).enabled = true → ∀ o, h.body args = Handler.done o →
        ∃ w3, w3.trace = w.trace ++ [Event.handlerCall s tid args] ∧
          w3.eventLoop = w.eventLoop ∧
          SignalSubscriber.call (n + 1) tid s args (resolveCallType callType default) w env
            = if o = Outcome.pointerLockException then
                (SignalBase.disconnect tid (w3.subs s).source (w3.subs s).linkId w3 env).andThen
                  fun _ w4 env4 => Res.ok () w4 env4
              else Res.ok () w3 env)) ∧
    (specEffectiveMode (w.subs s).threadingModel callType default ≠ MetaCallType.Direct →
      ∀ q, w.eventLoop = some q →
        SignalSubscriber.call (n + 1) tid s args (resolveCallType callType default) w env
          = Res.ok () { w with eventLoop := some (q ++ [{ params := args, sub := s }]) }
              env) ∧
    (∀ sig pp, (w.signals sig)._p = some pp →
      SignalBase.callSubscribers (n + 1) tid sig args callType w env
        = callEachWith (runHandler (n + 1)) tid args
            (resolveCallType callType (w.privs pp).defaultCallType)
            (w.privs pp).subscriberMap w env) := by
  refine ⟨?_, ?_, ?_⟩
  rotate_left 2
  · intro sig pp hp
    simp only [SignalBase.callSubscribers, SignalBase.callSubscribersWith, hp,
      resolveCallType]
  all_goals unfold SignalSubscriber.call SignalSubscriber.callWith
  all_goals simp only [hh]
  · intro hmode
    have hasync : (if (w.subs s).threadingModel ≠ MetaCallType.Auto then
          decide ((w.subs s).threadingModel = MetaCallType.Queued)
        else if resolveCallType callType default ≠ MetaCallType.Auto then
          decide (resolveCallType callType default = MetaCallType.Queued)
        else true) = false := by
      revert hmode
      unfold specEffectiveMode resolveCallType
      cases (w.subs s).threadingModel <;> cases callType <;> cases default <;> decide
    rw [hasync]
    refine ⟨?_, ?_⟩
    · intro hdis
      simp [hdis]
    · intro hen o hbody
      refine ⟨SignalSubscriber.removeActive s tid
        ((SignalSubscriber.addActive s tid w).log (Event.handlerCall s tid args)),
        rfl, rfl, ?_⟩
      simp only [hen, hbody, runHandler, Bool.false_eq_true, if_false, Bool.not_true]
  · intro hmode q hq
    have hasync : (if (w.subs s).threadingModel ≠ MetaCallType.Auto then
          decide ((w.subs s).threadingModel = MetaCallType.Queued)
        else if resolveCallType callType default ≠ MetaCallType.Auto then
          decide (resolveCallType callType default = MetaCallType.Queued)
        else true) = true := by
      revert hmode
      unfold specEffectiveMode resolveCallType
      cases (w.subs s).threadingModel <;> cases callType <;> cases default <;> decide
    rw [hasync]
    simp [hq]

/-- C13 witness: subscriber 1 of `demoTwo` prefers Auto; with an emission that asks for
Queued on a signal whose default is Direct, its handler is posted. -/
theorem dispatch_mode_resolution_witness :
    ((demoTwo.subs 1).handler = some nullaryFunction ∧
      specEffectiveMode (demoTwo.subs 1).threadingModel MetaCallType.Queued
        MetaCallType.Direct ≠ MetaCallType.Direct ∧ demoTwo.eventLoop = some []) ∧
    SignalSubscriber.call 1 7 1 [] (resolveCallType MetaCallType.Queued MetaCallType.Direct)
        demoTwo []
      = Res.ok () { demoTwo with eventLoop := some ([] ++ [{ params := [], sub := 1 }]) } [] :=
  ⟨⟨rfl, by decide, rfl⟩,
   (dispatch_mode_resolution 0 7 1 [] MetaCallType.Queued MetaCallType.Direct demoTwo []
     nullaryFunction rfl).2.1 (by decide) [] rfl⟩


/-- C14: let an emission resolve to Direct on a signal whose map holds enabled
plain-handler subscribers, not of preference Queued, whose handlers end at once or
first connect a plain handler (to this or another signal) that ends at once.  The
emission returns having called exactly the entries of the map as it was when the
emission started, once each and in order; every entry the map has gained meanwhile is
a freshly allocated subscriber, which this emission has not called; and the next
emission calls exactly the entries of the map as the first one left it, the gained
ones included. -/
theorem emission_dispatches_to_snapshot (n : Nat) (tid : ThreadId) (sig : SigPtr)
    (pp : PrivPtr) (params : GenericFunctionParameters) (callType : MetaCallType)
    (w : World) (env : List EnvStep)
    (hp : (w.signals sig)._p = some pp) (halloc : pp < w.nextPriv)
    (hmode : resolveCallType callType (w.privs pp).defaultCallType = MetaCallType.Direct)
    (hsubs : ∀ e ∈ (w.privs pp).subscriberMap, connectingSubscriber params w e.2) :
    ∃ w1, SignalBase.callSubscribers (n + 2) tid sig params callType w env
        = Res.ok () w1 env ∧
      handlerCalls w1.trace = handlerCalls w.trace ++
        (w.privs pp).subscriberMap.map (fun e => (e.2, tid, params)) ∧
      (∀ e ∈ (w1.privs pp).subscriberMap, e ∉ (w.privs pp).subscriberMap →
        w.nextSub ≤ e.2 ∧
        (e.2, tid, params) ∉ (w.privs pp).subscriberMap.map (fun e => (e.2, tid, params))) ∧
      ∃ w2, SignalBase.callSubscribers (n + 2) tid sig params callType w1 env
          = Res.ok () w2 env ∧
        handlerCalls w2.trace = handlerCalls w1.trace ++
          (w1.privs pp).subscriberMap.map (fun e => (e.2, tid, params)) := by
  have hsig : connectingSignal params sig pp w := ⟨hp, halloc, hsubs⟩
  obtain ⟨w1, hrun1, htr1, hsig1, _, hd1, hm1⟩ :=
    callEach_connecting n tid sig pp params env _ w hsig hsubs
  obtain ⟨w2, hrun2, htr2, _, _, _, _⟩ :=
    callEach_connecting n tid sig pp params env _ w1 hsig1 hsig1.2.2
  have hmode' : (if callType = MetaCallType.Auto then (w.privs pp).defaultCallType
      else callType) = MetaCallType.Direct := hmode
  refine ⟨w1, ?_, htr1, ?_, w2, ?_, htr2⟩
  · simp only [SignalBase.callSubscribers, SignalBase.callSubscribersWith, hp, hmode']
    exact hrun1
  · intro e he hnew
    have hge : w.nextSub ≤ e.2 := by
      rcases hm1 e he with h1 | h1
      · exact absurd h1 hnew
      · exact h1
    refine ⟨hge, ?_⟩
    intro hmem
    obtain ⟨e', he', heq⟩ := List.mem_map.mp hmem
    have hlt : e'.2 < w.nextSub := (hsubs e' he').1
    have heq2 : e'.2 = e.2 := congrArg Prod.fst heq
    rw [heq2] at hlt
    exact absurd hlt (Nat.not_lt.mpr hge)
  · simp only [SignalBase.callSubscribers, SignalBase.callSubscribersWith, hsig1.1, hd1,
      hmode']
    exact hrun2

/-- C14 witness: in `demoConnecting` the handler of link 2 connects a new handler to
signal 0.  The first emission calls subscriber 0 only and leaves the new subscriber 1
in the map under link 3; the second emission calls subscribers 0 and 1. -/
theorem emission_dispatches_to_snapshot_witness :
    ((demoConnecting.signals 0)._p = some 0 ∧ 0 < demoConnecting.nextPriv ∧
      resolveCallType MetaCallType.Direct (demoConnecting.privs 0).defaultCallType
        = MetaCallType.Direct ∧
      (demoConnecting.privs 0).subscriberMap = [(2, 0)]) ∧
    ∃ w1 w2, SignalBase.callSubscribers 2 1 0 [] MetaCallType.Direct demoConnecting []
        = Res.ok () w1 [] ∧
      handlerCalls w1.trace = [(0, 1, [])] ∧
      (w1.privs 0).subscriberMap = [(2, 0), (3, 1)] ∧
      SignalBase.callSubscribers 2 1 0 [] MetaCallType.Direct w1 [] = Res.ok () w2 [] ∧
      handlerCalls w2.trace = [(0, 1, []), (0, 1, []), (1, 1, [])] := by
  refine ⟨⟨by decide, by decide, by decide, by decide⟩, ?_⟩
  obtain ⟨w1, h1, h2, _, w2, h4, h5⟩ := emission_dispatches_to_snapshot 0 1 0 0 []
    MetaCallType.Direct demoConnecting [] (by decide) (by decide) (by decide)
    (by
      intro e he
      have he' : e = (2, 0) := by
        have : e ∈ [((2 : SignalLink), (0 : SubPtr))] := he
        simpa using this
      subst he'
      exact ⟨by decide, connectingFunction, rfl,
        ⟨by decide, fun h => Outcome.noConfusion h, fun _ h => Outcome.noConfusion h⟩,
        rfl, by decide⟩)
  have hw1 : Res.ok () w1 [] = SignalBase.callSubscribers 2 1 0 [] MetaCallType.Direct
      demoConnecting [] := h1.symm
  have hmap : (w1.privs 0).subscriberMap = [(2, 0), (3, 1)] := by
    have : (Res.world? (Res.ok () w1 ([] : List EnvStep))).map
        (fun w => (w.privs 0).subscriberMap) = some [(2, 0), (3, 1)] := by
      rw [hw1]; decide
    simpa [Res.world?] using this
  refine ⟨w1, w2, h1, ?_, hmap, h4, ?_⟩
  · rw [h2]; decide
  · rw [h5, h2, hmap]; decide

/-- C15: the inline call of a plain handler, whatever the handler does (return,
target-expired fault, standard exception, any other exception), never lets an
exception escape: it returns, and the loop of the emission goes on with the remaining
subscribers from the state it returned in; the only other possibility is that, after a
target-expired fault, it waits in the disconnect of the own link.  When no handler is
executing anywhere, it returns without waiting. -/
theorem direct_call_never_raises (n : Nat) (tid : ThreadId) (s : SubPtr)
    (args : GenericFunctionParameters) (callType : MetaCallType) (w : World)
    (env : List EnvStep) (h : AnyFunction) (o : Outcome)
    (hh : (w.subs s).handler = some h) (hbody : h.body args = Handler.done o)
    (hdirect : (w.subs s).threadingModel = MetaCallType.Direct ∨
      ((w.subs s).threadingModel = MetaCallType.Auto ∧ callType = MetaCallType.Direct)) :
    ((∃ w1 env1, SignalSubscriber.call (n + 1) tid s args callType w env = Res.ok () w1 env1 ∧
        ∀ k rest, callEachWith (runHandler (n + 1)) tid args callType ((k, s) :: rest) w env
          = callEachWith (runHandler (n + 1)) tid args callType rest w1 env1) ∨
      (o = Outcome.pointerLockException ∧
        ∃ wb, SignalSubscriber.call (n + 1) tid s args callType w env = Res.blocked wb)) ∧
    ((∀ p, (w.subs p).activeThreads = []) →
      ∃ w1, SignalSubscriber.call (n + 1) tid s args callType w env = Res.ok () w1 env) := by
  have hasync : (if (w.subs s).threadingModel ≠ MetaCallType.Auto then
        decide ((w.subs s).threadingModel = MetaCallType.Queued)
      else if callType ≠ MetaCallType.Auto then decide (callType = MetaCallType.Queued)
      else true) = false := by
    rcases hdirect with hm | ⟨hm, hc⟩
    · rw [hm]; simp
    · rw [hm, hc]; decide
  have hcont : ∀ w1 env1,
      SignalSubscriber.call (n + 1) tid s args callType w env = Res.ok () w1 env1 →
      ∀ k rest, callEachWith (runHandler (n + 1)) tid args callType ((k, s) :: rest) w env
        = callEachWith (runHandler (n + 1)) tid args callType rest w1 env1 := by
    intro w1 env1 hc k rest
    unfold SignalSubscriber.call at hc
    simp only [callEachWith, hc, Res.andThen]
  have hform : SignalSubscriber.call (n + 1) tid s args callType w env
      = if (w.subs s).enabled = true then
          (if o = Outcome.pointerLockException then
            (SignalBase.disconnect tid
              ((SignalSubscriber.removeActive s tid ((SignalSubscriber.addActive s tid w).log
                (Event.handlerCall s tid args))).subs s).source
              ((SignalSubscriber.removeActive s tid ((SignalSubscriber.addActive s tid w).log
                (Event.handlerCall s tid args))).subs s).linkId
              (SignalSubscriber.removeActive s tid ((SignalSubscriber.addActive s tid w).log
                (Event.handlerCall s tid args))) env).andThen
              fun _ w4 env4 => Res.ok () w4 env4
          else Res.ok () (SignalSubscriber.removeActive s tid
            ((SignalSubscriber.addActive s tid w).log (Event.handlerCall s tid args))) env)
        else Res.ok () w env := by
    unfold SignalSubscriber.call SignalSubscriber.callWith
    simp only [hh, hasync, hbody, runHandler, Bool.false_eq_true, if_false]
    cases (w.subs s).enabled <;> simp
  refine ⟨?_, ?_⟩
  · by_cases hen : (w.subs s).enabled = true
    · by_cases ho : o = Outcome.pointerLockException
      · rcases disconnect_ok_or_blocked tid
          ((SignalSubscriber.removeActive s tid ((SignalSubscriber.addActive s tid w).log
            (Event.handlerCall s tid args))).subs s).source
          ((SignalSubscriber.removeActive s tid ((SignalSubscriber.addActive s tid w).log
            (Event.handlerCall s tid args))).subs s).linkId
          (SignalSubscriber.removeActive s tid ((SignalSubscriber.addActive s tid w).log
            (Event.handlerCall s tid args))) env with ⟨b, w', env', hd⟩ | ⟨wb, hd⟩
        · have hc : SignalSubscriber.call (n + 1) tid s args callType w env
              = Res.ok () w' env' := by
            rw [hform, if_pos hen, if_pos ho, hd]; rfl
          exact Or.inl ⟨w', env', hc, hcont w' env' hc⟩
        · have hc : SignalSubscriber.call (n + 1) tid s args callType w env
              = Res.blocked wb := by
            rw [hform, if_pos hen, if_pos ho, hd]; rfl
          exact Or.inr ⟨ho, wb, hc⟩
      · have hc := hform
        rw [if_pos hen, if_neg ho] at hc
        exact Or.inl ⟨_, _, hc, hcont _ _ hc⟩
    · have hc := hform
      rw [if_neg hen] at hc
      exact Or.inl ⟨_, _, hc, hcont _ _ hc⟩
  · intro hquiet
    rw [hform]
    by_cases hen : (w.subs s).enabled = true
    · rw [if_pos hen]
      by_cases ho : o = Outcome.pointerLockException
      · rw [if_pos ho, removeActive_addActive_log s tid w _ (hquiet s)]
        simp only [World.log_subs, SignalBase.disconnect, World.log_signals]
        cases hp : (w.signals (w.subs s).source)._p with
        | none => exact ⟨_, rfl⟩
        | some pp =>
          simp only
          cases hf : mapFind (w.privs pp).subscriberMap (w.subs s).linkId with
          | none =>
            refine ⟨w.log (Event.handlerCall s tid args), ?_⟩
            simp [SignalBasePrivate.disconnect, hf, Res.andThen]
          | some s2 =>
            rw [privDisconnect_idle tid pp _ s2 _ env (by simpa using hf)
              (by simpa using hquiet s2)]
            exact ⟨_, rfl⟩
      · rw [if_neg ho]
        exact ⟨_, rfl⟩
    · rw [if_neg hen]
      exact ⟨_, rfl⟩

/-- C15 witness: subscriber 0 of `demoTwo`, whose handler raises the target-expired
fault, called inline while nothing else is in execution. -/
theorem direct_call_never_raises_witness :
    ((demoTwo.subs 0).handler = some expiredFunction ∧
      expiredFunction.body [] = Handler.done Outcome.pointerLockException ∧
      (demoTwo.subs 0).threadingModel = MetaCallType.Direct ∧
      ∀ p, (demoTwo.subs p).activeThreads = []) ∧
    ∃ w1, SignalSubscriber.call 1 7 0 [] MetaCallType.Queued demoTwo [] = Res.ok () w1 [] := by
  have hquiet : ∀ p, (demoTwo.subs p).activeThreads = [] := by
    intro p
    show ((Function.update (Function.update _ 0 _) 1 _ : SubPtr → SignalSubscriber) p).activeThreads = []
    by_cases h1 : p = 1
    · subst h1; rfl
    · rw [Function.update_noteq h1]
      by_cases h0 : p = 0
      · subst h0; rfl
      · rw [Function.update_noteq h0]; rfl
  exact ⟨⟨rfl, rfl, rfl, hquiet⟩,
    (direct_call_never_raises 0 7 0 [] MetaCallType.Queued demoTwo [] expiredFunction
      Outcome.pointerLockException rfl rfl (Or.inl rfl)).2 hquiet⟩

/-- C16: destroying a signal whose subscribers are not executing returns; afterwards
the object has no private state, the map of the private state it had is empty, every
subscriber that was in the map is disabled, and the other subscribers are as before. -/
theorem destroy_disconnects_all (tid : ThreadId) (sig : SigPtr) (pp : PrivPtr) (w : World)
    (env : List EnvStep)
    (hp : (w.signals sig)._p = some pp)
    (hidle : ∀ e ∈ (w.privs pp).subscriberMap, (w.subs e.2).activeThreads = []) :
    ∃ w', SignalBase.destroy tid sig w env = Res.ok () w' env ∧
      (w'.signals sig)._p = none ∧
      (w'.privs pp).subscriberMap = [] ∧
      (∀ e ∈ (w.privs pp).subscriberMap, (w'.subs e.2).enabled = false) ∧
      (∀ p, (∀ e ∈ (w.privs pp).subscriberMap, e.2 ≠ p) → w'.subs p = w.subs p) := by
  unfold SignalBase.destroy
  simp only [hp]
  obtain ⟨w', hrun, hempty, hdis, hframe, hsig, _⟩ := disconnectEach_all tid pp env
    (w.privs pp).subscriberMap
    { w.setPriv pp { w.privs pp with onSubscribers := none } with
      signals := Function.update
        (w.setPriv pp { w.privs pp with onSubscribers := none }).signals sig { _p := none } }
    (by simp) (by simpa using hidle)
  refine ⟨w', ?_, ?_, hempty, ?_, ?_⟩
  · simpa using hrun
  · rw [hsig]; simp
  · simpa using hdis
  · simpa using hframe

/-- C16 witness: destroying signal 0 of `demoTwo`. -/
theorem destroy_disconnects_all_witness :
    ((demoTwo.signals 0)._p = some 0 ∧
      ∀ e ∈ (demoTwo.privs 0).subscriberMap, (demoTwo.subs e.2).activeThreads = []) ∧
    ∃ w', SignalBase.destroy 1 0 demoTwo [] = Res.ok () w' [] ∧
      (w'.privs 0).subscriberMap = [] ∧
      (w'.subs 0).enabled = false ∧ (w'.subs 1).enabled = false := by
  have hidle : ∀ e ∈ (demoTwo.privs 0).subscriberMap,
      (demoTwo.subs e.2).activeThreads = [] := by decide
  obtain ⟨w', h1, _, h3, h4, _⟩ := destroy_disconnects_all 1 0 0 demoTwo [] (by decide) hidle
  exact ⟨⟨by decide, hidle⟩, w', h1, h3, h4 (2, 0) (by decide), h4 (3, 1) (by decide)⟩

/-- C17: for every value type and value `x`, the future of a fresh promise is not
ready.  Once the promise has been given `x` in a heap where its cell is allocated and
still Pending, every future on that cell is ready and has the value `x`, and so has
every handle obtained from the future of the promise by a chain of conversions. -/
theorem promise_setValue_makes_ready {T : Type} (x : T) (h0 h : FutureHeap T)
    (halloc : (Promise.new h0).1._f._p < h.nextCell)
    (hpending : (h.cells (Promise.new h0).1._f._p).state = CellState.pending) :
    Future.isReady (Promise.future (Promise.new h0).1) (Promise.new h0).2 = false ∧
    ∃ h2, Promise.setValue (Promise.new h0).1 x h = some h2 ∧
      (∀ f : Future, f._p = (Promise.new h0).1._f._p →
        Future.isReady f h2 = true ∧ Future.value f h2 = some x) ∧
      ∀ ds y h3, deriveHandle ds (Handle.future (Promise.future (Promise.new h0).1)) h2
          = some (y, h3) →
        Future.isReady { _p := y.cell } h3 = true ∧
        Future.value { _p := y.cell } h3 = some x := by
  refine ⟨?_, ?_⟩
  · simp [Future.isReady, Promise.future, Future.copy, Promise.new, Future.new,
      FutureState.isReady, FutureState.fresh]
  · have hset : (h.cells (Promise.new h0).1._f._p).setValue x
        = some { h.cells (Promise.new h0).1._f._p with
            state := CellState.finishedWithValue x } := by
      simp [FutureState.setValue, hpending]
    have hcell : ∀ f : Future, f._p = (Promise.new h0).1._f._p →
        ∀ h2 : FutureHeap T, h2.cells (Promise.new h0).1._f._p
          = { h.cells (Promise.new h0).1._f._p with state := CellState.finishedWithValue x } →
        Future.isReady f h2 = true ∧ Future.value f h2 = some x := by
      intro f hf h2 hc
      simp [Future.isReady, Future.value, hf, hc, FutureState.isReady, FutureState.value]
    have hsome : ∃ h2, Promise.setValue (Promise.new h0).1 x h = some h2 ∧
        h2.cells (Promise.new h0).1._f._p
          = { h.cells (Promise.new h0).1._f._p with state := CellState.finishedWithValue x } ∧
        h2.nextCell = h.nextCell := by
      simp only [Promise.setValue, hset]
      exact ⟨_, rfl, by simp, rfl⟩
    obtain ⟨h2, e1, e2, e3⟩ := hsome
    refine ⟨h2, e1, fun f hf => hcell f hf h2 e2, ?_⟩
    intro ds y h3 hd
    obtain ⟨d1, _, d3⟩ := deriveHandle_cell ds _ _ y h3 hd
    have hy : y.cell = (Promise.new h0).1._f._p := d1
    apply hcell { _p := y.cell } hy h3
    rw [d3 _ (e3 ▸ halloc)]
    exact e2

/-- C17 witness: the promise `demoPromise` given the value 42. -/
theorem promise_setValue_makes_ready_witness :
    ((Promise.new (FutureHeap.empty Nat)).1._f._p < demoPromise.2.nextCell ∧
      (demoPromise.2.cells (Promise.new (FutureHeap.empty Nat)).1._f._p).state
        = CellState.pending) ∧
    Future.isReady (Promise.future demoPromise.1) demoPromise.2 = false ∧
    ∃ h2, Promise.setValue demoPromise.1 42 demoPromise.2 = some h2 ∧
      Future.isReady (Promise.future demoPromise.1) h2 = true ∧
      Future.value (Promise.future demoPromise.1) h2 = some 42 := by
  obtain ⟨h1, h2, h3, h4, _⟩ := promise_setValue_makes_ready (42 : Nat)
    (FutureHeap.empty Nat) demoPromise.2 (by decide) (by decide)
  exact ⟨⟨by decide, by decide⟩, h1, h2, h3, h4 _ rfl⟩

/-- C18: every handle obtained from the future of a promise by a chain of copies and
conversions (to future-sync and back, `sync()`, `async()`) refers to the cell of the
promise; a default-constructed future or promise refers to the cell allocated for it,
which is Pending and differs from every cell allocated before, so from the cell of
every existing handle. -/
theorem handles_share_the_cell {T : Type} :
    (∀ (p : Promise) (ds : List Conversion) (h : FutureHeap T) (y : Handle)
      (h' : FutureHeap T),
      deriveHandle ds (Handle.future (Promise.future p)) h = some (y, h') →
      y.cell = p._f._p) ∧
    (∀ (h : FutureHeap T),
      (Future.new h).1._p = h.nextCell ∧ (Future.new h).2.nextCell = h.nextCell + 1 ∧
      (Future.new h).2.cells (Future.new h).1._p = FutureState.fresh T ∧
      ∀ c, c < h.nextCell → c ≠ (Future.new h).1._p ∧ (Future.new h).2.cells c = h.cells c) ∧
    (∀ (h : FutureHeap T),
      (Promise.new h).1._f._p = h.nextCell ∧ (Promise.new h).2.nextCell = h.nextCell + 1 ∧
      (Promise.new h).2.cells (Promise.new h).1._f._p = FutureState.fresh T ∧
      ∀ c, c < h.nextCell →
        c ≠ (Promise.new h).1._f._p ∧ (Promise.new h).2.cells c = h.cells c) := by
  have hnew : ∀ (h : FutureHeap T),
      (Future.new h).1._p = h.nextCell ∧ (Future.new h).2.nextCell = h.nextCell + 1 ∧
      (Future.new h).2.cells (Future.new h).1._p = FutureState.fresh T ∧
      ∀ c, c < h.nextCell →
        c ≠ (Future.new h).1._p ∧ (Future.new h).2.cells c = h.cells c := by
    intro h
    refine ⟨rfl, rfl, by simp [Future.new], ?_⟩
    intro c hc
    exact ⟨Nat.ne_of_lt hc, by simp [Future.new, Function.update_noteq (Nat.ne_of_lt hc)]⟩
  refine ⟨?_, hnew, hnew⟩
  intro p ds h y h' hd
  exact (deriveHandle_cell ds _ h y h' hd).1

/-- C18 witness: from the future of `demoPromise`, `sync()`, a copy of the future-sync,
`async()` and a copy of the future lead to a future on cell 0, the cell of the
promise. -/
theorem handles_share_the_cell_witness :
    (deriveHandle [Conversion.sync, Conversion.copySync, Conversion.async,
        Conversion.copyFuture] (Handle.future (Promise.future demoPromise.1))
        demoPromise.2).map (fun r => r.1) = some (Handle.future { _p := 0 }) ∧
    demoPromise.1._f._p = 0 ∧
    ∀ y h', deriveHandle [Conversion.sync, Conversion.copySync, Conversion.async,
        Conversion.copyFuture] (Handle.future (Promise.future demoPromise.1))
        demoPromise.2 = some (y, h') → y.cell = demoPromise.1._f._p :=
  ⟨by decide, by decide,
    fun y h' hd => handles_share_the_cell.1 demoPromise.1 _ demoPromise.2 y h' hd⟩

/-- C19: whatever the flag of a future-sync and the state of its cell, `async()`
returns a future on the same cell and leaves the object on that cell with the flag
cleared; destroying the object afterwards returns the heap as it is: no wait is
issued and no time passes. -/
theorem async_releases_the_wait {T : Type} (s : FutureSync) (h : FutureHeap T)
    (producer : Option (Nat × T)) :
    (FutureSync.async s).1._p = s._p ∧
    (FutureSync.async s).2._p = s._p ∧
    (FutureSync.async s).2._sync = false ∧
    FutureSync.destroy (FutureSync.async s).2 h producer = h := by
  refine ⟨rfl, rfl, rfl, ?_⟩
  simp [FutureSync.destroy, FutureSync.async, Future.ofFutureSync, Future.assignSync]

/-- C20, as stated, fails on `demoSync`: its flag is set and its cell is Pending with
nobody to complete it; the destructor issues `wait(30000)` and returns once 30000
milliseconds have passed, the cell still Pending. -/
theorem destroy_wait_counterexample :
    demoSync.1._sync = true ∧
    Future.isReady { _p := demoSync.1._p } demoSync.2 = false ∧
    (FutureSync.destroy demoSync.1 demoSync.2 none).waits = [(demoSync.1._p, 30000)] ∧
    (FutureSync.destroy demoSync.1 demoSync.2 none).now = demoSync.2.now + 30000 ∧
    Future.isReady { _p := demoSync.1._p }
      (FutureSync.destroy demoSync.1 demoSync.2 none) = false := by
  decide

/-- C20, amended: destroying a future-sync whose flag is set issues exactly one wait on
its cell, with the default timeout of 30000 milliseconds.  The destructor returns at
the latest after 30000 milliseconds; it returns either with the cell finished or when
the timeout has elapsed, and when nobody completes the Pending cell within the timeout
it returns after 30000 milliseconds with the cell still Pending. -/
theorem destroy_waits_with_default_timeout {T : Type} (s : FutureSync) (h : FutureHeap T)
    (producer : Option (Nat × T)) (hsync : s._sync = true) :
    (FutureSync.destroy s h producer).waits = h.waits ++ [(s._p, 30000)] ∧
    (FutureSync.destroy s h producer).now ≤ h.now + 30000 ∧
    (Future.isReady { _p := s._p } (FutureSync.destroy s h producer) = true ∨
      (FutureSync.destroy s h producer).now = h.now + 30000) ∧
    (Future.isReady { _p := s._p } h = false →
      (∀ d v, producer = some (d, v) → 30000 < d) →
      Future.isReady { _p := s._p } (FutureSync.destroy s h producer) = false ∧
      (FutureSync.destroy s h producer).now = h.now + 30000) := by
  simp only [FutureSync.destroy, hsync, if_true, Future.wait, FutureHeap.wait,
    Future.defaultWaitMsecs, Future.isReady]
  cases hr : (h.cells s._p).isReady with
  | true =>
    simp [hr]
  | false =>
    cases producer with
    | none => simp [hr]
    | some dv =>
      obtain ⟨d, v⟩ := dv
      by_cases hd : d ≤ 30000
      · simp only [hd, if_true, Bool.false_eq_true, if_false]
        refine ⟨trivial, by simpa using hd, Or.inl (by simp [FutureState.isReady]), ?_⟩
        intro _ hlate
        have := hlate d v rfl
        omega
      · simp [hd, hr]

/-- C20 witness: `demoSync` destroyed while another thread completes the cell after 10
milliseconds. -/
theorem destroy_waits_with_default_timeout_witness :
    demoSync.1._sync = true ∧
    (FutureSync.destroy demoSync.1 demoSync.2 (some (10, 7))).waits
      = demoSync.2.waits ++ [(demoSync.1._p, 30000)] ∧
    (FutureSync.destroy demoSync.1 demoSync.2 (some (10, 7))).now
      ≤ demoSync.2.now + 30000 :=
  ⟨by decide,
   (destroy_waits_with_default_timeout demoSync.1 demoSync.2 (some (10, 7)) (by decide)).1,
   (destroy_waits_with_default_timeout demoSync.1 demoSync.2 (some (10, 7)) (by decide)).2.1⟩

/-- C21: for every mutex type for which `scopelock` is defined and every mutex `m` of
that type held by nobody, `scopelock(m)` on thread `tid` returns a lock that tests
true; while the lock is alive `m` is held by `tid`, every other thread finds it locked
and no sequence of such attempts changes it; the destructor of the lock returns and
leaves `m` free again, as every thread then finds.  Outside Android the types with
`scopelock` are the nine named in the claim. -/
theorem scopelock_holds_until_destroyed (android : Bool) (tid : ThreadId) (m : Mutex)
    (henable : IsMutex android m.kind = true) (hfree : m.isFree = true) :
    (∀ k ∈ [MutexType.stdMutex, MutexType.stdRecursiveMutex, MutexType.stdTimedMutex,
        MutexType.stdRecursiveTimedMutex, MutexType.boostMutex,
        MutexType.boostRecursiveMutex, MutexType.boostTimedMutex,
        MutexType.boostRecursiveTimedMutex, MutexType.boostSharedMutex],
      IsMutex false k = true) ∧
    (∀ other, (is_locked other m).1 = false) ∧
    ∃ l m1, scopelock android tid m henable = some (l, m1) ∧
      l.toBool = true ∧
      m1.owner = some tid ∧
      (∀ other, other ≠ tid → is_locked other m1 = (true, m1)) ∧
      (∀ others : List ThreadId, (∀ o ∈ others, o ≠ tid) → probeAll others m1 = m1) ∧
      ∃ m2, l.destroy tid m1 = some m2 ∧ m2.isFree = true ∧
        m2.kind = m.kind ∧ ∀ other, (is_locked other m2).1 = false := by
  have hfree' := hfree
  simp only [Mutex.isFree, Bool.and_eq_true] at hfree'
  obtain ⟨hown, hread⟩ := hfree'
  refine ⟨by decide, ?_, ?_⟩
  · intro other
    simp [is_locked, UniqueLock.tryToLock, Mutex.try_lock, hfree, UniqueLock.toBool]
  · have hprobe : ∀ other, other ≠ tid →
        is_locked other { m with owner := some tid, depth := 1 }
          = (true, { m with owner := some tid, depth := 1 }) := by
      intro other ho
      have hne : ¬ (tid = other) := fun h => ho h.symm
      simp [is_locked, UniqueLock.tryToLock, Mutex.try_lock, Mutex.isFree,
        UniqueLock.toBool, UniqueLock.destroy, hne]
    refine ⟨{ owns := true }, { m with owner := some tid, depth := 1 }, ?_, rfl, rfl,
      hprobe, ?_, ?_⟩
    · simp [scopelock, UniqueLock.ofMutex, Mutex.lock, Mutex.try_lock, hfree]
    · intro others
      induction others with
      | nil => intro _; rfl
      | cons o rest ih =>
        intro ho
        simp only [probeAll]
        rw [hprobe o (ho o (List.mem_cons_self _ _))]
        exact ih (fun x hx => ho x (List.mem_cons_of_mem _ hx))
    · refine ⟨{ m with owner := none, depth := 0 }, ?_, ?_, rfl, ?_⟩
      · simp [UniqueLock.destroy, Mutex.unlock]
      · simpa [Mutex.isFree] using hread
      · intro other
        have hf : Mutex.isFree { m with owner := none, depth := 0 } = true := by
          simpa [Mutex.isFree] using hread
        simp [is_locked, UniqueLock.tryToLock, Mutex.try_lock, hf, UniqueLock.toBool]

/-- C21 witness: a `boost::shared_mutex` held by nobody, locked on thread 1. -/
theorem scopelock_holds_until_destroyed_witness :
    (IsMutex false (Mutex.new MutexType.boostSharedMutex).kind = true ∧
      (Mutex.new MutexType.boostSharedMutex).isFree = true) ∧
    ∃ l m1, scopelock false 1 (Mutex.new MutexType.boostSharedMutex) (by decide)
        = some (l, m1) ∧
      l.toBool = true ∧ is_locked 2 m1 = (true, m1) ∧
      ∃ m2, l.destroy 1 m1 = some m2 ∧ (is_locked 2 m2).1 = false := by
  obtain ⟨_, _, l, m1, h1, h2, _, h4, _, m2, h6, _, _, h9⟩ :=
    scopelock_holds_until_destroyed false 1 (Mutex.new MutexType.boostSharedMutex)
      (by decide) (by decide)
  exact ⟨⟨by decide, by decide⟩, l, m1, h1, h2, h4 2 (by decide), m2, h6, h9 2⟩

/-- C22 (code defect): `removeActive(1)` on the vector `[1, 1, 2]` leaves `[2]`: both
entries of thread 1 are gone, where the claim removes exactly one.  The vector arises
in `demoCrowded`, where thread 1 is in the handler of subscriber 0 twice and thread 2
once: when the nested invocation on thread 1 leaves, one entry remains for two
executions in flight.  Likewise `addActive(1)` followed by `removeActive(1)` turns
`[1, 1]` into `[1]`. -/
theorem removeActive_removes_two_entries :
    removeActiveList 1 [1, 1, 2] = [2] ∧
    (removeActiveList 1 [1, 1, 2]).count 1 + 1 ≠ [1, 1, 2].count 1 ∧
    removeActiveList 1 (addActiveList 1 [1, 1]) = [1] ∧
    (demoNested.subs 0).activeThreads = [1, 1] ∧
    (demoCrowded.subs 0).activeThreads = [1, 1, 2] ∧
    ((SignalSubscriber.removeActive 0 1 demoCrowded).subs 0).activeThreads = [2] := by
  decide

/-- C23: let the subscriber `s` be registered under its own link in the map of its
source signal, or be out of that map and disabled (an entry of a snapshot that has
been disconnected since).  If `s` is an enabled plain handler called inline and the
handler raises the target-expired fault, or `s` is an object with method whose weak
target does not resolve, then whenever `SignalSubscriber::call` returns the link is
out of the map and `s` is disabled, and the call does return when `s` is not executing
elsewhere.  After any other outcome of the handler the call returns with every map as
it was, `s` still registered and enabled. -/
theorem inline_expiry_disconnects (n : Nat) (tid : ThreadId) (sig : SigPtr) (pp : PrivPtr)
    (s : SubPtr) (args : GenericFunctionParameters) (callType : MetaCallType) (w : World)
    (env : List EnvStep)
    (hsrc : (w.subs s).source = sig) (hp : (w.signals sig)._p = some pp)
    (hreg : mapFind (w.privs pp).subscriberMap (w.subs s).linkId = some s ∨
      (mapFind (w.privs pp).subscriberMap (w.subs s).linkId = none ∧
        (w.subs s).enabled = false))
    (hsorted : mapSorted (w.privs pp).subscriberMap) :
    (∀ h o, (w.subs s).handler = some h → h.body args = Handler.done o →
      (w.subs s).enabled = true →
      ((w.subs s).threadingModel = MetaCallType.Direct ∨
        ((w.subs s).threadingModel = MetaCallType.Auto ∧ callType = MetaCallType.Direct)) →
      (o = Outcome.pointerLockException →
        (∀ w' env', SignalSubscriber.call (n + 1) tid s args callType w env
            = Res.ok () w' env' →
          mapFind (w'.privs pp).subscriberMap (w.subs s).linkId = none ∧
          (w'.subs s).enabled = false ∧
          handlerCalls w'.trace = handlerCalls w.trace ++ [(s, tid, args)]) ∧
        ((w.subs s).activeThreads = [] →
          ∃ w', SignalSubscriber.call (n + 1) tid s args callType w env
            = Res.ok () w' env)) ∧
      (o ≠ Outcome.pointerLockException →
        ∃ w', SignalSubscriber.call (n + 1) tid s args callType w env = Res.ok () w' env ∧
          w'.privs = w.privs ∧
          mapFind (w'.privs pp).subscriberMap (w.subs s).linkId = some s ∧
          (w'.subs s).enabled = true ∧
          w'.trace = w.trace ++ [Event.handlerCall s tid args])) ∧
    (∀ obj, (w.subs s).handler = none → (w.subs s).target = some obj →
      w.alive obj = false →
      (∀ w' env', SignalSubscriber.call n tid s args callType w env = Res.ok () w' env' →
        mapFind (w'.privs pp).subscriberMap (w.subs s).linkId = none ∧
        (w'.subs s).enabled = false ∧ handlerCalls w'.trace = handlerCalls w.trace) ∧
      ((w.subs s).activeThreads = [] →
        ∃ w', SignalSubscriber.call n tid s args callType w env = Res.ok () w' env)) := by
  have hret : ∀ (x : World) (w' : World) (env' : List EnvStep),
      (x.signals sig)._p = some pp →
      mapFind (x.privs pp).subscriberMap (w.subs s).linkId = some s →
      mapSorted (x.privs pp).subscriberMap →
      (SignalBase.disconnect tid sig (w.subs s).linkId x env).andThen
          (fun _ w4 env4 => Res.ok () w4 env4) = Res.ok () w' env' →
      mapFind (w'.privs pp).subscriberMap (w.subs s).linkId = none ∧
      (w'.subs s).enabled = false ∧ handlerCalls w'.trace = handlerCalls x.trace := by
    intro x w' env' hxp hxf hxs hc
    cases hd : SignalBase.disconnect tid sig (w.subs s).linkId x env with
    | ok b w1 env1 =>
      rw [hd] at hc
      simp only [Res.andThen] at hc
      injection hc with _ hw he
      subst hw
      obtain ⟨_, _, h3, h4⟩ :=
        (disconnect_registered tid sig pp _ s x env hxp hxf hxs).1 b w1 env1 hd
      refine ⟨h3, h4, ?_⟩
      have ht := (disconnect_trace tid sig _ x env b w1 env1 hd).2
      rw [ht, handlerCalls_append]
      cases b <;> cases SignalBase.hook sig x <;> simp [handlerCalls]
      split <;> simp [handlerCalls]
    | threw w1 env1 => rw [hd] at hc; simp [Res.andThen] at hc
    | blocked w1 => rw [hd] at hc; simp [Res.andThen] at hc
    | outOfFuel => rw [hd] at hc; simp [Res.andThen] at hc
  refine ⟨?_, ?_⟩
  · intro h o hh hbody hen hdirect
    have hfind : mapFind (w.privs pp).subscriberMap (w.subs s).linkId = some s := by
      rcases hreg with hf | ⟨_, hdis⟩
      · exact hf
      · rw [hen] at hdis
        cases hdis
    have hform := call_inline_form n tid s args callType w env h o hh hbody hen hdirect
    rw [hsrc] at hform
    refine ⟨?_, ?_⟩
    · intro ho
      rw [if_pos ho] at hform
      refine ⟨?_, ?_⟩
      · intro w' env' hc
        rw [hform] at hc
        have hx := hret (SignalSubscriber.removeActive s tid
          ((SignalSubscriber.addActive s tid w).log (Event.handlerCall s tid args)))
          w' env' hp hfind hsorted hc
        refine ⟨hx.1, hx.2.1, ?_⟩
        rw [hx.2.2]
        simp [handlerCalls_append, handlerCalls]
      · intro hidle
        rw [hform, removeActive_addActive_log s tid w _ hidle,
          (disconnect_registered tid sig pp _ s (w.log _) env hp hfind hsorted).2 hidle]
        exact ⟨_, rfl⟩
    · intro ho
      rw [if_neg ho] at hform
      refine ⟨_, hform, rfl, hfind, ?_, rfl⟩
      rw [(removeActive_fields s tid _ s).2.1]
      simpa [(addActive_fields s tid w s).2.1] using hen
  · intro obj hh ht hdead
    have hform : SignalSubscriber.call n tid s args callType w env
        = (SignalBase.disconnect tid sig (w.subs s).linkId w env).andThen
            (fun _ w4 env4 => Res.ok () w4 env4) := by
      unfold SignalSubscriber.call SignalSubscriber.callWith
      simp only [hh, ht, hdead, hsrc, Bool.not_false, if_true]
    rcases hreg with hfind | ⟨hnone, hdis⟩
    · refine ⟨?_, ?_⟩
      · intro w' env' hc
        rw [hform] at hc
        exact hret w w' env' hp hfind hsorted hc
      · intro hidle
        rw [hform, (disconnect_registered tid sig pp _ s w env hp hfind hsorted).2 hidle]
        exact ⟨_, rfl⟩
    · have hd : SignalBase.disconnect tid sig (w.subs s).linkId w env = Res.ok false w env :=
        disconnect_not_found tid sig _ w env (by simpa [SignalBase.subscriberMap, hp] using hnone)
      rw [hform, hd]
      refine ⟨?_, fun _ => ⟨_, rfl⟩⟩
      intro w' env' hc
      simp only [Res.andThen] at hc
      injection hc with _ hw _
      subst hw
      exact ⟨hnone, hdis, rfl⟩

/-- C23 witness: subscriber 0 of `demoTwo`, a Direct handler that raises the
target-expired fault, registered under link 2 of signal 0. -/
theorem inline_expiry_disconnects_witness :
    ((demoTwo.subs 0).source = 0 ∧ (demoTwo.signals 0)._p = some 0 ∧
      mapFind (demoTwo.privs 0).subscriberMap (demoTwo.subs 0).linkId = some 0 ∧
      mapSorted (demoTwo.privs 0).subscriberMap) ∧
    ∃ w', SignalSubscriber.call 1 1 0 [] MetaCallType.Direct demoTwo [] = Res.ok () w' [] ∧
      mapFind (w'.privs 0).subscriberMap 2 = none ∧ (w'.subs 0).enabled = false := by
  have hw := inline_expiry_disconnects 0 1 0 0 0 [] MetaCallType.Direct demoTwo []
    rfl rfl (Or.inl rfl) (by decide)
  obtain ⟨h1, h2⟩ := (hw.1 expiredFunction Outcome.pointerLockException rfl rfl rfl
    (Or.inl rfl)).1 rfl
  obtain ⟨w', hc⟩ := h2 rfl
  exact ⟨⟨rfl, rfl, rfl, by decide⟩, w', hc, (h1 w' [] hc).1, (h1 w' [] hc).2.1⟩

/-- C24 (code defect): in `demoQueued` the subscriber of link 2 is enabled, prefers
Queued and its handler raises the target-expired fault.  The emission posts one task;
when the event loop runs it on thread 9 the handler is called, and afterwards link 2
is still in the map of signal 0 and the subscriber is still enabled.  The inline call
of the same handler in `demoTwo` does disconnect link 2. -/
theorem queued_expiry_keeps_the_link (n : Nat) (env : List EnvStep) :
    (SignalBase.subscriberMap 0 demoQueued = [(2, 0)] ∧
      (demoQueued.subs 0).enabled = true ∧
      SignalBase.trigger n 1 0 [] MetaCallType.Auto demoQueued env
        = Res.ok () demoPosted env) ∧
    (runNextTask (n + 1) 9 demoPosted env
        = FunctorCall.run (n + 1) 9 { params := [], sub := 0 } demoQueued env ∧
      (runNextTask (n + 1) 9 demoPosted env).map Res.returned = some true ∧
      ((runNextTask (n + 1) 9 demoPosted env).bind Res.world?).map
        (fun w => (SignalBase.subscriberMap 0 w, (w.subs 0).enabled, w.trace.drop 1,
          (w.subs 0).activeThreads))
        = some ([(2, 0)], true, [Event.handlerCall 0 9 []], [])) ∧
    (Res.world? (SignalBase.trigger (n + 1) 1 0 [] MetaCallType.Direct demoTwo env)).map
        (fun w => (mapFind (SignalBase.subscriberMap 0 w) 2, (w.subs 0).enabled))
      = some (none, false) :=
  ⟨⟨rfl, rfl, rfl⟩, ⟨rfl, rfl, rfl⟩, rfl⟩

/-- C25: a task that finds its subscriber disabled returns at once and leaves the
whole state, the vector of active threads included, as it is, without calling the
handler.  A task that finds it enabled calls the handler exactly once, whatever the
outcome of the handler (return or any exception), and returns; when the worker thread
was recorded at most once in the vector before, the state afterwards is the state
before with the one handler call added to the trace, so the vector is as the task
found it. -/
theorem task_checks_enabled_and_balances (n : Nat) (tid : ThreadId) (fc : FunctorCall)
    (w : World) (env : List EnvStep) :
    ((w.subs fc.sub).enabled = false →
      FunctorCall.run n tid fc w env = some (Res.ok () w env)) ∧
    (∀ h o, (w.subs fc.sub).enabled = true → (w.subs fc.sub).handler = some h →
      h.body fc.params = Handler.done o →
      ∃ w', FunctorCall.run (n + 1) tid fc w env = some (Res.ok () w' env) ∧
        w'.trace = w.trace ++ [Event.handlerCall fc.sub tid fc.params] ∧
        w'.privs = w.privs ∧
        (∀ p, p ≠ fc.sub → w'.subs p = w.subs p) ∧
        (w'.subs fc.sub).enabled = true ∧
        ((w.subs fc.sub).activeThreads.count tid ≤ 1 →
          w' = w.log (Event.handlerCall fc.sub tid fc.params) ∧
          (w'.subs fc.sub).activeThreads = (w.subs fc.sub).activeThreads)) := by
  refine ⟨?_, ?_⟩
  · intro hdis
    simp [FunctorCall.run, FunctorCall.runWith, hdis]
  · intro h o hen hh hbody
    refine ⟨SignalSubscriber.removeActive fc.sub tid
      ((SignalSubscriber.addActive fc.sub tid w).log
        (Event.handlerCall fc.sub tid fc.params)), ?_, rfl, rfl, ?_, ?_, ?_⟩
    · simp [FunctorCall.run, FunctorCall.runWith, hen, hh, hbody, runHandler]
    · intro p hp
      simp [SignalSubscriber.removeActive, SignalSubscriber.addActive, World.setSub,
        World.log, Function.update_noteq hp]
    · simp [SignalSubscriber.removeActive, SignalSubscriber.addActive, World.setSub,
        World.log, hen]
    · intro hcount
      rw [removeActive_addActive_log_count fc.sub tid w _ hcount]
      exact ⟨rfl, rfl⟩

/-- C25 witness: the task of `demoPosted` run on thread 9, and the same task run after
link 2 has been disconnected. -/
theorem task_checks_enabled_and_balances_witness :
    ((demoQueued.subs 0).enabled = true ∧ (demoQueued.subs 0).handler = some expiredFunction ∧
      (demoQueued.subs 0).activeThreads.count 9 ≤ 1) ∧
    (∃ w', FunctorCall.run 1 9 { params := [], sub := 0 } demoQueued [] = some (Res.ok () w' []) ∧
      handlerCalls w'.trace = [(0, 9, [])] ∧ (w'.subs 0).activeThreads = []) ∧
    ((SignalBasePrivate.detach 0 2 0 demoQueued).subs 0).enabled = false ∧
    FunctorCall.run 1 9 { params := [], sub := 0 } (SignalBasePrivate.detach 0 2 0 demoQueued) []
      = some (Res.ok () (SignalBasePrivate.detach 0 2 0 demoQueued) []) := by
  obtain ⟨w', h1, h2, _, _, _, h6⟩ :=
    (task_checks_enabled_and_balances 0 9 { params := [], sub := 0 } demoQueued []).2
      expiredFunction Outcome.pointerLockException rfl rfl rfl
  refine ⟨⟨rfl, rfl, by decide⟩, ⟨w', h1, ?_, ?_⟩, rfl, ?_⟩
  · rw [h2]; rfl
  · rw [(h6 (by decide)).2]; rfl
  · exact (task_checks_enabled_and_balances 1 9 { params := [], sub := 0 }
      (SignalBasePrivate.detach 0 2 0 demoQueued) []).1 rfl

/-- C26, as stated, fails on `demoPlainSync`, a default-constructed future-sync whose
flag is clear: its copy and the object assigned from it have the flag set, and the
destructor of the copy issues `wait(30000)` on the cell.  The same holds for the copy
of `demoSync` after `async()` has cleared its flag. -/
theorem copy_creates_wait_counterexample :
    demoPlainSync.1._sync = false ∧
    (FutureSync.copy demoPlainSync.1 demoPlainSync.2).1._sync = true ∧
    (FutureSync.assign demoPlainSync.1).1._sync = true ∧
    (FutureSync.destroy (FutureSync.copy demoPlainSync.1 demoPlainSync.2).1
        (FutureSync.copy demoPlainSync.1 demoPlainSync.2).2.2 none).waits
      = [(demoPlainSync.1._p, 30000)] ∧
    (FutureSync.async demoSync.1).2._sync = false ∧
    (FutureSync.copy (FutureSync.async demoSync.1).2 demoSync.2).1._sync = true := by
  decide

/-- C26, amended: after copy-constructing or assigning a future-sync from a distinct
source `s`, the flag of `s` is clear and the flag of the new or assigned object is
set, whatever flag `s` had before; both are on the cell of `s`.  So the destructor of
`s` returns without waiting, and the destructor of the copy issues the wait with the
default timeout, also when `s` was default-constructed or released by `async()`. -/
theorem copy_sets_the_flag {T : Type} (s : FutureSync) (h : FutureHeap T)
    (producer : Option (Nat × T)) :
    ((FutureSync.copy s h).1._sync = true ∧ (FutureSync.copy s h).2.1._sync = false ∧
      (FutureSync.copy s h).1._p = s._p ∧ (FutureSync.copy s h).2.1._p = s._p) ∧
    ((FutureSync.assign s).1._sync = true ∧ (FutureSync.assign s).2._sync = false ∧
      (FutureSync.assign s).1._p = s._p ∧ (FutureSync.assign s).2._p = s._p) ∧
    (FutureSync.destroy (FutureSync.copy s h).2.1 (FutureSync.copy s h).2.2 producer
        = (FutureSync.copy s h).2.2 ∧
      (FutureSync.destroy (FutureSync.copy s h).1 (FutureSync.copy s h).2.2 producer).waits
        = h.waits ++ [(s._p, 30000)]) ∧
    (FutureSync.destroy (FutureSync.assign s).2 h producer = h ∧
      (FutureSync.destroy (FutureSync.assign s).1 h producer).waits
        = h.waits ++ [(s._p, 30000)]) := by
  refine ⟨⟨rfl, rfl, rfl, rfl⟩, ⟨rfl, rfl, rfl, rfl⟩, ⟨?_, ?_⟩, ⟨?_, ?_⟩⟩
  · simp [FutureSync.destroy, FutureSync.copy, FutureSync.assign]
  · simp only [FutureSync.destroy, FutureSync.copy, FutureSync.assign, if_true, Future.wait,
      FutureHeap.wait, Future.defaultWaitMsecs, Future.new]
    split
    · rfl
    · cases producer with
      | none => rfl
      | some dv =>
        obtain ⟨d, v⟩ := dv
        simp only
        split <;> rfl
  · simp [FutureSync.destroy, FutureSync.assign]
  · simp only [FutureSync.destroy, FutureSync.assign, if_true, Future.wait,
      FutureHeap.wait, Future.defaultWaitMsecs]
    split
    · rfl
    · cases producer with
      | none => rfl
      | some dv =>
        obtain ⟨d, v⟩ := dv
        simp only
        split <;> rfl

/-- C27: on a signal whose default call type is Auto, with a live event loop, the
call type of an emission that asks for Auto resolves to Auto, and a plain-handler
subscriber of preference Auto is then posted: its call returns with exactly one task
for it appended to the queue of the event loop and nothing else changed, so the
handler has not run.  An emission over a map of such subscribers returns with one
task for each appended, in map order, the trace and all subscribers as before. -/
theorem all_auto_is_posted (n : Nat) (tid : ThreadId) (sig : SigPtr) (pp : PrivPtr)
    (params : GenericFunctionParameters) (w : World) (env : List EnvStep)
    (q : List FunctorCall)
    (hp : (w.signals sig)._p = some pp)
    (hdefault : (w.privs pp).defaultCallType = MetaCallType.Auto)
    (hloop : w.eventLoop = some q) :
    resolveCallType MetaCallType.Auto (w.privs pp).defaultCallType = MetaCallType.Auto ∧
    (∀ s h, (w.subs s).handler = some h →
      (w.subs s).threadingModel = MetaCallType.Auto →
      SignalSubscriber.call n tid s params
          (resolveCallType MetaCallType.Auto (w.privs pp).defaultCallType) w env
        = Res.ok () { w with eventLoop := some (q ++ [{ params := params, sub := s }]) }
            env) ∧
    ((∀ e ∈ (w.privs pp).subscriberMap, ∃ h, (w.subs e.2).handler = some h ∧
        (w.subs e.2).threadingModel = MetaCallType.Auto) →
      ∃ w', SignalBase.callSubscribers n tid sig params MetaCallType.Auto w env
          = Res.ok () w' env ∧
        w'.eventLoop = some (q ++ (w.privs pp).subscriberMap.map
          fun e => { params := params, sub := e.2 }) ∧
        w'.trace = w.trace ∧ w'.subs = w.subs ∧ w'.privs = w.privs) := by
  have hres : resolveCallType MetaCallType.Auto (w.privs pp).defaultCallType
      = MetaCallType.Auto := by
    simp [resolveCallType, hdefault]
  refine ⟨hres, ?_, ?_⟩
  · intro s h hh hm
    rw [hres]
    exact call_auto_posted (runHandler n) tid s params w env h q hh hm hloop
  · intro hall
    refine ⟨{ w with eventLoop := some (q ++ (w.privs pp).subscriberMap.map
      fun e => ⟨params, e.2⟩) }, ?_, rfl, rfl, rfl, rfl⟩
    unfold SignalBase.callSubscribers SignalBase.callSubscribersWith
    simp only [hp, hdefault, if_true]
    exact callEach_auto_posted (runHandler n) tid params env _ w q hloop hall

/-- C27 witness: the emission with Auto on `demoAuto`, whose only subscriber
(subscriber 0) prefers Auto. -/
theorem all_auto_is_posted_witness :
    ((demoAuto.signals 0)._p = some 0 ∧
      (demoAuto.privs 0).defaultCallType = MetaCallType.Auto ∧
      demoAuto.eventLoop = some []) ∧
    ∃ w', SignalBase.callSubscribers 0 1 0 [] MetaCallType.Auto demoAuto [] = Res.ok () w' [] ∧
      w'.eventLoop = some [{ params := [], sub := 0 }] ∧ w'.trace = demoAuto.trace := by
  obtain ⟨w', h1, h2, h3, _⟩ :=
    (all_auto_is_posted 0 1 0 0 [] demoAuto [] [] rfl rfl rfl).2.2 (by decide)
  exact ⟨⟨rfl, rfl, rfl⟩, w', h1, h2, h3⟩

/-- C28: start from newly constructed signals and let any sequence of `connect`,
`disconnect` and `disconnectAll` calls, on any of them, return.  Then the keys of every
subscriber map are distinct, and every entry `(k, s)` of the map of a signal satisfies
`s.linkId = k` and `s.source = ` that signal; `k` is the link id of a subscriber that a
successful `connect` of the sequence on that signal returned; the subscriber object
is in no other entry, of this map or of the map of another signal; and `s.enabled` is
true provided every subscriber passed to `connect` in the sequence was enabled. -/
theorem reachable_maps_are_linked (fuel : Nat) (calls : List SignalCall) (w0 : World)
    (env : List EnvStep) (links : List (SigPtr × SignalLink)) (w : World)
    (env' : List EnvStep)
    (hnew : w0.newlyConstructed)
    (hrun : runCalls fuel calls w0 env = Res.ok links w env') :
    ∀ sig pp, (w.signals sig)._p = some pp →
      mapSorted (w.privs pp).subscriberMap ∧
      ∀ e ∈ (w.privs pp).subscriberMap,
        (w.subs e.2).linkId = e.1 ∧ (w.subs e.2).source = sig ∧ (sig, e.1) ∈ links ∧
        (∀ sig' pp' e', (w.signals sig')._p = some pp' →
          e' ∈ (w.privs pp').subscriberMap → e'.2 = e.2 →
          sig' = sig ∧ pp' = pp ∧ e' = e) ∧
        ((∀ sig0 src, SignalCall.connect sig0 src ∈ calls → src.enabled = true) →
          (w.subs e.2).enabled = true) := by
  have hl := linked_runCalls
    (∀ sig0 src, SignalCall.connect sig0 src ∈ calls → src.enabled = true) fuel calls []
    w0 env links w env' (linked_of_newlyConstructed _ w0 hnew) (fun h => h) hrun
  rw [List.nil_append] at hl
  intro sig pp hp
  obtain ⟨hsorted, hent⟩ := hl.2 sig pp hp
  refine ⟨hsorted, ?_⟩
  intro e he
  obtain ⟨_, g2, g3, g4, g5⟩ := hent e he
  refine ⟨g2, g3, g4, ?_, g5⟩
  intro sig' pp' e' hp' he' hsame
  obtain ⟨_, k2, k3, _, _⟩ := (hl.2 sig' pp' hp').2 e' he'
  rw [hsame] at k2 k3
  have hsig : sig' = sig := k3.symm.trans g3
  subst hsig
  have hpp : pp' = pp := Option.some.inj (hp'.symm.trans hp)
  exact ⟨rfl, hpp, Prod.ext (k2.symm.trans g2) hsame⟩

/-- C28 witness: the calls `demoCalls` on `demoNullary` return the links 2 and 5 for
signal 0 and 3 and 4 for signal 1; afterwards the entry `(5, 3)` of the map of
signal 0 holds a subscriber with link id 5 and source 0, which is enabled. -/
theorem reachable_maps_are_linked_witness :
    (demoNullary.newlyConstructed ∧
      runCalls 1 demoCalls demoNullary []
        = Res.ok [(0, 2), (1, 3), (1, 4), (0, 5)] demoCallsDone []) ∧
    (demoCallsDone.privs 0).subscriberMap = [(5, 3)] ∧
    ((demoCallsDone.subs 3).linkId = 5 ∧ (demoCallsDone.subs 3).source = 0 ∧
      (0, 5) ∈ [(0, 2), (1, 3), (1, 4), (0, 5)] ∧ (demoCallsDone.subs 3).enabled = true) := by
  have h := (reachable_maps_are_linked 1 demoCalls demoNullary []
    [(0, 2), (1, 3), (1, 4), (0, 5)] demoCallsDone [] newlyConstructed_demoNullary rfl
    0 0 rfl).2 (5, 3) (by decide)
  refine ⟨⟨newlyConstructed_demoNullary, rfl⟩, rfl, h.1, h.2.1, h.2.2.1, ?_⟩
  apply h.2.2.2.2
  intro sig0 src hmem
  simp only [demoCalls, List.mem_cons, List.mem_singleton, SignalCall.connect.injEq,
    reduceCtorEq, List.not_mem_nil, or_false, false_or] at hmem
  rcases hmem with ⟨_, h⟩ | ⟨_, h⟩ | ⟨_, h⟩ | ⟨_, h⟩ <;> rw [h] <;> rfl

/-- C29: on a signal with a private state whose subscribers are not executing,
`disconnectAll()`, its loop being given at least as many iterations as the map has
entries, returns true, also when the map is empty; the map is empty afterwards, every
subscriber that was in it is disabled, the other subscribers are untouched, and the
trace has grown by one call of the hook with false if a hook is installed and the map
was not empty, and by nothing otherwise.  On a signal without private state it
returns false and changes nothing. -/
theorem disconnectAll_empties_the_map (fuel : Nat) (tid : ThreadId) (sig : SigPtr)
    (w : World) (env : List EnvStep) :
    (∀ pp, (w.signals sig)._p = some pp →
      (∀ e ∈ (w.privs pp).subscriberMap, (w.subs e.2).activeThreads = []) →
      (w.privs pp).subscriberMap.length ≤ fuel →
      ∃ w', SignalBase.disconnectAll fuel tid sig w env = Res.ok true w' env ∧
        (w'.privs pp).subscriberMap = [] ∧
        (∀ e ∈ (w.privs pp).subscriberMap, (w'.subs e.2).enabled = false) ∧
        (∀ p, (∀ e ∈ (w.privs pp).subscriberMap, e.2 ≠ p) → w'.subs p = w.subs p) ∧
        w'.trace = w.trace ++
          (match (w.privs pp).onSubscribers with
           | some cb =>
             if (w.privs pp).subscriberMap = [] then [] else [Event.onSubscribers cb false]
           | none => [])) ∧
    ((w.signals sig)._p = none →
      SignalBase.disconnectAll fuel tid sig w env = Res.ok false w env) := by
  refine ⟨?_, ?_⟩
  · intro pp hp hidle hfuel
    obtain ⟨w', h1, h2, h3, h4, _, h6⟩ :=
      resetLoop_all tid pp env true (w.privs pp).subscriberMap w fuel rfl hidle hfuel
    refine ⟨w', ?_, h2, h3, h4, h6⟩
    simp only [SignalBase.disconnectAll, hp, SignalBasePrivate.reset]
    exact h1
  · intro hp
    simp only [SignalBase.disconnectAll, hp]

/-- C29 witness: `disconnectAll()` on signal 0 of `demoTwo`, which has two idle
subscribers and the hook 9, and then once more on the empty map. -/
theorem disconnectAll_empties_the_map_witness :
    ((demoTwo.signals 0)._p = some 0 ∧ (demoTwo.privs 0).subscriberMap = [(2, 0), (3, 1)]) ∧
    ∃ w', SignalBase.disconnectAll 2 1 0 demoTwo [] = Res.ok true w' [] ∧
      (w'.privs 0).subscriberMap = [] ∧
      w'.trace = demoTwo.trace ++ [Event.onSubscribers 9 false] ∧
      ∃ w'', SignalBase.disconnectAll 0 1 0 w' [] = Res.ok true w'' [] ∧
        w''.trace = w'.trace := by
  obtain ⟨w', h1, h2, _, h4, h5⟩ :=
    (disconnectAll_empties_the_map 2 1 0 demoTwo []).1 0 rfl (by decide) (by decide)
  have hsig : (w'.signals 0)._p = some 0 := by
    have h := h1
    simp only [SignalBase.disconnectAll, SignalBasePrivate.reset] at h
    have hmap : (demoTwo.signals 0)._p = some 0 := rfl
    simp only [hmap] at h
    obtain ⟨x, g1, _, _, _, g5, _⟩ :=
      resetLoop_all 1 0 [] true (demoTwo.privs 0).subscriberMap demoTwo 2 rfl
        (by decide) (by decide)
    rw [g1] at h
    injection h with _ hx
    rw [← hx, g5]
    rfl
  obtain ⟨w'', k1, _, _, _, k5⟩ :=
    (disconnectAll_empties_the_map 0 1 0 w' []).1 0 hsig (by rw [h2]; simp) (by rw [h2]; simp)
  refine ⟨⟨rfl, rfl⟩, w', h1, h2, h5, w'', k1, ?_⟩
  rw [k5, h2]
  cases (w'.privs 0).onSubscribers <;> simp

/-- C30: the destructor of a signal adds nothing to the trace, so it never calls the
subscribe-count hook, whether it returns or waits for ever in a disconnect, and it
does one or the other.  When the subscribers of the signal are not executing it
returns with the map empty, every subscriber of the map disabled, the hook cleared and
the trace as before, so the removal of the last subscribers is not reported. -/
theorem destroy_never_calls_the_hook (tid : ThreadId) (sig : SigPtr) (w : World)
    (env : List EnvStep) :
    (∀ w', (SignalBase.destroy tid sig w env).world? = some w' → w'.trace = w.trace) ∧
    ((∃ w' env', SignalBase.destroy tid sig w env = Res.ok () w' env') ∨
      ∃ wb, SignalBase.destroy tid sig w env = Res.blocked wb) ∧
    (∀ pp, (w.signals sig)._p = some pp →
      (∀ e ∈ (w.privs pp).subscriberMap, (w.subs e.2).activeThreads = []) →
      ∃ w', SignalBase.destroy tid sig w env = Res.ok () w' env ∧
        (w'.privs pp).subscriberMap = [] ∧
        (∀ e ∈ (w.privs pp).subscriberMap, (w'.subs e.2).enabled = false) ∧
        (w'.privs pp).onSubscribers = none ∧ w'.trace = w.trace) := by
  cases hp : (w.signals sig)._p with
  | none =>
    have hd : SignalBase.destroy tid sig w env = Res.ok () w env := by
      simp only [SignalBase.destroy, hp]
    rw [hd]
    refine ⟨fun w' h => ?_, Or.inl ⟨_, _, rfl⟩, fun pp h => by cases h⟩
    simp only [Res.world?, Option.some.injEq] at h
    rw [← h]
  | some pp =>
    have hd : SignalBase.destroy tid sig w env
        = disconnectEach tid pp ((w.privs pp).subscriberMap.map Prod.fst)
            { w.setPriv pp { w.privs pp with onSubscribers := none } with
              signals := Function.update w.signals sig { _p := none } } env := by
      simp only [SignalBase.destroy, hp]
      simp [World.setPriv]
    have hhook : (({ w.setPriv pp { w.privs pp with onSubscribers := none } with
        signals := Function.update w.signals sig { _p := none } } : World).privs
          pp).onSubscribers = none := by
      simp [World.setPriv]
    obtain ⟨h1, h2⟩ := disconnectEach_no_hook tid pp
      ((w.privs pp).subscriberMap.map Prod.fst) _ env hhook
    rw [hd]
    refine ⟨fun w' h => (h1 w' h).1, h2, ?_⟩
    intro pp' hpp hidle
    have hpp' : pp' = pp := (Option.some.inj hpp).symm
    subst hpp'
    obtain ⟨w', g1, g2, g3, _, _, g6⟩ := disconnectEach_all tid pp' env
      (w.privs pp').subscriberMap
      { w.setPriv pp' { w.privs pp' with onSubscribers := none } with
        signals := Function.update w.signals sig { _p := none } }
      (by simp [World.setPriv]) hidle
    refine ⟨w', g1, g2, g3, ?_, g6 hhook⟩
    rw [g1] at h1
    exact (h1 w' rfl).2

/-- C30 witness: the destructor of signal 0 of `demoTwo`, which has two subscribers
and the hook 9, leaves the trace as it is, whereas `disconnectAll()` on the same
signal calls the hook with false. -/
theorem destroy_never_calls_the_hook_witness :
    (Res.world? (SignalBase.destroy 1 0 demoTwo [])).map
        (fun w => ((w.privs 0).subscriberMap, w.trace))
      = some ([], demoTwo.trace) ∧
    (Res.world? (SignalBase.disconnectAll 2 1 0 demoTwo [])).map
        (fun w => ((w.privs 0).subscriberMap, w.trace))
      = some ([], demoTwo.trace ++ [Event.onSubscribers 9 false]) := by
  obtain ⟨w', h1, h2, _, _, h5⟩ :=
    (destroy_never_calls_the_hook 1 0 demoTwo []).2.2 0 rfl (by decide)
  refine ⟨?_, rfl⟩
  rw [h1]
  simp [Res.world?, h2, h5]

end qi
